import Mathlib

/-!
# go-pingdom: request construction, response classification and decoding

A shallow embedding of `pingdom/pingdom.go` and `pingdomext/pingdom_ext.go`.

Go values are modelled as follows.

* A Go `error` is `Option GoError`; `none` is the nil interface.  A non-nil interface that
  holds a nil `*PingdomError` is `some (GoError.pingdomError none)`.
* A function returning `(*T, error)` returns a pair `Option T × error`.
* A run-time panic is the constructor `Outcome.panic`.
* The standard library is outside the repository.  `url.Parse`, `os.LookupEnv` and
  `http.DefaultClient` are fields of `Runtime`; reference resolution, `url.ParseQuery`, the
  reading of `Set-Cookie` lines and the client that does not follow redirects are fields of
  `pingdomext.Library`; every theorem holds for every runtime and library.
  `encoding/json`, `url.Values.Encode`, `http.Header.Add`, `http.NewRequest`,
  `Request.AddCookie` and `Request.Cookies` are modelled concretely below.
* A Go map is the list of its entries in the order in which a run visits them; the keys of
  such a list are distinct.
* Go strings are Lean strings (sequences of Unicode scalar values).
-/

namespace pingdom

/-! ## Errors -/

/-- Modelled from the spec: the declaration of `PingdomError` is not among the sources.  The
spec gives the wire shape `{"error": {"statuscode": int, "statusdesc": string,
"errormessage": string}}` and the tests construct `&PingdomError{400, "Bad Request",
"This is an error"}` with the fields `StatusCode`, `StatusDesc`, `Message`. -/
structure PingdomError where
  StatusCode : Int
  StatusDesc : String
  Message : String
  deriving DecidableEq, Repr

/-- Modelled from the spec: the declaration of `errorJSONResponse` is not among the sources.
It has the single member `error`; `validateResponse` returns `m.Error` as an `error` and the
tests compare that result with a `*PingdomError`, so the field is a pointer (`none` is nil). -/
structure errorJSONResponse where
  Error : Option PingdomError
  deriving DecidableEq, Repr

/-- The dynamic values of the Go `error` interface that occur in the two packages. -/
inductive GoError where
  /-- a `*PingdomError`; `none` is the nil pointer inside a non-nil interface -/
  | pingdomError (p : Option PingdomError)
  /-- `*json.SyntaxError`: the input is not JSON -/
  | jsonMalformed
  /-- `*json.UnmarshalTypeError`: a JSON value does not fit the Go type; `value` describes it -/
  | jsonTypeMismatch (value : String)
  /-- `fmt.Errorf` and `errors.New` -/
  | errorString (msg : String)
  /-- an error made by the standard library (URL parsing, transport), identified by its text -/
  | library (msg : String)
  deriving DecidableEq, Repr

deriving instance DecidableEq for Except

/-- The Go `error` interface: `none` is nil. -/
abbrev error := Option GoError

/-- The result of running Go code that may panic. -/
inductive Outcome (α : Type) where
  | ret (a : α)
  | panic (msg : String)
  deriving DecidableEq, Repr

/-- The text of the panic on a nil pointer. -/
def nilDereference : String := "runtime error: invalid memory address or nil pointer dereference"

/-! ## URLs -/

/-- The parts of a `url.URL` that the packages read or write.  `Head` stands for what
`URL.String` renders before the query (scheme, authority, escaped path); the packages never
touch those fields separately. -/
structure URL where
  Head : String
  ForceQuery : Bool
  RawQuery : String
  Fragment : String
  deriving DecidableEq, Repr

/-- The method `(*url.URL).String`: the head, then `?` and the query when `ForceQuery` is set
or the query is non-empty, then `#` and the fragment when it is non-empty. -/
def URL.String (u : URL) : String :=
  u.Head ++ (if u.ForceQuery || u.RawQuery != "" then "?" ++ u.RawQuery else "")
    ++ (if u.Fragment != "" then "#" ++ u.Fragment else "")

/-! ## Query encoding (`url.Values`) -/

/-- The UTF-8 bytes of a character. -/
def utf8Bytes (c : Char) : List Nat :=
  let n := c.toNat
  if n < 0x80 then [n]
  else if n < 0x800 then [0xC0 + n / 64, 0x80 + n % 64]
  else if n < 0x10000 then [0xE0 + n / 4096, 0x80 + n / 64 % 64, 0x80 + n % 64]
  else [0xF0 + n / 262144, 0x80 + n / 4096 % 64, 0x80 + n / 64 % 64, 0x80 + n % 64]

/-- One upper-case hexadecimal digit. -/
def hexDigit (n : Nat) : Char :=
  if n < 10 then Char.ofNat (48 + n) else Char.ofNat (55 + n)

/-- The bytes `url.QueryEscape` leaves alone: ASCII letters, digits, `-`, `_`, `.`, `~`. -/
def unreserved (b : Nat) : Bool :=
  (97 ≤ b && b ≤ 122) || (65 ≤ b && b ≤ 90) || (48 ≤ b && b ≤ 57)
    || b == 45 || b == 95 || b == 46 || b == 126

/-- The escape of one byte by `url.QueryEscape`. -/
def escapeByte (b : Nat) : List Char :=
  if unreserved b then [Char.ofNat b]
  else if b == 32 then ['+']
  else ['%', hexDigit (b / 16), hexDigit (b % 16)]

/-- The function `url.QueryEscape`. -/
def QueryEscape (s : String) : String :=
  String.mk (s.toList.flatMap fun c => (utf8Bytes c).flatMap escapeByte)

/-- A `url.Values`: keys with their value lists. -/
abbrev Values := List (String × List String)

/-- The method `Values.Set`: replace the values of `k` by `[v]`. -/
def Values.Set : Values → String → String → Values
  | [], k, v => [(k, [v])]
  | (k', vs) :: rest, k, v =>
    if k' = k then (k, [v]) :: rest else (k', vs) :: Values.Set rest k v

/-- The method `Values.Add`: append `v` to the values of `k`. -/
def Values.Add : Values → String → String → Values
  | [], k, v => [(k, [v])]
  | (k', vs) :: rest, k, v =>
    if k' = k then (k, vs ++ [v]) :: rest else (k', vs) :: Values.Add rest k v

/-- The order of Go strings (`a < b`): lexicographic by bytes, which for UTF-8 is
lexicographic by code points. -/
def ltChars : List Char → List Char → Bool
  | _, [] => false
  | [], _ :: _ => true
  | a :: as, b :: bs => a.toNat < b.toNat || (a.toNat == b.toNat && ltChars as bs)

/-- The order of Go strings on strings. -/
def strLt (a b : String) : Bool := ltChars a.toList b.toList

/-- Insert an entry into a list of entries sorted by key. -/
def insertByKey (e : String × List String) : Values → Values
  | [] => [e]
  | e' :: rest => if strLt e.1 e'.1 then e :: e' :: rest else e' :: insertByKey e rest

/-- The entries sorted by key, as `Values.Encode` visits them. -/
def sortByKey : Values → Values
  | [] => []
  | e :: rest => insertByKey e (sortByKey rest)

/-- The method `Values.Encode`: keys in ascending order, one `key=value` pair per value,
joined by `&`. -/
def Values.Encode (vs : Values) : String :=
  "&".intercalate
    ((sortByKey vs).flatMap fun e => e.2.map fun v => QueryEscape e.1 ++ "=" ++ QueryEscape v)

/-! ## JSON (`encoding/json`) -/

/-- A JSON value.  A number keeps its literal text, which `json.Unmarshal` converts according
to the Go type it is stored into. -/
inductive JValue where
  | null
  | bool (b : Bool)
  | number (lit : String)
  | string (s : String)
  | array (items : List JValue)
  | object (members : List (String × JValue))

/-- Skip JSON white space: space, tab, line feed, carriage return. -/
def skipWS : List Char → List Char
  | [] => []
  | c :: cs => if c == ' ' || c == '\t' || c == '\n' || c == '\r' then skipWS cs else c :: cs

/-- The value of a hexadecimal digit. -/
def hexVal (c : Char) : Option Nat :=
  if '0' ≤ c ∧ c ≤ '9' then some (c.toNat - 48)
  else if 'a' ≤ c ∧ c ≤ 'f' then some (c.toNat - 87)
  else if 'A' ≤ c ∧ c ≤ 'F' then some (c.toNat - 55)
  else none

/-- The value of four hexadecimal digits. -/
def hex4 (a b c d : Char) : Option Nat :=
  match hexVal a, hexVal b, hexVal c, hexVal d with
  | some a, some b, some c, some d => some (((a * 16 + b) * 16 + c) * 16 + d)
  | _, _, _, _ => none

/-- The character a single-letter escape stands for. -/
def simpleEscape (c : Char) : Option Char :=
  if c == '"' then some '"'
  else if c == '\\' then some '\\'
  else if c == '/' then some '/'
  else if c == 'b' then some (Char.ofNat 8)
  else if c == 'f' then some (Char.ofNat 12)
  else if c == 'n' then some '\n'
  else if c == 'r' then some '\r'
  else if c == 't' then some '\t'
  else none

/-- The characters a pending high surrogate contributes when no low surrogate follows it:
the replacement character U+FFFD. -/
def flushPending (pending : Option Nat) (acc : List Char) : List Char :=
  match pending with
  | some _ => Char.ofNat 0xFFFD :: acc
  | none => acc

/-- The rest of a string literal after its opening quote: the decoded text (`acc` holds it
reversed) and the input after the closing quote.  Control characters and unknown escapes are
errors.  `pending` is a high surrogate written by the `\u` escape just before; with the low
surrogate of a following `\u` escape it makes one character, and otherwise it becomes
U+FFFD, as does a low surrogate on its own. -/
def parseStringBody : List Char → Option Nat → List Char → Option (String × List Char)
  | [], _, _ => none
  | c :: rest, pending, acc =>
    if c == '"' then some (String.mk (flushPending pending acc).reverse, rest)
    else if c.toNat < 32 then none
    else if c == '\\' then
      match rest with
      | [] => none
      | e :: rest1 =>
        if e == 'u' then
          match rest1 with
          | h1 :: h2 :: h3 :: h4 :: rest2 =>
            match hex4 h1 h2 h3 h4 with
            | none => none
            | some n =>
              if 0xDC00 ≤ n ∧ n < 0xE000 then
                match pending with
                | some hi =>
                  parseStringBody rest2 none
                    (Char.ofNat (0x10000 + (hi - 0xD800) * 1024 + (n - 0xDC00)) :: acc)
                | none => parseStringBody rest2 none (Char.ofNat 0xFFFD :: acc)
              else if 0xD800 ≤ n ∧ n < 0xDC00 then
                parseStringBody rest2 (some n) (flushPending pending acc)
              else parseStringBody rest2 none (Char.ofNat n :: flushPending pending acc)
          | _ => none
        else
          match simpleEscape e with
          | some x => parseStringBody rest1 none (x :: flushPending pending acc)
          | none => none
    else parseStringBody rest none (c :: flushPending pending acc)

/-- Split off the longest run of decimal digits. -/
def takeDigits : List Char → List Char × List Char
  | [] => ([], [])
  | c :: cs =>
    if c.isDigit then
      let (ds, rest) := takeDigits cs
      (c :: ds, rest)
    else ([], c :: cs)

/-- A number literal: `-`? then `0` or a non-zero digit and digits, then an optional fraction
`.` digits, then an optional exponent `e` or `E`, sign, digits. -/
def parseNumber (cs : List Char) : Option (String × List Char) :=
  let (sign, cs1) := match cs with
    | '-' :: r => (['-'], r)
    | _ => ([], cs)
  let (intDigits, cs2) := takeDigits cs1
  if intDigits = [] ∨ (intDigits.head? = some '0' ∧ intDigits.length ≠ 1) then none
  else
    let fracPart : Option (List Char × List Char) := match cs2 with
      | '.' :: r =>
        let (ds, r1) := takeDigits r
        if ds = [] then none else some ('.' :: ds, r1)
      | _ => some ([], cs2)
    match fracPart with
    | none => none
    | some (frac, cs3) =>
      let expPart : Option (List Char × List Char) := match cs3 with
        | e :: r =>
          if e == 'e' || e == 'E' then
            let (sg, r1) := match r with
              | s :: r1 => if s == '+' || s == '-' then ([s], r1) else ([], r)
              | [] => ([], r)
            let (ds, r2) := takeDigits r1
            if ds = [] then none else some (e :: sg ++ ds, r2)
          else some ([], cs3)
        | [] => some ([], cs3)
      match expPart with
      | none => none
      | some (ex, cs4) => some (String.mk (sign ++ intDigits ++ frac ++ ex), cs4)

/-- Drop a literal word from the front of the input. -/
def dropWord (w cs : List Char) : Option (List Char) :=
  if w.isPrefixOf cs then some (cs.drop w.length) else none

/-- The constant `maxNestingDepth` of the JSON scanner. -/
def maxNestingDepth : Nat := 10000

mutual
/-- One JSON value after optional white space, and the input after it; `depth` counts the
arrays and objects that are open, and opening one more than `maxNestingDepth` is an error.
Every recursive call comes after at least one character has been consumed, so fuel above
the length of the input never runs out. -/
def parseValue : Nat → Nat → List Char → Option (JValue × List Char)
  | 0, _, _ => none
  | fuel + 1, depth, cs =>
    match skipWS cs with
    | [] => none
    | c :: rest =>
      if c == '\x7b' then
        if maxNestingDepth < depth + 1 then none
        else
          match skipWS rest with
          | '\x7d' :: rest1 => some (.object [], rest1)
          | _ => parseMembers fuel (depth + 1) rest []
      else if c == '[' then
        if maxNestingDepth < depth + 1 then none
        else
          match skipWS rest with
          | ']' :: rest1 => some (.array [], rest1)
          | _ => parseElements fuel (depth + 1) rest []
      else if c == '"' then
        match parseStringBody rest none [] with
        | some (s, rest1) => some (.string s, rest1)
        | none => none
      else if c == 't' then (dropWord "rue".toList rest).map fun r => (.bool true, r)
      else if c == 'f' then (dropWord "alse".toList rest).map fun r => (.bool false, r)
      else if c == 'n' then (dropWord "ull".toList rest).map fun r => (.null, r)
      else
        match parseNumber (c :: rest) with
        | some (lit, rest1) => some (.number lit, rest1)
        | none => none
/-- The elements of an array after `[` or `,`; `acc` holds the earlier ones reversed. -/
def parseElements : Nat → Nat → List Char → List JValue → Option (JValue × List Char)
  | 0, _, _, _ => none
  | fuel + 1, depth, cs, acc =>
    match parseValue fuel depth cs with
    | none => none
    | some (v, rest) =>
      match skipWS rest with
      | ',' :: rest1 => parseElements fuel depth rest1 (v :: acc)
      | ']' :: rest1 => some (.array (v :: acc).reverse, rest1)
      | _ => none
/-- The members of an object after the opening brace or `,`; `acc` holds the earlier ones
reversed. -/
def parseMembers : Nat → Nat → List Char → List (String × JValue) →
    Option (JValue × List Char)
  | 0, _, _, _ => none
  | fuel + 1, depth, cs, acc =>
    match skipWS cs with
    | '"' :: rest =>
      match parseStringBody rest none [] with
      | none => none
      | some (k, rest1) =>
        match skipWS rest1 with
        | ':' :: rest2 =>
          match parseValue fuel depth rest2 with
          | none => none
          | some (v, rest3) =>
            match skipWS rest3 with
            | ',' :: rest4 => parseMembers fuel depth rest4 ((k, v) :: acc)
            | '\x7d' :: rest4 => some (.object ((k, v) :: acc).reverse, rest4)
            | _ => none
        | _ => none
    | _ => none
end

/-- A whole JSON text: one value surrounded by optional white space; `none` is a syntax
error. -/
def parseJSON (data : String) : Option JValue :=
  match parseValue (2 * data.length + 2) 0 data.toList with
  | some (v, rest) => if skipWS rest = [] then some v else none
  | none => none

/-! ### Storing JSON values into Go values -/

/-- The name `json.UnmarshalTypeError` gives to the kind of a JSON value. -/
def JValue.kindName : JValue → String
  | .null => "null"
  | .bool _ => "bool"
  | .number _ => "number"
  | .string _ => "string"
  | .array _ => "array"
  | .object _ => "object"

/-- The decoder keeps the first type error and goes on (`d.saveError`). -/
def saveError (saved : error) (e : GoError) : error :=
  match saved with
  | some s => some s
  | none => some e

/-- Case folding of member names: ASCII letters ignore case, and U+017F and U+212A fold to
`S` and `K`.  No other character folds to an ASCII letter. -/
def foldChar (c : Char) : Char :=
  if 'a' ≤ c ∧ c ≤ 'z' then Char.ofNat (c.toNat - 32)
  else if c.toNat = 0x17F then 'S'
  else if c.toNat = 0x212A then 'K'
  else c

/-- Whether the member `key` of a JSON object is stored into the struct field with the JSON
name `name`: an exact match, or a match after case folding. -/
def fieldMatches (name key : String) : Bool :=
  key == name || key.toList.map foldChar == name.toList.map foldChar

/-- The function `strconv.ParseInt(lit, 10, 64)` on a JSON number literal: an optional minus
sign and decimal digits only, within the range of `int64`. -/
def parseInt64 (lit : String) : Option Int :=
  let (neg, ds) := match lit.toList with
    | '-' :: r => (true, r)
    | r => (false, r)
  if ds = [] ∨ !(ds.all Char.isDigit) then none
  else
    let n : Nat := ds.foldl (fun a c => a * 10 + (c.toNat - 48)) 0
    if neg then (if n ≤ 2 ^ 63 then some (-(n : Int)) else none)
    else (if n < 2 ^ 63 then some (n : Int) else none)

/-- Store a JSON value into an `int` field: null leaves it alone, an integer literal in
range is stored, anything else is a type error and leaves it alone. -/
def storeInt (v : JValue) (cur : Int) (saved : error) : error × Int :=
  match v with
  | .null => (saved, cur)
  | .number lit =>
    match parseInt64 lit with
    | some n => (saved, n)
    | none => (saveError saved (.jsonTypeMismatch ("number " ++ lit)), cur)
  | other => (saveError saved (.jsonTypeMismatch other.kindName), cur)

/-- Store a JSON value into a `string` field: null leaves it alone, a string is stored,
anything else is a type error and leaves it alone. -/
def storeString (v : JValue) (cur : String) (saved : error) : error × String :=
  match v with
  | .null => (saved, cur)
  | .string s => (saved, s)
  | other => (saveError saved (.jsonTypeMismatch other.kindName), cur)

/-- Store one member of a JSON object into a `PingdomError`; unknown members are skipped. -/
def storePingdomErrorMember (st : error × PingdomError) (kv : String × JValue) :
    error × PingdomError :=
  if fieldMatches "statuscode" kv.1 then
    let (e, n) := storeInt kv.2 st.2.StatusCode st.1
    (e, { st.2 with StatusCode := n })
  else if fieldMatches "statusdesc" kv.1 then
    let (e, x) := storeString kv.2 st.2.StatusDesc st.1
    (e, { st.2 with StatusDesc := x })
  else if fieldMatches "errormessage" kv.1 then
    let (e, x) := storeString kv.2 st.2.Message st.1
    (e, { st.2 with Message := x })
  else st

/-- Store a JSON value into the `*PingdomError` field: null makes the pointer nil; any other
value allocates a zero struct when the pointer is nil, then an object stores its members in
order and any other kind is a type error. -/
def storePingdomErrorPtr (v : JValue) (cur : Option PingdomError) (saved : error) :
    error × Option PingdomError :=
  let pointee : PingdomError := cur.getD { StatusCode := 0, StatusDesc := "", Message := "" }
  match v with
  | .null => (saved, none)
  | .object ms =>
    let (e, p) := ms.foldl storePingdomErrorMember (saved, pointee)
    (e, some p)
  | other => (saveError saved (.jsonTypeMismatch other.kindName), some pointee)

/-- Store one member of a JSON object into an `errorJSONResponse`. -/
def storeErrorJSONResponseMember (st : error × errorJSONResponse) (kv : String × JValue) :
    error × errorJSONResponse :=
  if fieldMatches "error" kv.1 then
    let (e, p) := storePingdomErrorPtr kv.2 st.2.Error st.1
    (e, { Error := p })
  else st

/-- Store a JSON value through `&m` where `m` is a `*errorJSONResponse`: null makes `m`
nil; an object stores its members into the struct `m` points to; any other kind is a type
error. -/
def storeErrorJSONResponsePtr (v : JValue) (m : Option errorJSONResponse) :
    error × Option errorJSONResponse :=
  let pointee : errorJSONResponse := m.getD { Error := none }
  match v with
  | .null => (none, none)
  | .object ms =>
    let (e, r) := ms.foldl storeErrorJSONResponseMember (none, pointee)
    (e, some r)
  | other => (some (.jsonTypeMismatch other.kindName), some pointee)

/-- The call `json.Unmarshal(data, &m)` for `m` of type `*errorJSONResponse`: a syntax error
leaves `m` alone. -/
def unmarshalErrorJSONResponse (data : String) (m : Option errorJSONResponse) :
    error × Option errorJSONResponse :=
  match parseJSON data with
  | none => (some .jsonMalformed, m)
  | some v => storeErrorJSONResponsePtr v m

/-- A Go type that `json.Unmarshal` can store into through a non-nil pointer: what storing a
JSON value does to the present value of that type. -/
class JSONTarget (τ : Type) where
  store : JValue → τ → error × τ

/-- The call `json.Unmarshal(data, &v)` where the interface `v` holds a non-nil pointer to
`t`: a syntax error leaves the target alone. -/
def jsonUnmarshal {τ : Type} [JSONTarget τ] (data : String) (t : τ) : error × τ :=
  match parseJSON data with
  | none => (some .jsonMalformed, t)
  | some v => JSONTarget.store v t

/-- The struct `foo` of `TestDo`, with its single string field `A`. -/
structure foo where
  A : String
  deriving DecidableEq, Repr

/-- Store one member of a JSON object into a `foo`. -/
def storeFooMember (st : error × foo) (kv : String × JValue) : error × foo :=
  if fieldMatches "A" kv.1 then
    let (e, x) := storeString kv.2 st.2.A st.1
    (e, { A := x })
  else st

instance : JSONTarget foo where
  store v t :=
    match v with
    | .null => (none, t)
    | .object ms => ms.foldl storeFooMember (none, t)
    | other => (some (.jsonTypeMismatch other.kindName), t)

/-! ## Requests -/

/-- An `http.Header` with canonical keys: the `(key, value)` pairs in the order of `Add`. -/
abbrev Header := List (String × String)

/-- The method `Header.Add`. -/
def Header.Add (h : Header) (k v : String) : Header := h ++ [(k, v)]

/-- The method `Header.Values`: all values stored under `k`, in order. -/
def Header.Values (h : Header) (k : String) : List String :=
  (h.filter fun e => e.1 == k).map Prod.snd

/-- The method `Header.Get`: the first value stored under `k`, or the empty string. -/
def Header.Get (h : Header) (k : String) : String :=
  (Header.Values h k).headD ""

/-- An `http.Request` as the packages build it. -/
structure Request where
  Method : String
  URL : URL
  Header : Header
  Body : Option String
  deriving DecidableEq, Repr

/-- The bytes allowed in an HTTP method (`httpguts.IsTokenRune`). -/
def isTokenChar (c : Char) : Bool :=
  c.isAlphanum || "!#$%&*+-.^_|~".toList.contains c || c == Char.ofNat 39 || c == Char.ofNat 96

/-! ## Responses and the transport -/

/-- A response body stream: the bytes not yet read, whether a read has reached the end of
the stream, and whether `Close` has been called. -/
structure Body where
  unread : String
  atEOF : Bool
  closed : Bool
  deriving DecidableEq, Repr

/-- A fresh body holding `s`. -/
def Body.ofString (s : String) : Body := { unread := s, atEOF := false, closed := false }

/-- The function `ioutil.ReadAll` on a body: everything unread, leaving the stream at its
end.  On a closed body the read fails and yields no bytes; the callers drop that error. -/
def Body.ReadAll (b : Body) : String × Body :=
  if b.closed then ("", b) else (b.unread, { b with unread := "", atEOF := true })

/-- The method `Body.Close`. -/
def Body.Close (b : Body) : Body := { b with closed := true }

/-- An `http.Response` as the packages read it. -/
structure Response where
  StatusCode : Int
  Header : Header
  Body : Body
  deriving DecidableEq, Repr

/-- An `*http.Client`: what `Do` answers to a request, a transport error or a response. -/
structure HTTPClient where
  Do : Request → Except GoError Response

/-- The standard library and the process environment. -/
structure Runtime where
  /-- the function `url.Parse` -/
  urlParse : String → Except GoError URL
  /-- the function `os.LookupEnv` -/
  LookupEnv : String → Option String
  /-- the variable `http.DefaultClient` -/
  DefaultClient : HTTPClient

/-- The function `http.NewRequest`: an empty method means GET, the method must be a token,
the URL must parse; the header starts empty. -/
def httpNewRequest (rt : Runtime) (method urlStr : String) (body : Option String) :
    Except GoError Request :=
  let method := if method = "" then "GET" else method
  if !(method.toList.all isTokenChar) then
    .error (.library ("net/http: invalid method " ++ method))
  else
    match rt.urlParse urlStr with
    | .error e => .error e
    | .ok u => .ok { Method := method, URL := u, Header := [], Body := body }

/-! ## The client (`pingdom/pingdom.go`) -/

/-- The constant `defaultBaseURL`. -/
def defaultBaseURL : String := "https://api.pingdom.com/api/3.1"

/-- The struct `Client`.  `BaseURL` is a non-nil `*url.URL`.  The service fields (`Checks`,
`Contacts`, ...) are back references to the client itself and carry no data. -/
structure Client where
  APIToken : String
  APITokenOnly : String
  BaseURL : URL
  client : HTTPClient

/-- The struct `ClientConfig`; `HTTPClient` is `none` for nil. -/
structure ClientConfig where
  APIToken : String
  APITokenOnly : String
  BaseURL : String
  HTTPClient : Option HTTPClient

/-- The function `NewClientWithConfig`. -/
def NewClientWithConfig (rt : Runtime) (config : ClientConfig) : Option Client × error :=
  match (if config.BaseURL ≠ "" then rt.urlParse config.BaseURL
         else rt.urlParse defaultBaseURL) with
  | .error err => (none, some err)
  | .ok baseURL =>
    let APIToken :=
      if config.APIToken = "" then
        match rt.LookupEnv "PINGDOM_API_TOKEN" with
        | some envAPIToken => envAPIToken
        | none => ""
      else config.APIToken
    let APITokenOnly :=
      if config.APITokenOnly = "" then
        match rt.LookupEnv "PINGDOM_API_TOKEN_ONLY" with
        | some envAPITokenOnly => envAPITokenOnly
        | none => ""
      else config.APITokenOnly
    if APIToken = "" ∧ APITokenOnly = "" then
      (none, some (.errorString "either API Token or API Token Only must be provided"))
    else
      let client := match config.HTTPClient with
        | some hc => hc
        | none => rt.DefaultClient
      (some { APIToken := APIToken, APITokenOnly := APITokenOnly,
              BaseURL := baseURL, client := client }, none)

/-- The method `addAuthHeaders`. -/
def Client.addAuthHeaders (pc : Client) (req : Request) : Request :=
  if pc.APITokenOnly ≠ "" then
    { req with Header := Header.Add req.Header "Authorization" ("Bearer " ++ pc.APITokenOnly) }
  else if pc.APIToken ≠ "" then
    { req with Header := Header.Add req.Header "Authorization" ("Bearer " ++ pc.APIToken) }
  else req

/-- The loop `for k, v := range params { ps.Set(k, v) }`; the list is the map in the order
in which this run iterates over it. -/
def setAll (params : List (String × String)) : Values :=
  params.foldl (fun ps kv => Values.Set ps kv.1 kv.2) []

/-- The loops `for k, mv := range params { for _, v := range mv { ps.Add(k, v) } }`. -/
def addAll (params : List (String × List String)) : Values :=
  params.foldl (fun ps kmv => kmv.2.foldl (fun ps v => Values.Add ps kmv.1 v) ps) []

/-- The method `NewRequest`; `params` is `none` for a nil map. -/
def Client.NewRequest (rt : Runtime) (pc : Client) (method rsc : String)
    (params : Option (List (String × String))) : Option Request × error :=
  match rt.urlParse (pc.BaseURL.String ++ rsc) with
  | .error err => (none, some err)
  | .ok baseURL =>
    let baseURL := match params with
      | some ps => { baseURL with RawQuery := Values.Encode (setAll ps) }
      | none => baseURL
    match httpNewRequest rt method baseURL.String none with
    | .error err => (none, some err)
    | .ok req => (some (pc.addAuthHeaders req), none)

/-- The method `NewRequestMultiParamValue`; `params` is `none` for a nil map. -/
def Client.NewRequestMultiParamValue (rt : Runtime) (pc : Client) (method rsc : String)
    (params : Option (List (String × List String))) : Option Request × error :=
  match rt.urlParse (pc.BaseURL.String ++ rsc) with
  | .error err => (none, some err)
  | .ok baseURL =>
    let baseURL := match params with
      | some ps => { baseURL with RawQuery := Values.Encode (addAll ps) }
      | none => baseURL
    match httpNewRequest rt method baseURL.String none with
    | .error err => (none, some err)
    | .ok req => (some (pc.addAuthHeaders req), none)

/-- The method `NewJSONRequest`. -/
def Client.NewJSONRequest (rt : Runtime) (pc : Client) (method rsc : String)
    (params : String) : Option Request × error :=
  match rt.urlParse (pc.BaseURL.String ++ rsc) with
  | .error err => (none, some err)
  | .ok baseURL =>
    match httpNewRequest rt method baseURL.String (some params) with
    | .error err => (none, some err)
    | .ok req =>
      let req := pc.addAuthHeaders req
      (some { req with Header := Header.Add req.Header "Content-Type" "application/json" }, none)

/-! ## Execute and decode -/

/-- The calls `Do` makes, in order. -/
inductive Call where
  | transport (req : Request)
  | validateResponse
  | decodeResponse
  deriving DecidableEq, Repr

/-- What a call of `Do` leaves behind: the returned response and error, the caller's target,
and the calls made. -/
structure DoResult (τ : Type) where
  resp : Option Response
  err : error
  target : Option τ
  calls : List Call
  deriving DecidableEq

/-- The function `validateResponse`, with the response after the call. -/
def validateResponse (r : Response) : Outcome (error × Response) :=
  if 200 ≤ r.StatusCode ∧ r.StatusCode ≤ 299 then .ret (none, r)
  else
    let (bodyString, body) := r.Body.ReadAll
    let r := { r with Body := body }
    let m : Option errorJSONResponse := some { Error := none }
    let (err, m) := unmarshalErrorJSONResponse bodyString m
    match err with
    | some e => .ret (some e, r)
    | none =>
      match m with
      | none => .panic nilDereference
      | some m => .ret (some (.pingdomError m.Error), r)

/-- The function `decodeResponse`, with the response and the target after the call; the
target `v` is `none` for a nil interface and `some t` for a non-nil pointer to `t`. -/
def decodeResponse {τ : Type} [JSONTarget τ] (r : Response) (v : Option τ) :
    error × Response × Option τ :=
  match v with
  | none => (some (.errorString "nil interface provided to decodeResponse"), r, none)
  | some t =>
    let (bodyString, body) := r.Body.ReadAll
    let (err, t) := jsonUnmarshal bodyString t
    (err, { r with Body := body }, some t)

/-- The method `Do`.  The deferred `resp.Body.Close()` runs on every return after the
transport answered. -/
def Client.Do {τ : Type} [JSONTarget τ] (pc : Client) (req : Request) (v : Option τ) :
    Outcome (DoResult τ) :=
  match pc.client.Do req with
  | .error err => .ret { resp := none, err := some err, target := v, calls := [.transport req] }
  | .ok resp =>
    match validateResponse resp with
    | .panic msg => .panic msg
    | .ret (some err, resp) =>
      .ret { resp := some { resp with Body := resp.Body.Close }, err := some err, target := v,
             calls := [.transport req, .validateResponse] }
    | .ret (none, resp) =>
      let (err, resp, v) := decodeResponse resp v
      .ret { resp := some { resp with Body := resp.Body.Close }, err := err, target := v,
             calls := [.transport req, .validateResponse, .decodeResponse] }

/-! ## A concrete runtime for the examples -/

/-- Cut a list at the first occurrence of `sep`: the part before it, and the part after it
when `sep` occurs (`strings.Cut`). -/
def cutAt (sep : Char) : List Char → List Char × Option (List Char)
  | [] => ([], none)
  | c :: cs =>
    if c == sep then ([], some cs)
    else
      let (before, after) := cutAt sep cs
      (c :: before, after)

/-- A stand-in for `url.Parse` in the examples.  It rejects control characters and splits
the fragment and the query off as `url.Parse` does; what remains is kept as the head, which
is what `url.Parse` and `String` do for a URL with a lower-case scheme whose host and path
need no escaping. -/
def simpleParse (raw : String) : Except GoError URL :=
  let cs := raw.toList
  if cs.any fun c => c.toNat < 32 || c.toNat == 127 then
    .error (.library "net/url: invalid control character in URL")
  else
    let (u, frag) := cutAt '#' cs
    if u.getLast? = some '?' ∧ u.count '?' = 1 then
      .ok { Head := String.mk u.dropLast, ForceQuery := true, RawQuery := "",
            Fragment := String.mk (frag.getD []) }
    else
      let (head, query) := cutAt '?' u
      .ok { Head := String.mk head, ForceQuery := false, RawQuery := String.mk (query.getD []),
            Fragment := String.mk (frag.getD []) }

/-- A response with a fresh body and no headers. -/
def plainResponse (code : Int) (body : String) : Response :=
  { StatusCode := code, Header := [], Body := Body.ofString body }

/-- A transport that answers every request with the same response. -/
def answering (code : Int) (body : String) : HTTPClient :=
  { Do := fun _ => .ok (plainResponse code body) }

/-- A transport that fails every request with the same error. -/
def failing (e : GoError) : HTTPClient :=
  { Do := fun _ => .error e }

/-- A runtime with `simpleParse`, the given environment and a default client that answers
200 with an empty JSON object. -/
def sampleRuntime (env : String → Option String) : Runtime :=
  { urlParse := simpleParse, LookupEnv := env, DefaultClient := answering 200 "\x7b\x7d" }

/-- The environment in which no variable is set. -/
def noEnv : String → Option String := fun _ => none

/-- The base URL of the examples. -/
def exampleBase : URL :=
  { Head := "https://api.pingdom.com/api/3.1", ForceQuery := false, RawQuery := "",
    Fragment := "" }

/-- A client whose two tokens are the same string. -/
def sameTokens : Client :=
  { APIToken := "t", APITokenOnly := "t", BaseURL := exampleBase, client := answering 200 "" }

/-- The client of the precedence case of `TestClientAuthenticationHeaders`. -/
def bothTokens : Client :=
  { APIToken := "token", APITokenOnly := "token_only", BaseURL := exampleBase,
    client := answering 200 "" }

/-- The request `GET /checks` as a client with the Authorization value `auth` builds it. -/
def checksRequest (auth : String) : Request :=
  { Method := "GET",
    URL := { Head := "https://api.pingdom.com/api/3.1/checks", ForceQuery := false,
             RawQuery := "", Fragment := "" },
    Header := [("Authorization", auth)], Body := none }

/-- The environment of `TestNewClientWithEnvAPITokenDoesNotOverride`. -/
def envWithToken : String → Option String :=
  fun name => if name = "PINGDOM_API_TOKEN" then some "envSetToken" else none

/-- A config with the given tokens and nothing else. -/
def tokensConfig (token only : String) : ClientConfig :=
  { APIToken := token, APITokenOnly := only, BaseURL := "", HTTPClient := none }

/-- The JSON value of an error envelope whose status code is written `lit`. -/
def envelope (lit desc msg : String) : JValue :=
  .object [("error", .object [("statuscode", .number lit), ("statusdesc", .string desc),
    ("errormessage", .string msg)])]

/-- The error body of `TestValidateResponse`. -/
def badRequestBody : String :=
  "\x7b\n\t\t\"error\" : \x7b\n\t\t\t\"statuscode\": 400,\n\t\t\t\"statusdesc\": \"Bad Request\","
    ++ "\n\t\t\t\"errormessage\": \"This is an error\"\n\t\t\x7d\n\t\t\x7d"

/-- The request `GET /` without headers. -/
def rootRequest : Request :=
  { Method := "GET",
    URL := { Head := "https://api.pingdom.com/api/3.1/", ForceQuery := false, RawQuery := "",
             Fragment := "" },
    Header := [], Body := none }

/-- A client with the primary token "my_api_token" on the given transport. -/
def clientOn (hc : HTTPClient) : Client :=
  { APIToken := "my_api_token", APITokenOnly := "", BaseURL := exampleBase, client := hc }

end pingdom

/-! ## The extension client (`pingdomext/pingdom_ext.go`) -/

namespace pingdomext

open pingdom (error GoError Outcome URL Request Response HTTPClient JSONTarget DoResult Call
  errorJSONResponse unmarshalErrorJSONResponse jsonUnmarshal nilDereference)

/-- The struct `Client` of the extension package.  `BaseURL` is a non-nil `*url.URL`; the
field `Integrations` is a back reference to the client itself. -/
structure Client where
  JWTToken : String
  APITokenOnly : String
  BaseURL : URL
  client : HTTPClient
  useAPITokenOnly : Bool

/-- The function `validateResponse` of the extension package. -/
def validateResponse (r : Response) : Outcome (error × Response) :=
  if 200 ≤ r.StatusCode ∧ r.StatusCode ≤ 299 then .ret (none, r)
  else
    let (bodyString, body) := r.Body.ReadAll
    let r := { r with Body := body }
    let m : Option errorJSONResponse := some { Error := none }
    let (err, m) := unmarshalErrorJSONResponse bodyString m
    match err with
    | some e => .ret (some e, r)
    | none =>
      match m with
      | none => .panic nilDereference
      | some m => .ret (some (.pingdomError m.Error), r)

/-- The function `decodeResponse` of the extension package. -/
def decodeResponse {τ : Type} [JSONTarget τ] (r : Response) (v : Option τ) :
    error × Response × Option τ :=
  match v with
  | none => (some (.errorString "nil interface provided to decodeResponse"), r, none)
  | some t =>
    let (bodyString, body) := r.Body.ReadAll
    let (err, t) := jsonUnmarshal bodyString t
    (err, { r with Body := body }, some t)

/-- The method `Do` of the extension package. -/
def Client.Do {τ : Type} [JSONTarget τ] (pc : Client) (req : Request) (v : Option τ) :
    Outcome (DoResult τ) :=
  match pc.client.Do req with
  | .error err => .ret { resp := none, err := some err, target := v, calls := [.transport req] }
  | .ok resp =>
    match validateResponse resp with
    | .panic msg => .panic msg
    | .ret (some err, resp) =>
      .ret { resp := some { resp with Body := resp.Body.Close }, err := some err, target := v,
             calls := [.transport req, .validateResponse] }
    | .ret (none, resp) =>
      let (err, resp, v) := decodeResponse resp v
      .ret { resp := some { resp with Body := resp.Body.Close }, err := err, target := v,
             calls := [.transport req, .validateResponse, .decodeResponse] }

/-- A session-mode client with the token "my_jwt_token" on the given transport. -/
def clientOn (hc : HTTPClient) : Client :=
  { JWTToken := "my_jwt_token", APITokenOnly := "", BaseURL := pingdom.exampleBase,
    client := hc, useAPITokenOnly := false }

end pingdomext

/-! ## Cookies, the session handshake and construction (`pingdomext/pingdom_ext.go`) -/

namespace pingdomext

open pingdom (error GoError Outcome URL Request Response HTTPClient Runtime Header Values
  JValue parseJSON storeString fieldMatches httpNewRequest setAll nilDereference)

/-- The constant `defaultAuthURL`. -/
def defaultAuthURL : String := "https://my.solarwinds.cloud/v1/login"

/-- The constant `defaultBaseURL` of the extension package. -/
def defaultBaseURL : String := "https://my.pingdom.com"

/-- The constant `apiURL`. -/
def apiURL : String := "https://api.pingdom.com/api/3.1"

/-- The struct `ClientConfig` of the extension package; `HTTPClient` is `none` for nil. -/
structure ClientConfig where
  Username : String
  Password : String
  OrgID : String
  AuthURL : String
  BaseURL : String
  HTTPClient : Option HTTPClient
  APITokenOnly : String

/-- The struct `authPayload`. -/
structure authPayload where
  Email : String
  Password : String
  LoginQueryParams : String
  deriving DecidableEq, Repr

/-- The struct `authResult`. -/
structure authResult where
  RedirectURL : String
  deriving DecidableEq, Repr

/-- The fields of an `http.Cookie` that `AddCookie` writes: the name, the value, and whether
the value was quoted when it was read (`Quoted`, always false before Go 1.23). -/
structure Cookie where
  Name : String
  Value : String
  Quoted : Bool := false
  deriving DecidableEq, Repr

/-- The method `Header.Set`: the single value `v` replaces what is stored under `k`. -/
def HeaderSet (h : Header) (k v : String) : Header :=
  (h.filter fun e => e.1 != k) ++ [(k, v)]

/-- The function `sanitizeCookieName` of `net/http`: line breaks become `-`. -/
def sanitizeCookieName (n : String) : String :=
  String.mk (n.toList.map fun c => if c == '\n' || c == '\r' then '-' else c)

/-- The function `validCookieValueByte` of `net/http`, on a character: printable ASCII other
than the double quote, the semicolon and the backslash.  Every byte of a character outside
ASCII is invalid. -/
def validCookieValueChar (c : Char) : Bool :=
  32 ≤ c.toNat && c.toNat < 127 && c != '"' && c != ';' && c != '\\'

/-- The function `sanitizeCookieValue` of `net/http`: invalid bytes are dropped, and what
remains is put in double quotes when it holds a space or a comma or was read quoted. -/
def sanitizeCookieValue (v : String) (quoted : Bool) : String :=
  let kept := v.toList.filter validCookieValueChar
  if kept = [] then ""
  else if kept.contains ' ' || kept.contains ',' || quoted then
    String.mk ('"' :: kept ++ ['"'])
  else String.mk kept

/-- The method `(*http.Request).AddCookie`: the sanitized `name=value` is the Cookie header,
or is appended to it after `; ` when the request has one. -/
def AddCookie (r : Request) (c : Cookie) : Request :=
  let s := sanitizeCookieName c.Name ++ "=" ++ sanitizeCookieValue c.Value c.Quoted
  let cur := Header.Get r.Header "Cookie"
  if cur ≠ "" then { r with Header := HeaderSet r.Header "Cookie" (cur ++ "; " ++ s) }
  else { r with Header := HeaderSet r.Header "Cookie" s }

/-- The function `isASCIISpace` of `net/textproto`. -/
def isASCIISpace (c : Char) : Bool := c == ' ' || c == '\t' || c == '\n' || c == '\r'

/-- The function `textproto.TrimString`: ASCII white space removed at both ends. -/
def trimString (cs : List Char) : List Char :=
  ((cs.dropWhile isASCIISpace).reverse.dropWhile isASCIISpace).reverse

/-- The parts of a line between the occurrences of `sep`. -/
def splitAll (sep : Char) : List Char → List (List Char)
  | [] => [[]]
  | c :: cs =>
    if c == sep then [] :: splitAll sep cs
    else
      match splitAll sep cs with
      | [] => [[c]]
      | p :: ps => (c :: p) :: ps

/-- The function `isCookieNameValid` of `net/http`: a non-empty token. -/
def isCookieNameValid (name : List Char) : Bool :=
  !name.isEmpty && name.all pingdom.isTokenChar

/-- The function `parseCookieValue` of `net/http` with double quotes allowed: surrounding
quotes are stripped, and a value with an invalid byte is rejected. -/
def parseCookieValue (raw : List Char) : Option (List Char × Bool) :=
  let stripped : List Char × Bool :=
    if 1 < raw.length ∧ raw.head? = some '"' ∧ raw.getLast? = some '"' then
      ((raw.drop 1).dropLast, true)
    else (raw, false)
  if stripped.1.all validCookieValueChar then some stripped else none

/-- One `name=value` part of a Cookie line as `readCookies` of `net/http` reads it; a part
that is empty, has an invalid name or an invalid value is skipped. -/
def readCookiePart (part : List Char) : Option Cookie :=
  let part := trimString part
  if part.isEmpty then none
  else
    let (name, val) := pingdom.cutAt '=' part
    let name := trimString name
    if !isCookieNameValid name then none
    else
      match parseCookieValue (val.getD []) with
      | none => none
      | some (v, quoted) => some { Name := String.mk name, Value := String.mk v, Quoted := quoted }

/-- The function `readCookies` of `net/http`: the cookies of the Cookie lines, in order. -/
def readCookies (h : Header) : List Cookie :=
  (Header.Values h "Cookie").flatMap fun line =>
    (splitAll ';' (trimString line.toList)).filterMap readCookiePart

/-- The method `(*http.Request).Cookies`. -/
def Cookies (r : Request) : List Cookie := readCookies r.Header

/-- The method `NewRequest` of the extension package; `params` is `none` for a nil map. -/
def Client.NewRequest (rt : Runtime) (pc : Client) (method rsc : String)
    (params : Option (List (String × String))) : Option Request × error :=
  match rt.urlParse (pc.BaseURL.String ++ rsc) with
  | .error err => (none, some err)
  | .ok baseURL =>
    let baseURL := match params with
      | some ps => { baseURL with RawQuery := Values.Encode (setAll ps) }
      | none => baseURL
    match httpNewRequest rt method baseURL.String none with
    | .error err => (none, some err)
    | .ok req =>
      if pc.useAPITokenOnly then
        (some { req with
                Header := Header.Add req.Header "Authorization" ("Bearer " ++ pc.APITokenOnly) },
          none)
      else (some (AddCookie req { Name := "jwt", Value := pc.JWTToken }), none)

/-- The parts of the standard library that only the handshake uses. -/
structure Library where
  /-- the method `(*url.URL).Parse`: a reference resolved against the URL -/
  resolve : URL → String → Except GoError URL
  /-- the function `url.ParseQuery` as `(*url.URL).Query` calls it on the raw query: the
  pairs that decode, malformed ones dropped -/
  parseQuery : String → Values
  /-- the function `readSetCookies` behind `(*http.Response).Cookies`: the cookies of the
  `Set-Cookie` lines, in order -/
  readSetCookies : Header → List Cookie
  /-- the client `&http.Client{CheckRedirect: ...}` that does not follow redirects -/
  noRedirectClient : HTTPClient

/-- The method `(*http.Response).Location` of the response to `req`: the `Location` header,
resolved against the URL of the request; an empty header is `http.ErrNoLocation`. -/
def Location (lib : Library) (req : Request) (r : Response) : Except GoError URL :=
  let lv := Header.Get r.Header "Location"
  if lv = "" then .error (.library "http: no Location header in response")
  else lib.resolve req.URL lv

/-- The function `getCookie`. -/
def getCookie (lib : Library) (resp : Response) (name : String) : Option Cookie × error :=
  match (lib.readSetCookies resp.Header).find? fun cookie => cookie.Name == name with
  | some cookie => (some cookie, none)
  | none => (none, some (.errorString "there is no cookie in the response"))

/-- One lower-case hexadecimal digit. -/
def lowerHex (n : Nat) : Char :=
  if n < 10 then Char.ofNat (48 + n) else Char.ofNat (87 + n)

/-- The characters `json.Marshal` writes for one character of a string: escapes for the
double quote, the backslash, control characters, `<`, `>`, `&`, U+2028 and U+2029. -/
def encodeJSONChar (c : Char) : List Char :=
  if c == '"' then ['\\', '"']
  else if c == '\\' then ['\\', '\\']
  else if c.toNat == 8 then ['\\', 'b']
  else if c.toNat == 12 then ['\\', 'f']
  else if c == '\n' then ['\\', 'n']
  else if c == '\r' then ['\\', 'r']
  else if c == '\t' then ['\\', 't']
  else if c.toNat < 32 || c == '<' || c == '>' || c == '&' then
    ['\\', 'u', '0', '0', lowerHex (c.toNat / 16), lowerHex (c.toNat % 16)]
  else if c.toNat == 0x2028 then ['\\', 'u', '2', '0', '2', '8']
  else if c.toNat == 0x2029 then ['\\', 'u', '2', '0', '2', '9']
  else [c]

/-- A string as `json.Marshal` writes it. -/
def encodeJSONString (s : String) : String :=
  String.mk ('"' :: s.toList.flatMap encodeJSONChar ++ ['"'])

/-- The call `json.Marshal(authPayload)`, which cannot fail. -/
def marshalAuthPayload (p : authPayload) : String :=
  "\x7b\"email\":" ++ encodeJSONString p.Email ++ ",\"password\":" ++ encodeJSONString p.Password
    ++ ",\"loginQueryParams\":" ++ encodeJSONString p.LoginQueryParams ++ "\x7d"

/-- Store one member of a JSON object into an `authResult`. -/
def storeAuthResultMember (st : error × authResult) (kv : String × JValue) :
    error × authResult :=
  if fieldMatches "redirectUrl" kv.1 then
    let (e, x) := storeString kv.2 st.2.RedirectURL st.1
    (e, { RedirectURL := x })
  else st

/-- The call `json.Unmarshal(data, &authRespJSON)` for `authRespJSON` of type `*authResult`:
a syntax error leaves the pointer alone, null makes it nil, an object stores its members,
any other kind is a type error. -/
def unmarshalAuthResult (data : String) (m : Option authResult) : error × Option authResult :=
  match parseJSON data with
  | none => (some .jsonMalformed, m)
  | some .null => (none, none)
  | some (.object ms) =>
    let (e, r) := ms.foldl storeAuthResultMember (none, m.getD { RedirectURL := "" })
    (e, some r)
  | some other => (some (.jsonTypeMismatch other.kindName), some (m.getD { RedirectURL := "" }))

/-- The function `obtainToken`, with the requests handed to the transport, in order.  The
deferred `Body.Close` calls do not enter the result. -/
def obtainToken (rt : Runtime) (lib : Library) (config : ClientConfig) :
    Outcome (Option String × error × List Request) :=
  match rt.urlParse (config.BaseURL ++ "/auth/login?") with
  | .error err => .ret (none, some err, [])
  | .ok stateURL =>
  match httpNewRequest rt "GET" stateURL.String none with
  | .error err => .ret (none, some err, [])
  | .ok stateReq =>
  match config.HTTPClient with
  | none => .panic nilDereference
  | some client =>
  match client.Do stateReq with
  | .error err => .ret (none, some err, [stateReq])
  | .ok stateResp =>
  match Location lib stateReq stateResp with
  | .error err => .ret (none, some err, [stateReq])
  | .ok location =>
  match getCookie lib stateResp "pingdom_login_session_id" with
  | (_, some err) => .ret (none, some err, [stateReq])
  | (none, none) => .panic nilDereference
  | (some sessionCookie, none) =>
  let payload : authPayload :=
    { Email := config.Username, Password := config.Password,
      LoginQueryParams := Values.Encode (lib.parseQuery location.RawQuery) }
  let authBody := marshalAuthPayload payload
  match httpNewRequest rt "POST" config.AuthURL (some authBody) with
  | .error err => .ret (none, some err, [stateReq])
  | .ok authReq0 =>
  let authReq : Request :=
    { authReq0 with Header := Header.Add authReq0.Header "Content-Type" "application/json" }
  match client.Do authReq with
  | .error err => .ret (none, some err, [stateReq, authReq])
  | .ok authResp =>
  let bodyString := authResp.Body.ReadAll.1
  match unmarshalAuthResult bodyString (some { RedirectURL := "" }) with
  | (some err1, _) => .ret (none, some err1, [stateReq, authReq])
  | (none, none) => .panic nilDereference
  | (none, some authRespJSON) =>
  match rt.urlParse authRespJSON.RedirectURL with
  | .error err => .ret (none, some err, [stateReq, authReq])
  | .ok redirectURL =>
  match httpNewRequest rt "GET"
      (config.BaseURL ++ "/auth/swicus/callback?"
        ++ Values.Encode (lib.parseQuery redirectURL.RawQuery)) none with
  | .error err => .ret (none, some err, [stateReq, authReq])
  | .ok tokenReq0 =>
  let tokenReq := AddCookie (AddCookie tokenReq0 sessionCookie)
    { Name := "login_session_swicus_org_id", Value := config.OrgID }
  match client.Do tokenReq with
  | .error err => .ret (none, some err, [stateReq, authReq, tokenReq])
  | .ok tokenResp =>
  match getCookie lib tokenResp "jwt" with
  | (_, some err) => .ret (none, some err, [stateReq, authReq, tokenReq])
  | (none, none) => .panic nilDereference
  | (some jwtCookie, none) => .ret (some jwtCookie.Value, none, [stateReq, authReq, tokenReq])

/-- The function `NewClientWithConfig` of the extension package, with the requests handed to
the transport during construction.  The assignments to the fields of `config` are the
bindings `BaseURL`, `HTTPClient`, `Username`, `Password`, `OrgID` and `AuthURL`. -/
def NewClientWithConfig (rt : Runtime) (lib : Library) (config : ClientConfig) :
    Outcome (Option Client × error × List Request) :=
  let apiTokenOnly :=
    if config.APITokenOnly = "" then
      match rt.LookupEnv "PINGDOM_API_TOKEN" with
      | some envAPIToken => envAPIToken
      | none => ""
    else config.APITokenOnly
  let BaseURL :=
    if config.BaseURL = "" then
      if apiTokenOnly ≠ "" then apiURL else defaultBaseURL
    else config.BaseURL
  match rt.urlParse BaseURL with
  | .error err => .ret (none, some err, [])
  | .ok baseURL =>
    let HTTPClient : HTTPClient :=
      match config.HTTPClient with
      | none => lib.noRedirectClient
      | some hc => hc
    if apiTokenOnly ≠ "" then
      .ret (some { JWTToken := "", APITokenOnly := apiTokenOnly, BaseURL := baseURL,
                   client := HTTPClient, useAPITokenOnly := true }, none, [])
    else
      let Username :=
        if config.Username = "" then
          match rt.LookupEnv "SOLARWINDS_USER" with
          | some envUsername => envUsername
          | none => config.Username
        else config.Username
      let Password :=
        if config.Password = "" then
          match rt.LookupEnv "SOLARWINDS_PASSWD" with
          | some envPassword => envPassword
          | none => config.Password
        else config.Password
      let OrgID :=
        if config.OrgID = "" then
          match rt.LookupEnv "SOLARWINDS_ORG_ID" with
          | some envOrgID => envOrgID
          | none => config.OrgID
        else config.OrgID
      let AuthURL := if config.AuthURL = "" then defaultAuthURL else config.AuthURL
      match obtainToken rt lib
          { Username := Username, Password := Password, OrgID := OrgID, AuthURL := AuthURL,
            BaseURL := BaseURL, HTTPClient := some HTTPClient,
            APITokenOnly := config.APITokenOnly } with
      | .panic msg => .panic msg
      | .ret (_, some err, sent) => .ret (none, some err, sent)
      | .ret (none, none, _) => .panic nilDereference
      | .ret (some jwtToken, none, sent) =>
        .ret (some { JWTToken := jwtToken, APITokenOnly := "", BaseURL := baseURL,
                     client := HTTPClient, useAPITokenOnly := false }, none, sent)

/-! ### A concrete library and server for the examples -/

/-- The function `url.QueryUnescape` on ASCII text: `+` is a space and `%XX` is the byte
`XX`; a malformed escape is an error. -/
def unescapeQuery : List Char → Option (List Char)
  | [] => some []
  | c :: rest =>
    if c == '%' then
      match rest with
      | a :: b :: rest2 =>
        match pingdom.hexVal a, pingdom.hexVal b with
        | some x, some y => (unescapeQuery rest2).map fun r => Char.ofNat (16 * x + y) :: r
        | _, _ => none
      | _ => none
    else if c == '+' then (unescapeQuery rest).map fun r => ' ' :: r
    else (unescapeQuery rest).map fun r => c :: r

/-- The function `url.ParseQuery` with its error dropped, as `(*url.URL).Query` uses it, on
ASCII text: the pairs between `&`, each cut at the first `=`, both sides unescaped; empty
pairs, pairs with a semicolon and pairs with a malformed escape are left out. -/
def simpleParseQuery (raw : String) : Values :=
  (splitAll '&' raw.toList).foldl
    (fun acc part =>
      if part.isEmpty || part.contains ';' then acc
      else
        let (k, v) := pingdom.cutAt '=' part
        match unescapeQuery k, unescapeQuery (v.getD []) with
        | some k, some v => Values.Add acc (String.mk k) (String.mk v)
        | _, _ => acc)
    []

/-- The name and value that `readSetCookies` of `net/http` reads from one `Set-Cookie` line:
the first part of the line, cut at `=`, with a valid name and a valid value. -/
def readSetCookieLine (line : String) : Option Cookie :=
  match splitAll ';' (trimString line.toList) with
  | [] => none
  | first :: _ =>
    match pingdom.cutAt '=' (trimString first) with
    | (_, none) => none
    | (name, some value) =>
      if !isCookieNameValid (trimString name) then none
      else
        match parseCookieValue value with
        | none => none
        | some (v, quoted) =>
          some { Name := String.mk (trimString name), Value := String.mk v, Quoted := quoted }

/-- The cookies of the `Set-Cookie` lines of a header, by name and value. -/
def simpleReadSetCookies (h : Header) : List Cookie :=
  (Header.Values h "Set-Cookie").filterMap readSetCookieLine

/-- The answer of the test server of `TestNewClientWithConfig` to `/auth/login`. -/
def loginResponse : Response :=
  { StatusCode := 200,
    Header := [("Set-Cookie", "pingdom_login_session_id=qw4us4Ed7aLSGugMRDHkqM9G6mwuKdn9Hz90r6IHhRc%3D; Path=/; HttpOnly; Secure"),
               ("Location", "https://my.solarwinds.cloud/login?response_type=code&scope=openid%20swicus&client_id=pingdom&state=htILEppzoMPtb6UjOdM98XPS3Mcwkr3Y&redirect_uri=https%3A%2F%2Fmy.pingdom.com%2Fauth%2Fswicus%2Fcallback")],
    Body := pingdom.Body.ofString "\x7b\x7d" }

/-- The answer of the test server to `/v1/login`. -/
def authResponse : Response :=
  { StatusCode := 200, Header := [],
    Body := pingdom.Body.ofString "\x7b\"RedirectUrl\": \"https://my.pingdom.com/auth/swicus/callback?code=70kRkkAB7OIv5YYTPR6LpHH-2jMbtaDEHScLDw1amfw.baMoW3w-HkNXOj_I8pv580mRwBjIRVdFLW3cXFGRX9o&scope=openid+swicus&state=htILEppzoMPtb6UjOdM98XPS3Mcwkr3Y\"\x7d" }

/-- The answer of the test server to `/auth/swicus/callback`. -/
def callbackResponse : Response :=
  { StatusCode := 200, Header := [("Set-Cookie", "jwt=my_test_token")],
    Body := pingdom.Body.ofString "\x7b\x7d" }

/-- The test server of `TestNewClientWithConfig` at 127.0.0.1:8080: its three answers, and
404 for any other path. -/
def handshakeServer : HTTPClient :=
  { Do := fun req =>
      if req.URL.Head = "http://127.0.0.1:8080/auth/login" then .ok loginResponse
      else if req.URL.Head = "http://127.0.0.1:8080/v1/login" then .ok authResponse
      else if req.URL.Head = "http://127.0.0.1:8080/auth/swicus/callback" then
        .ok callbackResponse
      else .ok { StatusCode := 404, Header := [],
                 Body := pingdom.Body.ofString "404 page not found" } }

/-- A URL without query and fragment. -/
def plainURL (head : String) : URL :=
  { Head := head, ForceQuery := false, RawQuery := "", Fragment := "" }

/-- The first request of the handshake against the test server. -/
def loginRequest : Request :=
  { Method := "GET",
    URL := { Head := "http://127.0.0.1:8080/auth/login", ForceQuery := true, RawQuery := "",
             Fragment := "" },
    Header := [], Body := none }

/-- The URL of the `Location` header of `loginResponse`. -/
def loginLocation : URL :=
  { Head := "https://my.solarwinds.cloud/login", ForceQuery := false,
    RawQuery := "response_type=code&scope=openid%20swicus&client_id=pingdom&state=htILEppzoMPtb6UjOdM98XPS3Mcwkr3Y&redirect_uri=https%3A%2F%2Fmy.pingdom.com%2Fauth%2Fswicus%2Fcallback",
    Fragment := "" }

/-- The session cookie of `loginResponse`. -/
def loginSessionCookie : Cookie :=
  { Name := "pingdom_login_session_id",
    Value := "qw4us4Ed7aLSGugMRDHkqM9G6mwuKdn9Hz90r6IHhRc%3D" }

/-- The second request of the handshake against the test server, before its Content-Type
header is added. -/
def authRequest : Request :=
  { Method := "POST", URL := plainURL "http://127.0.0.1:8080/v1/login", Header := [],
    Body := some (marshalAuthPayload
      { Email := "test_user", Password := "test_pwd",
        LoginQueryParams := "client_id=pingdom&redirect_uri=https%3A%2F%2Fmy.pingdom.com%2Fauth%2Fswicus%2Fcallback&response_type=code&scope=openid+swicus&state=htILEppzoMPtb6UjOdM98XPS3Mcwkr3Y" }) }

/-- The redirect URL of `authResponse`. -/
def callbackRedirect : URL :=
  { Head := "https://my.pingdom.com/auth/swicus/callback", ForceQuery := false,
    RawQuery := "code=70kRkkAB7OIv5YYTPR6LpHH-2jMbtaDEHScLDw1amfw.baMoW3w-HkNXOj_I8pv580mRwBjIRVdFLW3cXFGRX9o&scope=openid+swicus&state=htILEppzoMPtb6UjOdM98XPS3Mcwkr3Y",
    Fragment := "" }

/-- The third request of the handshake against the test server, before its cookies are
added. -/
def callbackRequest : Request :=
  { Method := "GET",
    URL := { Head := "http://127.0.0.1:8080/auth/swicus/callback", ForceQuery := false,
             RawQuery := "code=70kRkkAB7OIv5YYTPR6LpHH-2jMbtaDEHScLDw1amfw.baMoW3w-HkNXOj_I8pv580mRwBjIRVdFLW3cXFGRX9o&scope=openid+swicus&state=htILEppzoMPtb6UjOdM98XPS3Mcwkr3Y",
             Fragment := "" },
    Header := [], Body := none }

/-- A library for the examples: absolute references only, the ASCII query parser, and the
reader of `Set-Cookie` names and values. -/
def sampleLibrary : Library :=
  { resolve := fun _ ref => pingdom.simpleParse ref,
    parseQuery := simpleParseQuery,
    readSetCookies := simpleReadSetCookies,
    noRedirectClient := handshakeServer }

/-- The config of `TestNewClientWithConfig`, with the test server at 127.0.0.1:8080. -/
def handshakeConfig : ClientConfig :=
  { Username := "test_user", Password := "test_pwd", OrgID := "test_org",
    AuthURL := "http://127.0.0.1:8080/v1/login", BaseURL := "http://127.0.0.1:8080",
    HTTPClient := some handshakeServer, APITokenOnly := "" }

/-- The test server of `TestNewClientWithConfig2`: it answers `/auth/login` only, and 404 for
any other path. -/
def loginOnlyServer : HTTPClient :=
  { Do := fun req =>
      if req.URL.Head = "http://127.0.0.1:8080/auth/login" then .ok loginResponse
      else .ok { StatusCode := 404, Header := [],
                 Body := pingdom.Body.ofString "404 page not found" } }

/-- The config of `TestNewClientWithConfig2`. -/
def loginOnlyConfig : ClientConfig :=
  { Username := "test_user", Password := "test_pwd", OrgID := "test_org",
    AuthURL := "http://127.0.0.1:8080/v1/login", BaseURL := "http://127.0.0.1:8080",
    HTTPClient := some loginOnlyServer, APITokenOnly := "" }

/-- A config for the test server with the given user name, password and organization id and
no static token. -/
def credentialsConfig (username password orgID : String) : ClientConfig :=
  { Username := username, Password := password, OrgID := orgID,
    AuthURL := "http://127.0.0.1:8080/v1/login", BaseURL := "http://127.0.0.1:8080",
    HTTPClient := some handshakeServer, APITokenOnly := "" }

/-- A response whose `Set-Cookie` header has the given lines, as in `Test_getCookie`. -/
def setCookieResponse (lines : List String) : Response :=
  { StatusCode := 200, Header := lines.map fun l => ("Set-Cookie", l),
    Body := pingdom.Body.ofString "" }

/-- The config of `TestNewClientWithAPIToken`. -/
def tokenConfig : ClientConfig :=
  { Username := "", Password := "", OrgID := "", AuthURL := "",
    BaseURL := "http://127.0.0.1:8080", HTTPClient := some handshakeServer,
    APITokenOnly := "test_api_token" }

end pingdomext

/-! ## Query decoding (`net/url`) -/

namespace pingdom

/-- The bytes of a Go string: the UTF-8 bytes of its characters. -/
def utf8 (s : String) : List Nat := s.toList.flatMap utf8Bytes

/-- The function `url.QueryUnescape`, from the text to the bytes of its result: `%XX` is the
byte with the hexadecimal value `XX`, `+` is a space, any other character stands for its own
bytes; an escape that is cut short or is not hexadecimal is an error. -/
def QueryUnescape : List Char → Option (List Nat)
  | [] => some []
  | c :: rest =>
    if c == '%' then
      match rest with
      | a :: b :: rest2 =>
        match hexVal a, hexVal b with
        | some x, some y => (QueryUnescape rest2).map fun r => (16 * x + y) :: r
        | _, _ => none
      | _ => none
    else if c == '+' then (QueryUnescape rest).map fun r => 32 :: r
    else (QueryUnescape rest).map fun r => utf8Bytes c ++ r

/-- A `url.Values` by the bytes of its keys and values. -/
abbrev ByteValues := List (List Nat × List (List Nat))

/-- The statement `m[key] = append(m[key], value)`. -/
def ByteValues.Add : ByteValues → List Nat → List Nat → ByteValues
  | [], k, v => [(k, [v])]
  | (k', vs) :: rest, k, v =>
    if k' = k then (k, vs ++ [v]) :: rest else (k', vs) :: ByteValues.Add rest k v

/-- One turn of the loop of `url.ParseQuery`, on the text `part` between two `&`: it is cut
at its first `=`, both sides are unescaped, and the value is appended to the values of the
key; an empty part, a part with a semicolon and a part with a malformed escape are left
out. -/
def parseQueryPart (m : ByteValues) (part : List Char) : ByteValues :=
  if part.contains ';' then m
  else if part.isEmpty then m
  else
    let (key, value) := cutAt '=' part
    match QueryUnescape key with
    | none => m
    | some key =>
      match QueryUnescape (value.getD []) with
      | none => m
      | some value => ByteValues.Add m key value

/-- The function `url.ParseQuery` with its error dropped, as `(*url.URL).Query` uses it: the
parts between `&`, taken in order. -/
def ParseQuery (query : String) : ByteValues :=
  (pingdomext.splitAll '&' query.toList).foldl parseQueryPart []

end pingdom

/-! ## Check types (`pingdom/check_types.go`) -/

namespace pingdom

/-- The function `strconv.Itoa`, also the verbs `%d` and `%v` of `fmt` on an `int`. -/
def Itoa (n : Int) : String := toString n

/-- The function `strconv.FormatBool`. -/
def FormatBool (b : Bool) : String := if b then "true" else "false"

/-- A `map[string]string`: its entries, with distinct keys. -/
abbrev Params := List (String × String)

/-- The assignment `m[k] = v`: the value of an existing key is replaced, a new key is
added. -/
def mapSet : Params → String → String → Params
  | [], k, v => [(k, v)]
  | (k', v') :: rest, k, v => if k' = k then (k, v) :: rest else (k', v') :: mapSet rest k v

/-- The call `delete(m, k)`. -/
def mapDelete (m : Params) (k : String) : Params := m.filter fun e => e.1 != k

/-- The index expression `m[k]`: the value of the key, or the empty string. -/
def mapIndex (m : Params) (k : String) : String := (m.lookup k).getD ""

/-- The statement `if c { m[k] = v }`. -/
def setIf (c : Prop) [Decidable c] (m : Params) (k v : String) : Params :=
  if c then mapSet m k v else m

/-- The statement `if p != nil { m[k] = f(*p) }`, given the value `f(*p)` of a pointer `p`
that is not nil. -/
def setSome (m : Params) (k : String) : Option String → Params
  | some v => mapSet m k v
  | none => m

/-- The struct `HttpCheck`; a nil pointer field is `none`, a nil slice or map is the empty
list. -/
structure HttpCheck where
  CustomMessage : String
  Encryption : Bool
  Hostname : String
  IPV6 : Bool
  IntegrationIds : List Int
  Name : String
  NotifyAgainEvery : Int
  NotifyWhenBackup : Bool
  Password : String
  Paused : Bool
  Port : Int
  PostData : String
  ProbeFilters : String
  RequestHeaders : Params
  Resolution : Int
  ResponseTimeThreshold : Int
  SSLDownDaysBefore : Option Int
  SendNotificationWhenDown : Int
  ShouldContain : String
  ShouldNotContain : String
  Tags : String
  TeamIds : List Int
  Url : String
  UserIds : List Int
  Username : String
  VerifyCertificate : Option Bool
  deriving DecidableEq, Repr

/-- The struct `PingCheck`. -/
structure PingCheck where
  Hostname : String
  IntegrationIds : List Int
  Name : String
  NotifyAgainEvery : Int
  NotifyWhenBackup : Bool
  Paused : Bool
  ProbeFilters : String
  Resolution : Int
  ResponseTimeThreshold : Int
  SendNotificationWhenDown : Int
  Tags : String
  TeamIds : List Int
  UserIds : List Int
  deriving DecidableEq, Repr

/-- The struct `TCPCheck`. -/
structure TCPCheck where
  CustomMessage : String
  Hostname : String
  IPV6 : Bool
  IntegrationIds : List Int
  Name : String
  NotifyAgainEvery : Int
  NotifyWhenBackup : Bool
  Paused : Bool
  Port : Int
  ProbeFilters : String
  Resolution : Int
  ResponseTimeThreshold : Int
  SendNotificationWhenDown : Int
  StringToExpect : String
  StringToSend : String
  Tags : String
  TeamIds : List Int
  UserIds : List Int
  deriving DecidableEq, Repr

/-- The struct `DNSCheck`. -/
structure DNSCheck where
  ExpectedIP : String
  Hostname : String
  IPV6 : Bool
  IntegrationIds : List Int
  Name : String
  NameServer : String
  NotifyAgainEvery : Int
  NotifyWhenBackup : Bool
  Paused : Bool
  ProbeFilters : String
  Resolution : Int
  SendNotificationWhenDown : Int
  Tags : String
  TeamIds : List Int
  UserIds : List Int
  deriving DecidableEq, Repr

/-- The loop of `intListToCDString`: `i` is the index of the next item and `CDString` the
text so far. -/
def intListLoop : List Int → Nat → String → String
  | [], _, CDString => CDString
  | item :: rest, i, CDString =>
    intListLoop rest (i + 1) (if i = 0 then Itoa item else CDString ++ "," ++ Itoa item)

/-- The function `intListToCDString`. -/
def intListToCDString (integers : List Int) : String := intListLoop integers 0 ""

/-- The function `validCommonParameters`. -/
def validCommonParameters (name hostname : String) (resolution : Int) : error :=
  if name = "" then
    some (.errorString "invalid value for `Name`, must contain non-empty string")
  else if hostname = "" then
    some (.errorString "invalid value for `Hostname`, must contain non-empty string")
  else if resolution ≠ 0 ∧ resolution ≠ 1 ∧ resolution ≠ 5 ∧ resolution ≠ 15 ∧
      resolution ≠ 30 ∧ resolution ≠ 60 then
    some (.errorString ("invalid value " ++ Itoa resolution
      ++ " for `Resolution`, allowed values are [1,5,15,30,60]"))
  else none

/-- Insert a string into a sorted list of strings. -/
def insertString (k : String) : List String → List String
  | [] => [k]
  | k' :: rest => if strLt k k' then k :: k' :: rest else k' :: insertString k rest

/-- The function `sort.Strings`: the strings in ascending order. -/
def sortStrings : List String → List String
  | [] => []
  | k :: rest => insertString k (sortStrings rest)

/-- The loop `for i, k := range headers` of `HttpCheck.PutParams`: header `i` of the sorted
names is stored under `requestheader` followed by `i`, as `name:value`. -/
def setRequestHeaders (requestHeaders : Params) : List String → Nat → Params → Params
  | [], _, m => m
  | k :: rest, i, m =>
    setRequestHeaders requestHeaders rest (i + 1)
      (mapSet m ("requestheader" ++ Itoa i) (k ++ ":" ++ mapIndex requestHeaders k))

/-- The method `HttpCheck.PutParams`. -/
def HttpCheck.PutParams (ck : HttpCheck) : Params :=
  let m : Params :=
    [("custom_message", ck.CustomMessage),
     ("encryption", FormatBool ck.Encryption),
     ("host", ck.Hostname),
     ("integrationids", intListToCDString ck.IntegrationIds),
     ("ipv6", FormatBool ck.IPV6),
     ("name", ck.Name),
     ("notifyagainevery", Itoa ck.NotifyAgainEvery),
     ("notifywhenbackup", FormatBool ck.NotifyWhenBackup),
     ("paused", FormatBool ck.Paused),
     ("postdata", ck.PostData),
     ("probe_filters", ck.ProbeFilters),
     ("tags", ck.Tags),
     ("teamids", intListToCDString ck.TeamIds),
     ("url", ck.Url),
     ("userids", intListToCDString ck.UserIds)]
  let m := setIf (ck.Resolution ≠ 0) m "resolution" (Itoa ck.Resolution)
  let m := setIf (ck.SendNotificationWhenDown ≠ 0) m "sendnotificationwhendown"
    (Itoa ck.SendNotificationWhenDown)
  let m := setIf (ck.Port ≠ 0) m "port" (Itoa ck.Port)
  let m := setIf (ck.SendNotificationWhenDown ≠ 0) m "sendnotificationwhendown"
    (Itoa ck.SendNotificationWhenDown)
  let m := setIf (ck.ResponseTimeThreshold ≠ 0) m "responsetime_threshold"
    (Itoa ck.ResponseTimeThreshold)
  let m := setSome m "verify_certificate" (ck.VerifyCertificate.map FormatBool)
  let m := setSome m "ssl_down_days_before" (ck.SSLDownDaysBefore.map Itoa)
  let m :=
    if ck.ShouldContain ≠ "" then mapSet m "shouldcontain" ck.ShouldContain
    else mapSet m "shouldnotcontain" ck.ShouldNotContain
  let m := setIf (ck.Username ≠ "") m "auth" (ck.Username ++ ":" ++ ck.Password)
  let headers := sortStrings (ck.RequestHeaders.map Prod.fst)
  setRequestHeaders ck.RequestHeaders headers 0 m

/-- The loop `for k, v := range params { if v == "" { delete(params, k) } }`: the entries
are visited in the order of the list. -/
def deleteEmpty (params : Params) : Params :=
  params.foldl (fun m kv => if kv.2 = "" then mapDelete m kv.1 else m) params

/-- The method `HttpCheck.PostParams`. -/
def HttpCheck.PostParams (ck : HttpCheck) : Params :=
  mapSet (deleteEmpty ck.PutParams) "type" "http"

/-- The method `HttpCheck.Valid`. -/
def HttpCheck.Valid (ck : HttpCheck) : error :=
  match validCommonParameters ck.Name ck.Hostname ck.Resolution with
  | some err => some err
  | none =>
    if ck.ShouldContain ≠ "" ∧ ck.ShouldNotContain ≠ "" then
      some (.errorString
        "`ShouldContain` and `ShouldNotContain` must not be declared at the same time")
    else none

/-- The method `PingCheck.PutParams`. -/
def PingCheck.PutParams (ck : PingCheck) : Params :=
  let m : Params :=
    [("host", ck.Hostname),
     ("integrationids", intListToCDString ck.IntegrationIds),
     ("name", ck.Name),
     ("notifyagainevery", Itoa ck.NotifyAgainEvery),
     ("notifywhenbackup", FormatBool ck.NotifyWhenBackup),
     ("paused", FormatBool ck.Paused),
     ("probe_filters", ck.ProbeFilters),
     ("teamids", intListToCDString ck.TeamIds),
     ("userids", intListToCDString ck.UserIds)]
  let m := setIf (ck.Resolution ≠ 0) m "resolution" (Itoa ck.Resolution)
  let m := setIf (ck.SendNotificationWhenDown ≠ 0) m "sendnotificationwhendown"
    (Itoa ck.SendNotificationWhenDown)
  setIf (ck.ResponseTimeThreshold ≠ 0) m "responsetime_threshold" (Itoa ck.ResponseTimeThreshold)

/-- The method `PingCheck.PostParams`. -/
def PingCheck.PostParams (ck : PingCheck) : Params :=
  mapSet (deleteEmpty ck.PutParams) "type" "ping"

/-- The method `PingCheck.Valid`. -/
def PingCheck.Valid (ck : PingCheck) : error :=
  match validCommonParameters ck.Name ck.Hostname ck.Resolution with
  | some err => some err
  | none => none

/-- The method `TCPCheck.PutParams`. -/
def TCPCheck.PutParams (ck : TCPCheck) : Params :=
  let m : Params :=
    [("custom_message", ck.CustomMessage),
     ("host", ck.Hostname),
     ("integrationids", intListToCDString ck.IntegrationIds),
     ("ipv6", FormatBool ck.IPV6),
     ("name", ck.Name),
     ("notifyagainevery", Itoa ck.NotifyAgainEvery),
     ("notifywhenbackup", FormatBool ck.NotifyWhenBackup),
     ("paused", FormatBool ck.Paused),
     ("port", Itoa ck.Port),
     ("probe_filters", ck.ProbeFilters),
     ("tags", ck.Tags),
     ("teamids", intListToCDString ck.TeamIds),
     ("userids", intListToCDString ck.UserIds)]
  let m := setIf (ck.Resolution ≠ 0) m "resolution" (Itoa ck.Resolution)
  let m := setIf (ck.ResponseTimeThreshold ≠ 0) m "responsetime_threshold"
    (Itoa ck.ResponseTimeThreshold)
  let m := setIf (ck.SendNotificationWhenDown ≠ 0) m "sendnotificationwhendown"
    (Itoa ck.SendNotificationWhenDown)
  let m := setIf (ck.StringToSend ≠ "") m "stringtosend" ck.StringToSend
  setIf (ck.StringToExpect ≠ "") m "stringtoexpect" ck.StringToExpect

/-- The method `TCPCheck.PostParams`. -/
def TCPCheck.PostParams (ck : TCPCheck) : Params :=
  mapSet (deleteEmpty ck.PutParams) "type" "tcp"

/-- The method `TCPCheck.Valid`. -/
def TCPCheck.Valid (ck : TCPCheck) : error :=
  match validCommonParameters ck.Name ck.Hostname ck.Resolution with
  | some err => some err
  | none =>
    if ck.Port < 1 ∨ ck.Port > 65535 then
      some (.errorString
        "Invalid value for `Port`.  Must contain an integer >= 1 and <= 65535")
    else none

/-- The method `DNSCheck.PutParams`. -/
def DNSCheck.PutParams (ck : DNSCheck) : Params :=
  let m : Params :=
    [("expectedip", ck.ExpectedIP),
     ("host", ck.Hostname),
     ("integrationids", intListToCDString ck.IntegrationIds),
     ("ipv6", FormatBool ck.IPV6),
     ("name", ck.Name),
     ("nameserver", ck.NameServer),
     ("notifyagainevery", Itoa ck.NotifyAgainEvery),
     ("notifywhenbackup", FormatBool ck.NotifyWhenBackup),
     ("paused", FormatBool ck.Paused),
     ("probe_filters", ck.ProbeFilters),
     ("tags", ck.Tags),
     ("teamids", intListToCDString ck.TeamIds),
     ("userids", intListToCDString ck.UserIds)]
  let m := setIf (ck.Resolution ≠ 0) m "resolution" (Itoa ck.Resolution)
  setIf (ck.SendNotificationWhenDown ≠ 0) m "sendnotificationwhendown"
    (Itoa ck.SendNotificationWhenDown)

/-- The method `DNSCheck.PostParams`. -/
def DNSCheck.PostParams (ck : DNSCheck) : Params :=
  mapSet (deleteEmpty ck.PutParams) "type" "dns"

/-- The method `DNSCheck.Valid`. -/
def DNSCheck.Valid (ck : DNSCheck) : error :=
  match validCommonParameters ck.Name ck.Hostname ck.Resolution with
  | some err => some err
  | none =>
    if ck.ExpectedIP = "" then
      some (.errorString "invalid value for `ExpectedIP`, must contain non-empty string")
    else if ck.NameServer = "" then
      some (.errorString "invalid value for `NameServer`, must contain non-empty string")
    else none

/-! ### Example checks -/

/-- An HTTP check with the given name, host, resolution and content settings, and every
other field at its zero value. -/
def httpCheckOf (name hostname : String) (resolution : Int)
    (shouldContain shouldNotContain : String) : HttpCheck :=
  { CustomMessage := "", Encryption := false, Hostname := hostname, IPV6 := false,
    IntegrationIds := [], Name := name, NotifyAgainEvery := 0, NotifyWhenBackup := false,
    Password := "", Paused := false, Port := 0, PostData := "", ProbeFilters := "",
    RequestHeaders := [], Resolution := resolution, ResponseTimeThreshold := 0,
    SSLDownDaysBefore := none, SendNotificationWhenDown := 0,
    ShouldContain := shouldContain, ShouldNotContain := shouldNotContain, Tags := "",
    TeamIds := [], Url := "", UserIds := [], Username := "", VerifyCertificate := none }

/-- A ping check with the given name, host and resolution, and every other field at its zero
value. -/
def pingCheckOf (name hostname : String) (resolution : Int) : PingCheck :=
  { Hostname := hostname, IntegrationIds := [], Name := name, NotifyAgainEvery := 0,
    NotifyWhenBackup := false, Paused := false, ProbeFilters := "", Resolution := resolution,
    ResponseTimeThreshold := 0, SendNotificationWhenDown := 0, Tags := "", TeamIds := [],
    UserIds := [] }

/-- A TCP check with the given name, host, resolution and port, and every other field at
its zero value. -/
def tcpCheckOf (name hostname : String) (resolution port : Int) : TCPCheck :=
  { CustomMessage := "", Hostname := hostname, IPV6 := false, IntegrationIds := [],
    Name := name, NotifyAgainEvery := 0, NotifyWhenBackup := false, Paused := false,
    Port := port, ProbeFilters := "", Resolution := resolution, ResponseTimeThreshold := 0,
    SendNotificationWhenDown := 0, StringToExpect := "", StringToSend := "", Tags := "",
    TeamIds := [], UserIds := [] }

end pingdom

/-! ## Vocabulary of the statements -/

namespace pingdom

/-- The relation between the parameters `put` of a PUT request, a type name `t` and the
parameters `post` of a POST request: `post` is `put` without the entries whose value is the
empty string and with the entry "type" set to `t`; it is a map, none of its values is
empty, its entry "type" is `t`, and its other entries are the entries of `put` with a
non-empty value. -/
def PostOf (put : Params) (t : String) (post : Params) : Prop :=
  post = mapSet (put.filter fun e => e.2 != "") "type" t ∧
  (post.map Prod.fst).Nodup ∧
  (∀ k v, (k, v) ∈ post → v ≠ "") ∧
  (∀ v, ("type", v) ∈ post ↔ v = t) ∧
  (∀ k v, k ≠ "type" → ((k, v) ∈ post ↔ (k, v) ∈ put ∧ v ≠ ""))

/-- The request `req` is the result of one of the three request builders of `pc`. -/
def BuiltBy (rt : Runtime) (pc : Client) (req : Request) : Prop :=
  (∃ method rsc params, (pc.NewRequest rt method rsc params).1 = some req) ∨
  (∃ method rsc params, (pc.NewRequestMultiParamValue rt method rsc params).1 = some req) ∨
  (∃ method rsc params, (pc.NewJSONRequest rt method rsc params).1 = some req)

/-- The Authorization values `addAuthHeaders` adds for a client. -/
def authValues (pc : Client) : List String :=
  if pc.APITokenOnly ≠ "" then ["Bearer " ++ pc.APITokenOnly]
  else if pc.APIToken ≠ "" then ["Bearer " ++ pc.APIToken]
  else []

/-- A static-token slot is absent: the config value is empty and the environment variable
is unset or set to the empty string. -/
def Absent (configValue : String) (envValue : Option String) : Prop :=
  configValue = "" ∧ (envValue = none ∨ envValue = some "")

/-- The resolution order of a static-token slot in the words of the spec: the explicit
config value, else the value from the environment, else empty. -/
def resolutionOrder (configValue : String) (envValue : Option String) : String :=
  if configValue ≠ "" then configValue
  else match envValue with
    | some v => v
    | none => ""

/-- The strict order of entries by key. -/
def KeyLt (a b : String × List String) : Prop := strLt a.1 b.1 = true

/-- The `key=value` pairs of one key of a `url.Values`, escaped, in the order of its
values. -/
def queryPairs (e : String × List String) : List String :=
  e.2.map fun v => QueryEscape e.1 ++ "=" ++ QueryEscape v

/-- The library reads back the URL `u` from its own rendering: `url.Parse(u.String())` is
`u`. -/
def ReadsBack (rt : Runtime) (u : URL) : Prop := rt.urlParse u.String = .ok u

/-- The method `http.NewRequest` uses for a given method: `GET` for the empty string. -/
def effectiveMethod (method : String) : String := if method = "" then "GET" else method

/-- The static token of the extension package in the words of the spec: the config value,
else the environment variable `PINGDOM_API_TOKEN`, else empty. -/
def extToken (rt : Runtime) (config : pingdomext.ClientConfig) : String :=
  resolutionOrder config.APITokenOnly (rt.LookupEnv "PINGDOM_API_TOKEN")

/-- The config with which the extension package runs the handshake: the session
credentials resolved from the config and the environment, the default auth URL and base URL
filled in, and the client that does not follow redirects when none is given. -/
def sessionConfig (rt : Runtime) (lib : pingdomext.Library) (config : pingdomext.ClientConfig) :
    pingdomext.ClientConfig :=
  { Username := resolutionOrder config.Username (rt.LookupEnv "SOLARWINDS_USER"),
    Password := resolutionOrder config.Password (rt.LookupEnv "SOLARWINDS_PASSWD"),
    OrgID := resolutionOrder config.OrgID (rt.LookupEnv "SOLARWINDS_ORG_ID"),
    AuthURL := if config.AuthURL = "" then pingdomext.defaultAuthURL else config.AuthURL,
    BaseURL := if config.BaseURL = "" then pingdomext.defaultBaseURL else config.BaseURL,
    HTTPClient := some (config.HTTPClient.getD lib.noRedirectClient),
    APITokenOnly := config.APITokenOnly }

/-- The number that a list of decimal digits writes, most significant digit first. -/
def decimalValue (digits : List Char) : Nat :=
  digits.foldl (fun acc c => 10 * acc + (c.toNat - 48)) 0

/-- The status code is in the 2xx range. -/
def Is2xx (r : Response) : Prop := 200 ≤ r.StatusCode ∧ r.StatusCode ≤ 299

instance (r : Response) : Decidable (Is2xx r) := by unfold Is2xx; infer_instance

end pingdom

/-! ## Properties of request construction -/

namespace pingdom

theorem Header.Values_Add (h : Header) (k v k' : String) :
    Header.Values (Header.Add h k v) k' =
      Header.Values h k' ++ (if k = k' then [v] else []) := by
  unfold Header.Values Header.Add
  by_cases hk : k = k'
  · simp [List.filter_append, hk]
  · simp [List.filter_append, hk]

theorem httpNewRequest_header {rt : Runtime} {method urlStr : String} {body : Option String}
    {req : Request} (h : httpNewRequest rt method urlStr body = .ok req) : req.Header = [] := by
  unfold httpNewRequest at h
  simp only at h
  repeat' split at h
  all_goals first | (cases h; rfl) | cases h

theorem addAuthHeaders_values (pc : Client) (req : Request) (h : req.Header = []) :
    Header.Values (pc.addAuthHeaders req).Header "Authorization" = authValues pc := by
  unfold Client.addAuthHeaders authValues
  by_cases h1 : pc.APITokenOnly = ""
  · by_cases h2 : pc.APIToken = ""
    · simp [h1, h2, h, Header.Values]
    · simp [h1, h2, h, Header.Values, Header.Add]
  · simp [h1, h, Header.Values, Header.Add]

theorem NewRequest_auth {rt : Runtime} {pc : Client} {method rsc : String}
    {params : Option (List (String × String))} {req : Request}
    (h : (pc.NewRequest rt method rsc params).1 = some req) :
    Header.Values req.Header "Authorization" = authValues pc := by
  unfold Client.NewRequest at h
  split at h
  · cases h
  · simp only at h
    split at h
    · cases h
    · next r hr =>
      cases h
      exact addAuthHeaders_values pc r (httpNewRequest_header hr)

theorem NewRequestMultiParamValue_auth {rt : Runtime} {pc : Client} {method rsc : String}
    {params : Option (List (String × List String))} {req : Request}
    (h : (pc.NewRequestMultiParamValue rt method rsc params).1 = some req) :
    Header.Values req.Header "Authorization" = authValues pc := by
  unfold Client.NewRequestMultiParamValue at h
  split at h
  · cases h
  · simp only at h
    split at h
    · cases h
    · next r hr =>
      cases h
      exact addAuthHeaders_values pc r (httpNewRequest_header hr)

theorem NewJSONRequest_auth {rt : Runtime} {pc : Client} {method rsc params : String}
    {req : Request} (h : (pc.NewJSONRequest rt method rsc params).1 = some req) :
    Header.Values req.Header "Authorization" = authValues pc := by
  unfold Client.NewJSONRequest at h
  split at h
  · cases h
  · split at h
    · cases h
    · next r hr =>
      cases h
      simp only [Header.Values_Add]
      rw [addAuthHeaders_values pc r (httpNewRequest_header hr)]
      simp

theorem BuiltBy_auth {rt : Runtime} {pc : Client} {req : Request} (h : BuiltBy rt pc req) :
    Header.Values req.Header "Authorization" = authValues pc := by
  rcases h with ⟨_, _, _, h⟩ | ⟨_, _, _, h⟩ | ⟨_, _, _, h⟩
  · exact NewRequest_auth h
  · exact NewRequestMultiParamValue_auth h
  · exact NewJSONRequest_auth h

theorem bearer_injective {a b : String} (h : "Bearer " ++ a = "Bearer " ++ b) : a = b := by
  have := congrArg String.data h
  simp only [String.data_append, List.append_cancel_left_eq] at this
  exact String.ext this

end pingdom

/-! ## Claims on credentials -/

open pingdom in
/-- C1 (counterexample): with both tokens equal to "t", the request `GET /checks` carries the
Authorization value "Bearer t", which is "Bearer " followed by `APIToken`; so "never
Bearer + APIToken" fails. -/
theorem C1_same_tokens_counterexample :
    sameTokens.APITokenOnly ≠ "" ∧ sameTokens.APIToken ≠ "" ∧
    (sameTokens.NewRequest (sampleRuntime noEnv) "GET" "/checks" none).1
      = some (checksRequest "Bearer t") ∧
    "Bearer " ++ sameTokens.APIToken
      ∈ Header.Values (checksRequest "Bearer t").Header "Authorization" := by
  decide

open pingdom in
/-- C1 (amended): for a client whose two tokens are both non-empty, every request built by
`NewRequest`, `NewRequestMultiParamValue` or `NewJSONRequest` carries exactly one
Authorization value, "Bearer " followed by `APITokenOnly`; that value is "Bearer " followed
by `APIToken` only when the two tokens are equal. -/
theorem C1_only_token_precedence (rt : Runtime) (pc : Client)
    (hOnly : pc.APITokenOnly ≠ "") (_hToken : pc.APIToken ≠ "")
    (req : Request) (hBuilt : BuiltBy rt pc req) :
    Header.Values req.Header "Authorization" = ["Bearer " ++ pc.APITokenOnly] ∧
    ("Bearer " ++ pc.APIToken ∈ Header.Values req.Header "Authorization"
      ↔ pc.APIToken = pc.APITokenOnly) := by
  have hv : Header.Values req.Header "Authorization" = ["Bearer " ++ pc.APITokenOnly] := by
    rw [BuiltBy_auth hBuilt]
    simp [authValues, hOnly]
  refine ⟨hv, ?_⟩
  rw [hv, List.mem_singleton]
  constructor
  · exact bearer_injective
  · intro h
    rw [h]

open pingdom in
/-- C1 (witness): the client with the tokens "token" and "token_only" builds `GET /checks`
with the single Authorization value "Bearer token_only". -/
theorem C1_only_token_precedence_witness :
    bothTokens.APITokenOnly ≠ "" ∧ bothTokens.APIToken ≠ "" ∧
    BuiltBy (sampleRuntime noEnv) bothTokens (checksRequest "Bearer token_only") ∧
    Header.Values (checksRequest "Bearer token_only").Header "Authorization"
      = ["Bearer " ++ bothTokens.APITokenOnly] ∧
    ("Bearer " ++ bothTokens.APIToken
        ∈ Header.Values (checksRequest "Bearer token_only").Header "Authorization"
      ↔ bothTokens.APIToken = bothTokens.APITokenOnly) :=
  have hBuilt : BuiltBy (sampleRuntime noEnv) bothTokens (checksRequest "Bearer token_only") :=
    Or.inl ⟨"GET", "/checks", none, by decide⟩
  ⟨by decide, by decide, hBuilt,
    C1_only_token_precedence (sampleRuntime noEnv) bothTokens (by decide) (by decide)
      (checksRequest "Bearer token_only") hBuilt⟩

namespace pingdom

theorem resolutionOrder_eq_empty (configValue : String) (envValue : Option String) :
    resolutionOrder configValue envValue = "" ↔ Absent configValue envValue := by
  unfold resolutionOrder Absent
  by_cases h : configValue = ""
  · cases envValue <;> simp [h]
  · simp [h]

/-- What `NewClientWithConfig` returns once the base URL has parsed to `u`. -/
theorem NewClientWithConfig_parsed (rt : Runtime) (config : ClientConfig) (u : URL)
    (hparse : rt.urlParse (if config.BaseURL ≠ "" then config.BaseURL else defaultBaseURL)
      = .ok u) :
    NewClientWithConfig rt config =
      if resolutionOrder config.APIToken (rt.LookupEnv "PINGDOM_API_TOKEN") = "" ∧
          resolutionOrder config.APITokenOnly (rt.LookupEnv "PINGDOM_API_TOKEN_ONLY") = ""
      then (none, some (.errorString "either API Token or API Token Only must be provided"))
      else
        (some { APIToken := resolutionOrder config.APIToken (rt.LookupEnv "PINGDOM_API_TOKEN"),
                APITokenOnly :=
                  resolutionOrder config.APITokenOnly (rt.LookupEnv "PINGDOM_API_TOKEN_ONLY"),
                BaseURL := u,
                client := match config.HTTPClient with
                  | some hc => hc
                  | none => rt.DefaultClient }, none) := by
  have hp : (if config.BaseURL ≠ "" then rt.urlParse config.BaseURL
      else rt.urlParse defaultBaseURL) = .ok u := by
    by_cases hb : config.BaseURL = "" <;> simpa [hb] using hparse
  have h1 : (if config.APIToken = "" then
        match rt.LookupEnv "PINGDOM_API_TOKEN" with
        | some envAPIToken => envAPIToken
        | none => ""
      else config.APIToken)
      = resolutionOrder config.APIToken (rt.LookupEnv "PINGDOM_API_TOKEN") := by
    unfold resolutionOrder
    by_cases h : config.APIToken = "" <;> simp [h]
  have h2 : (if config.APITokenOnly = "" then
        match rt.LookupEnv "PINGDOM_API_TOKEN_ONLY" with
        | some envAPITokenOnly => envAPITokenOnly
        | none => ""
      else config.APITokenOnly)
      = resolutionOrder config.APITokenOnly (rt.LookupEnv "PINGDOM_API_TOKEN_ONLY") := by
    unfold resolutionOrder
    by_cases h : config.APITokenOnly = "" <;> simp [h]
  unfold NewClientWithConfig
  rw [hp]
  simp only [h1, h2]

/-- A client is only returned after the base URL has parsed. -/
theorem NewClientWithConfig_some_parsed {rt : Runtime} {config : ClientConfig} {c : Client}
    (h : (NewClientWithConfig rt config).1 = some c) :
    ∃ u, rt.urlParse (if config.BaseURL ≠ "" then config.BaseURL else defaultBaseURL)
      = .ok u := by
  cases hu : rt.urlParse (if config.BaseURL ≠ "" then config.BaseURL else defaultBaseURL) with
  | ok u => exact ⟨u, rfl⟩
  | error e =>
    exfalso
    have hp : (if config.BaseURL ≠ "" then rt.urlParse config.BaseURL
        else rt.urlParse defaultBaseURL) = .error e := by
      by_cases hb : config.BaseURL = "" <;> simpa [hb] using hu
    unfold NewClientWithConfig at h
    rw [hp] at h
    cases h

end pingdom

open pingdom in
/-- C2: when the base URL parses, `NewClientWithConfig` returns an error exactly when both
token slots are absent (config value empty and environment variable unset or empty); with an
error the client is nil, and without an error a client is returned of which at least one of
`APIToken` and `APITokenOnly` is non-empty. -/
theorem C2_error_iff_no_token (rt : Runtime) (config : ClientConfig) (u : URL)
    (hparse : rt.urlParse (if config.BaseURL ≠ "" then config.BaseURL else defaultBaseURL)
      = .ok u) :
    ((NewClientWithConfig rt config).2 ≠ none ↔
      Absent config.APIToken (rt.LookupEnv "PINGDOM_API_TOKEN") ∧
      Absent config.APITokenOnly (rt.LookupEnv "PINGDOM_API_TOKEN_ONLY")) ∧
    ((NewClientWithConfig rt config).2 ≠ none → (NewClientWithConfig rt config).1 = none) ∧
    ((NewClientWithConfig rt config).2 = none →
      ∃ c, (NewClientWithConfig rt config).1 = some c ∧
        (c.APIToken ≠ "" ∨ c.APITokenOnly ≠ "")) := by
  rw [NewClientWithConfig_parsed rt config u hparse]
  simp only [← resolutionOrder_eq_empty]
  by_cases h : resolutionOrder config.APIToken (rt.LookupEnv "PINGDOM_API_TOKEN") = "" ∧
      resolutionOrder config.APITokenOnly (rt.LookupEnv "PINGDOM_API_TOKEN_ONLY") = ""
  · simp [h]
  · rw [if_neg h]
    refine ⟨by simp [h], by simp, fun _ => ⟨_, rfl, ?_⟩⟩
    by_contra hc
    push_neg at hc
    exact h hc

open pingdom in
/-- C2 (witness): with no token in the config and none in the environment the construction
fails and returns no client, as in the last case of `TestNewClientWithConfig`. -/
theorem C2_error_iff_no_token_witness :
    (sampleRuntime noEnv).urlParse
        (if (tokensConfig "" "").BaseURL ≠ "" then (tokensConfig "" "").BaseURL
          else defaultBaseURL) = .ok exampleBase ∧
    (NewClientWithConfig (sampleRuntime noEnv) (tokensConfig "" "")).2 ≠ none ∧
    (NewClientWithConfig (sampleRuntime noEnv) (tokensConfig "" "")).1 = none :=
  have hparse : (sampleRuntime noEnv).urlParse
      (if (tokensConfig "" "").BaseURL ≠ "" then (tokensConfig "" "").BaseURL
        else defaultBaseURL) = .ok exampleBase := by rfl
  have hAll := C2_error_iff_no_token (sampleRuntime noEnv) (tokensConfig "" "") exampleBase hparse
  have hErr : (NewClientWithConfig (sampleRuntime noEnv) (tokensConfig "" "")).2 ≠ none :=
    hAll.1.2 ⟨⟨rfl, Or.inl rfl⟩, ⟨rfl, Or.inl rfl⟩⟩
  ⟨hparse, hErr, hAll.2.1 hErr⟩

open pingdom in
/-- C3: in a client returned by `NewClientWithConfig` each token is the config value when
that is non-empty, otherwise the value of the environment variable of the slot
(`PINGDOM_API_TOKEN`, `PINGDOM_API_TOKEN_ONLY`) when it is set, otherwise empty; a non-empty
config value is never overridden by the environment. -/
theorem C3_token_resolution_order (rt : Runtime) (config : ClientConfig) (c : Client)
    (h : (NewClientWithConfig rt config).1 = some c) :
    c.APIToken = resolutionOrder config.APIToken (rt.LookupEnv "PINGDOM_API_TOKEN") ∧
    c.APITokenOnly
      = resolutionOrder config.APITokenOnly (rt.LookupEnv "PINGDOM_API_TOKEN_ONLY") ∧
    (config.APIToken ≠ "" → c.APIToken = config.APIToken) ∧
    (config.APITokenOnly ≠ "" → c.APITokenOnly = config.APITokenOnly) := by
  obtain ⟨u, hu⟩ := NewClientWithConfig_some_parsed h
  rw [NewClientWithConfig_parsed rt config u hu] at h
  split at h
  · cases h
  · cases h
    refine ⟨rfl, rfl, ?_, ?_⟩
    · intro hne
      simp [resolutionOrder, hne]
    · intro hne
      simp [resolutionOrder, hne]

open pingdom in
/-- C3 (witness): with `PINGDOM_API_TOKEN` set to "envSetToken", the config token
"explicitToken" is kept and an empty config token resolves to "envSetToken", as in
`TestNewClientWithEnvAPITokenDoesNotOverride` and `TestNewClientWithEnvAPITokenWorks`. -/
theorem C3_token_resolution_order_witness :
    (NewClientWithConfig (sampleRuntime envWithToken) (tokensConfig "explicitToken" "")).1
        = some { APIToken := "explicitToken", APITokenOnly := "", BaseURL := exampleBase,
                 client := (sampleRuntime envWithToken).DefaultClient } ∧
    resolutionOrder "explicitToken" (envWithToken "PINGDOM_API_TOKEN") = "explicitToken" ∧
    resolutionOrder "" (envWithToken "PINGDOM_API_TOKEN") = "envSetToken" :=
  have hNew :
      (NewClientWithConfig (sampleRuntime envWithToken) (tokensConfig "explicitToken" "")).1
        = some { APIToken := "explicitToken", APITokenOnly := "", BaseURL := exampleBase,
                 client := (sampleRuntime envWithToken).DefaultClient } := by rfl
  have hAll := C3_token_resolution_order (sampleRuntime envWithToken)
    (tokensConfig "explicitToken" "") _ hNew
  ⟨hNew, hAll.1.symm, by decide⟩

/-! ## Claims on response classification -/

namespace pingdom

theorem validateResponse_2xx (r : Response) (h : Is2xx r) :
    validateResponse r = .ret (none, r) := by
  have h' : 200 ≤ r.StatusCode ∧ r.StatusCode ≤ 299 := h
  unfold validateResponse
  rw [if_pos h']

theorem validateResponse_ext_2xx (r : Response) (h : Is2xx r) :
    pingdomext.validateResponse r = .ret (none, r) := by
  have h' : 200 ≤ r.StatusCode ∧ r.StatusCode ≤ 299 := h
  unfold pingdomext.validateResponse
  rw [if_pos h']

/-- The two packages classify alike. -/
theorem validateResponse_ext_eq (r : Response) :
    pingdomext.validateResponse r = validateResponse r := rfl

/-- The classification of a response outside the 2xx range, by what the unmarshalling of
its body yields. -/
theorem validateResponse_non2xx (r : Response) (h : ¬ Is2xx r) :
    validateResponse r =
      match unmarshalErrorJSONResponse r.Body.ReadAll.1 (some { Error := none }) with
      | (some e, _) => .ret (some e, { r with Body := r.Body.ReadAll.2 })
      | (none, none) => .panic nilDereference
      | (none, some m) => .ret (some (.pingdomError m.Error), { r with Body := r.Body.ReadAll.2 }) := by
  have h' : ¬ (200 ≤ r.StatusCode ∧ r.StatusCode ≤ 299) := h
  unfold validateResponse
  rw [if_neg h']
  simp only
  rcases unmarshalErrorJSONResponse r.Body.ReadAll.1 (some { Error := none }) with ⟨e, m⟩
  cases e <;> cases m <;> rfl

end pingdom

namespace pingdom

theorem ReadAll_open (b : Body) (h : b.closed = false) :
    b.ReadAll = (b.unread, { unread := "", atEOF := true, closed := false }) := by
  unfold Body.ReadAll
  simp [h]

/-- Storing an error envelope yields its three fields. -/
theorem store_envelope (lit desc msg : String) (s : Int) (hInt : parseInt64 lit = some s) :
    storeErrorJSONResponsePtr (envelope lit desc msg) (some { Error := none }) =
      (none, some { Error := some { StatusCode := s, StatusDesc := desc, Message := msg } }) := by
  have e1 : fieldMatches "error" "error" = true := by decide
  have c1 : fieldMatches "statuscode" "statuscode" = true := by decide
  have c2 : fieldMatches "statuscode" "statusdesc" = false := by decide
  have c3 : fieldMatches "statuscode" "errormessage" = false := by decide
  have d2 : fieldMatches "statusdesc" "statusdesc" = true := by decide
  have d3 : fieldMatches "statusdesc" "errormessage" = false := by decide
  have m3 : fieldMatches "errormessage" "errormessage" = true := by decide
  simp [storeErrorJSONResponsePtr, envelope, storeErrorJSONResponseMember,
    storePingdomErrorPtr, storePingdomErrorMember, storeInt, storeString, hInt,
    e1, c1, c2, c3, d2, d3, m3]

end pingdom

open pingdom in
/-- C4: for every response with a status code from 200 to 299, `validateResponse` (in both
packages) returns nil whatever the body holds, and leaves the response and its body as they
were: nothing is read. -/
theorem C4_success_is_nil (r : Response) (h : 200 ≤ r.StatusCode ∧ r.StatusCode ≤ 299) :
    validateResponse r = .ret (none, r) ∧ pingdomext.validateResponse r = .ret (none, r) :=
  ⟨validateResponse_2xx r h, validateResponse_ext_2xx r h⟩

open pingdom in
/-- C4 (witness): status 200 with the body "OK", which is not JSON, is classified as success
and the body is still unread, as in `TestValidateResponse`. -/
theorem C4_success_is_nil_witness :
    (200 ≤ (plainResponse 200 "OK").StatusCode ∧ (plainResponse 200 "OK").StatusCode ≤ 299) ∧
    parseJSON "OK" = none ∧
    validateResponse (plainResponse 200 "OK") = .ret (none, plainResponse 200 "OK") ∧
    pingdomext.validateResponse (plainResponse 200 "OK")
      = .ret (none, plainResponse 200 "OK") :=
  ⟨by decide, by rfl, C4_success_is_nil (plainResponse 200 "OK") (by decide)⟩

open pingdom in
/-- C5: for every response with a status code outside 200..299 whose unread body is the JSON
text of an error envelope with the integer status code `s` (written `lit`), description
`desc` and message `msg`, `validateResponse` (in both packages) reads the body to its end and
returns the error value `PingdomError` with exactly these three fields; the HTTP status code
of the response does not enter the value. -/
theorem C5_envelope_fields (r : Response) (lit desc msg : String) (s : Int)
    (hStatus : ¬ (200 ≤ r.StatusCode ∧ r.StatusCode ≤ 299))
    (hOpen : r.Body.closed = false)
    (hBody : parseJSON r.Body.unread = some (envelope lit desc msg))
    (hInt : parseInt64 lit = some s) :
    validateResponse r =
      .ret (some (.pingdomError (some { StatusCode := s, StatusDesc := desc, Message := msg })),
            { r with Body := { unread := "", atEOF := true, closed := false } }) ∧
    pingdomext.validateResponse r =
      .ret (some (.pingdomError (some { StatusCode := s, StatusDesc := desc, Message := msg })),
            { r with Body := { unread := "", atEOF := true, closed := false } }) := by
  have key : validateResponse r =
      .ret (some (.pingdomError (some { StatusCode := s, StatusDesc := desc, Message := msg })),
            { r with Body := { unread := "", atEOF := true, closed := false } }) := by
    rw [validateResponse_non2xx r hStatus, ReadAll_open r.Body hOpen]
    simp only [unmarshalErrorJSONResponse, hBody, store_envelope lit desc msg s hInt]
  exact ⟨key, (validateResponse_ext_eq r).trans key⟩

open pingdom in
/-- C5 (witness): status 400 with the error body of `TestValidateResponse` yields
`PingdomError{400, "Bad Request", "This is an error"}`. -/
theorem C5_envelope_fields_witness :
    ¬ (200 ≤ (plainResponse 400 badRequestBody).StatusCode ∧
        (plainResponse 400 badRequestBody).StatusCode ≤ 299) ∧
    parseJSON badRequestBody = some (envelope "400" "Bad Request" "This is an error") ∧
    parseInt64 "400" = some 400 ∧
    validateResponse (plainResponse 400 badRequestBody) =
      .ret (some (.pingdomError (some { StatusCode := 400, StatusDesc := "Bad Request",
                                        Message := "This is an error" })),
            { StatusCode := 400, Header := [],
              Body := { unread := "", atEOF := true, closed := false } }) :=
  have hBody : parseJSON (plainResponse 400 badRequestBody).Body.unread
      = some (envelope "400" "Bad Request" "This is an error") := by rfl
  ⟨by decide, hBody, by decide,
    (C5_envelope_fields (plainResponse 400 badRequestBody) "400" "Bad Request" "This is an error"
      400 (by decide) rfl hBody (by decide)).1⟩

namespace pingdom

/-- Outside the 2xx range `validateResponse` never answers nil: it returns a non-nil error
or it panics. -/
theorem validateResponse_non2xx_not_nil (r r' : Response) (h : ¬ Is2xx r) :
    validateResponse r ≠ .ret (none, r') := by
  rw [validateResponse_non2xx r h]
  rcases unmarshalErrorJSONResponse r.Body.ReadAll.1 (some { Error := none }) with ⟨e, m⟩
  cases e <;> cases m <;> simp

/-- Storing into a non-nil `m` leaves `m` nil without an error only for the value null. -/
theorem store_nil_iff (v : JValue) (m : errorJSONResponse) :
    storeErrorJSONResponsePtr v (some m) = (none, none) ↔ v = .null := by
  cases v <;> simp [storeErrorJSONResponsePtr]

/-- Outside the 2xx range `validateResponse` panics exactly when the body it reads is the
JSON text null. -/
theorem validateResponse_panic_iff (r : Response) (h : ¬ Is2xx r) :
    validateResponse r = .panic nilDereference ↔ parseJSON r.Body.ReadAll.1 = some .null := by
  rw [validateResponse_non2xx r h]
  unfold unmarshalErrorJSONResponse
  cases hp : parseJSON r.Body.ReadAll.1 with
  | none => simp
  | some v =>
    simp only [Option.some.injEq]
    rw [← store_nil_iff v { Error := none }]
    rcases hs : storeErrorJSONResponsePtr v (some { Error := none }) with ⟨e, m⟩
    cases e <;> cases m <;> simp

/-- What `Do` returns when the transport answered and `validateResponse` returned an
error: the response with its body closed, that error, the target as it was, and no call of
`decodeResponse`. -/
theorem Do_classified {τ : Type} [JSONTarget τ] (pc : Client) (req : Request) (v : Option τ)
    (resp resp' : Response) (e : GoError) (hDo : pc.client.Do req = .ok resp)
    (hv : validateResponse resp = .ret (some e, resp')) :
    pc.Do req v = .ret { resp := some { resp' with Body := resp'.Body.Close }, err := some e,
                         target := v, calls := [.transport req, .validateResponse] } := by
  unfold Client.Do
  rw [hDo]
  simp only [hv]

end pingdom

open pingdom in
/-- C6 (failing input): on status 500 with the body `null` the function `validateResponse`
of both packages does not return an error: unmarshalling sets `m` to nil and `m.Error`
panics. -/
theorem C6_null_body_panics :
    validateResponse (plainResponse 500 "null") = .panic nilDereference ∧
    pingdomext.validateResponse (plainResponse 500 "null") = .panic nilDereference := by
  decide

open pingdom in
/-- C7 (failing input): when the transport answers status 500 with the body `null`, `Do` of
both packages returns neither the response nor an error: the panic of `validateResponse`
passes through it. -/
theorem C7_null_body_Do_panics :
    (clientOn (answering 500 "null")).Do rootRequest (some (foo.mk ""))
      = .panic nilDereference ∧
    (pingdomext.clientOn (answering 500 "null")).Do rootRequest (some (foo.mk ""))
      = .panic nilDereference := by
  decide

open pingdom in
/-- C8: when the transport answers with a status code from 200 to 299 and the target is nil,
`Do` returns the response (its body closed) together with the error "nil interface provided
to decodeResponse"; it does not report success. -/
theorem C8_nil_target_fails (τ : Type) [JSONTarget τ] (pc : Client) (req : Request)
    (resp : Response) (hDo : pc.client.Do req = .ok resp)
    (h2xx : 200 ≤ resp.StatusCode ∧ resp.StatusCode ≤ 299) :
    pc.Do req (none : Option τ) =
      .ret { resp := some { resp with Body := resp.Body.Close },
             err := some (.errorString "nil interface provided to decodeResponse"),
             target := none,
             calls := [.transport req, .validateResponse, .decodeResponse] } := by
  unfold Client.Do
  rw [hDo]
  simp only [validateResponse_2xx resp h2xx, decodeResponse]

open pingdom in
/-- C8 (witness): a 200 answer with an empty body and a nil target, as in
`TestClientAuthenticationHeaders`, gives the error and the response. -/
theorem C8_nil_target_fails_witness :
    (clientOn (answering 200 "")).client.Do rootRequest = .ok (plainResponse 200 "") ∧
    (clientOn (answering 200 "")).Do rootRequest (none : Option foo) =
      .ret { resp := some { StatusCode := 200, Header := [],
                            Body := { unread := "", atEOF := false, closed := true } },
             err := some (.errorString "nil interface provided to decodeResponse"),
             target := none,
             calls := [.transport rootRequest, .validateResponse, .decodeResponse] } :=
  ⟨rfl, C8_nil_target_fails foo (clientOn (answering 200 "")) rootRequest (plainResponse 200 "")
    rfl (by decide)⟩

open pingdom in
/-- C9: when the transport answers with a status code from 200 to 299 and an unread body,
and the target is a non-nil pointer, `Do` returns the response and the error of
`json.Unmarshal` of the whole body into the target, and the target holds what
`json.Unmarshal` stored; a body that is not JSON gives the JSON error itself, not a
`PingdomError`; the body `{"A":"a"}` with a target `foo` gives no error and `A` equal to
"a". -/
theorem C9_decodes_body (τ : Type) [JSONTarget τ] (pc : Client) (req : Request)
    (resp : Response) (t : τ) (hDo : pc.client.Do req = .ok resp)
    (h2xx : 200 ≤ resp.StatusCode ∧ resp.StatusCode ≤ 299)
    (hOpen : resp.Body.closed = false) :
    pc.Do req (some t) =
      .ret { resp := some { resp with Body := { unread := "", atEOF := true, closed := true } },
             err := (jsonUnmarshal resp.Body.unread t).1,
             target := some (jsonUnmarshal resp.Body.unread t).2,
             calls := [.transport req, .validateResponse, .decodeResponse] } ∧
    (parseJSON resp.Body.unread = none →
      (jsonUnmarshal resp.Body.unread t).1 = some .jsonMalformed ∧
      (jsonUnmarshal resp.Body.unread t).2 = t) ∧
    (∀ a : foo, jsonUnmarshal "\x7b\"A\":\"a\"\x7d" a = (none, { A := "a" })) := by
  refine ⟨?_, ?_, ?_⟩
  · unfold Client.Do
    rw [hDo]
    simp only [validateResponse_2xx resp h2xx, decodeResponse, ReadAll_open resp.Body hOpen,
      Body.Close]
  · intro hp
    simp [jsonUnmarshal, hp]
  · intro a
    rfl

open pingdom in
/-- C9 (witness): the exchange of `TestDo`: a 200 answer with the body `{"A":"a"}` decoded
into a `foo` gives no error and the target `foo{"a"}`. -/
theorem C9_decodes_body_witness :
    (clientOn (answering 200 "\x7b\"A\":\"a\"\x7d")).Do rootRequest (some (foo.mk "")) =
      .ret { resp := some { StatusCode := 200, Header := [],
                            Body := { unread := "", atEOF := true, closed := true } },
             err := none,
             target := some { A := "a" },
             calls := [.transport rootRequest, .validateResponse, .decodeResponse] } :=
  (C9_decodes_body foo (clientOn (answering 200 "\x7b\"A\":\"a\"\x7d")) rootRequest
    (plainResponse 200 "\x7b\"A\":\"a\"\x7d") (foo.mk "") rfl (by decide) rfl).1

open pingdom in
/-- C10: when the transport returns the error `e`, `Do` (in both packages) returns a nil
response together with exactly `e`, leaves the target alone, and has made one call, the
single request to the transport: no classification, no decoding, no second attempt. -/
theorem C10_transport_error (τ : Type) [JSONTarget τ] (req : Request) (v : Option τ)
    (e : GoError) :
    (∀ pc : Client, pc.client.Do req = .error e →
      pc.Do req v = .ret { resp := none, err := some e, target := v,
                           calls := [.transport req] }) ∧
    (∀ pc : pingdomext.Client, pc.client.Do req = .error e →
      pc.Do req v = .ret { resp := none, err := some e, target := v,
                           calls := [.transport req] }) := by
  constructor
  · intro pc hDo
    unfold Client.Do
    rw [hDo]
  · intro pc hDo
    unfold pingdomext.Client.Do
    rw [hDo]

open pingdom in
/-- C10 (witness): a transport that fails with "connection refused" makes `Do` of both
packages return exactly that error, no response, and the target as it was. -/
theorem C10_transport_error_witness :
    (clientOn (failing (.library "connection refused"))).Do rootRequest (some (foo.mk "x")) =
      .ret { resp := none, err := some (.library "connection refused"),
             target := some (foo.mk "x"), calls := [.transport rootRequest] } ∧
    (pingdomext.clientOn (failing (.library "connection refused"))).Do rootRequest
        (some (foo.mk "x")) =
      .ret { resp := none, err := some (.library "connection refused"),
             target := some (foo.mk "x"), calls := [.transport rootRequest] } :=
  ⟨(C10_transport_error foo rootRequest (some (foo.mk "x")) (.library "connection refused")).1
      (clientOn (failing (.library "connection refused"))) rfl,
   (C10_transport_error foo rootRequest (some (foo.mk "x")) (.library "connection refused")).2
      (pingdomext.clientOn (failing (.library "connection refused"))) rfl⟩

/-! ## The order of keys and the canonical form of `Values.Encode` -/

namespace pingdom

theorem Char.toNat_eq {a b : Char} (h : a.toNat = b.toNat) : a = b := by
  apply Char.eq_of_val_eq
  apply UInt32.ext
  exact h

theorem ltChars_irrefl (a : List Char) : ltChars a a = false := by
  induction a with
  | nil => rfl
  | cons c cs ih => simp [ltChars, ih]

theorem ltChars_trans {a b c : List Char} (h1 : ltChars a b = true) (h2 : ltChars b c = true) :
    ltChars a c = true := by
  induction a generalizing b c with
  | nil =>
    cases b with
    | nil => simp [ltChars] at h1
    | cons y ys =>
      cases c with
      | nil => simp [ltChars] at h2
      | cons z zs => simp [ltChars]
  | cons x xs ih =>
    cases b with
    | nil => simp [ltChars] at h1
    | cons y ys =>
      cases c with
      | nil => simp [ltChars] at h2
      | cons z zs =>
        simp only [ltChars, Bool.or_eq_true, decide_eq_true_eq, Bool.and_eq_true,
          beq_iff_eq] at h1 h2 ⊢
        rcases h1 with h1 | ⟨e1, t1⟩
        · rcases h2 with h2 | ⟨e2, _⟩
          · exact Or.inl (by omega)
          · exact Or.inl (by omega)
        · rcases h2 with h2 | ⟨e2, t2⟩
          · exact Or.inl (by omega)
          · exact Or.inr ⟨by omega, ih t1 t2⟩

theorem ltChars_total {a b : List Char} (h : a ≠ b) :
    ltChars a b = true ∨ ltChars b a = true := by
  induction a generalizing b with
  | nil =>
    cases b with
    | nil => exact absurd rfl h
    | cons y ys => simp [ltChars]
  | cons x xs ih =>
    cases b with
    | nil => simp [ltChars]
    | cons y ys =>
      simp only [ltChars, Bool.or_eq_true, decide_eq_true_eq, Bool.and_eq_true, beq_iff_eq]
      rcases Nat.lt_trichotomy x.toNat y.toNat with hlt | heq | hgt
      · exact Or.inl (Or.inl hlt)
      · have hxy : x = y := Char.toNat_eq heq
        have hne : xs ≠ ys := fun e => h (by rw [hxy, e])
        rcases ih hne with t | t
        · exact Or.inl (Or.inr ⟨heq, t⟩)
        · exact Or.inr (Or.inr ⟨heq.symm, t⟩)
      · exact Or.inr (Or.inl hgt)

theorem strLt_irrefl (a : String) : strLt a a = false := ltChars_irrefl _

theorem strLt_trans {a b c : String} (h1 : strLt a b = true) (h2 : strLt b c = true) :
    strLt a c = true := ltChars_trans h1 h2

theorem strLt_asymm {a b : String} (h1 : strLt a b = true) : strLt b a = false := by
  by_contra h
  have h2 : strLt b a = true := by simpa using h
  have := strLt_trans h1 h2
  rw [strLt_irrefl] at this
  cases this

theorem strLt_total {a b : String} (h : a ≠ b) : strLt a b = true ∨ strLt b a = true := by
  apply ltChars_total
  intro e
  exact h (String.ext e)

theorem KeyLt_antisymm : IsAntisymm (String × List String) KeyLt where
  antisymm a b h1 h2 := by
    have := strLt_asymm h1
    rw [h2] at this
    cases this

theorem insertByKey_perm (e : String × List String) (l : Values) :
    (insertByKey e l).Perm (e :: l) := by
  induction l with
  | nil => exact List.Perm.refl _
  | cons e' rest ih =>
    unfold insertByKey
    split
    · exact List.Perm.refl _
    · exact (List.Perm.cons e' ih).trans (List.Perm.swap e e' rest)

theorem sortByKey_perm (l : Values) : (sortByKey l).Perm l := by
  induction l with
  | nil => exact List.Perm.refl _
  | cons e rest ih =>
    unfold sortByKey
    exact (insertByKey_perm e _).trans (List.Perm.cons e ih)

theorem insertByKey_sorted (e : String × List String) (l : Values)
    (hs : l.Pairwise KeyLt) (hne : ∀ x ∈ l, x.1 ≠ e.1) :
    (insertByKey e l).Pairwise KeyLt := by
  induction l with
  | nil => simp [insertByKey]
  | cons e' rest ih =>
    rw [List.pairwise_cons] at hs
    unfold insertByKey
    split
    · next hlt =>
      refine List.pairwise_cons.2 ⟨?_, List.pairwise_cons.2 hs⟩
      intro x hx
      rcases List.mem_cons.1 hx with rfl | hx
      · exact hlt
      · exact strLt_trans hlt (hs.1 x hx)
    · next hnlt =>
      have he' : KeyLt e' e := by
        rcases strLt_total (hne e' (List.mem_cons_self _ _)) with t | t
        · exact t
        · exact absurd t hnlt
      refine List.pairwise_cons.2 ⟨?_, ih hs.2 fun x hx => hne x (List.mem_cons_of_mem _ hx)⟩
      intro x hx
      rcases List.mem_cons.1 ((insertByKey_perm e rest).mem_iff.1 hx) with rfl | hx
      · exact he'
      · exact hs.1 x hx

theorem sortByKey_sorted (l : Values) (hnd : (l.map Prod.fst).Nodup) :
    (sortByKey l).Pairwise KeyLt := by
  induction l with
  | nil => simp [sortByKey]
  | cons e rest ih =>
    rw [List.map_cons, List.nodup_cons] at hnd
    unfold sortByKey
    apply insertByKey_sorted e _ (ih hnd.2)
    intro x hx heq
    apply hnd.1
    rw [← heq]
    exact List.mem_map_of_mem _ ((sortByKey_perm rest).mem_iff.1 hx)

/-- Entries with distinct keys sort to one list, whatever order they come in. -/
theorem sortByKey_eq_of_perm {l₁ l₂ : Values} (hp : l₁.Perm l₂)
    (hnd : (l₁.map Prod.fst).Nodup) : sortByKey l₁ = sortByKey l₂ := by
  have hnd₂ : (l₂.map Prod.fst).Nodup := (hp.map Prod.fst).nodup_iff.1 hnd
  haveI := KeyLt_antisymm
  exact List.eq_of_perm_of_sorted
    ((sortByKey_perm l₁).trans (hp.trans (sortByKey_perm l₂).symm))
    (sortByKey_sorted l₁ hnd) (sortByKey_sorted l₂ hnd₂)

end pingdom

namespace pingdom

theorem Values.Set_not_mem (acc : Values) (k v : String) (h : ∀ x ∈ acc, x.1 ≠ k) :
    Values.Set acc k v = acc ++ [(k, [v])] := by
  induction acc with
  | nil => rfl
  | cons e rest ih =>
    obtain ⟨k', vs⟩ := e
    have hk : k' ≠ k := h (k', vs) (List.mem_cons_self _ _)
    simp only [Values.Set, if_neg hk, List.cons_append]
    rw [ih fun x hx => h x (List.mem_cons_of_mem _ hx)]

theorem Values.Add_not_mem (acc : Values) (k v : String) (h : ∀ x ∈ acc, x.1 ≠ k) :
    Values.Add acc k v = acc ++ [(k, [v])] := by
  induction acc with
  | nil => rfl
  | cons e rest ih =>
    obtain ⟨k', vs⟩ := e
    have hk : k' ≠ k := h (k', vs) (List.mem_cons_self _ _)
    simp only [Values.Add, if_neg hk, List.cons_append]
    rw [ih fun x hx => h x (List.mem_cons_of_mem _ hx)]

theorem Values.Add_last (acc : Values) (k v : String) (vs : List String)
    (h : ∀ x ∈ acc, x.1 ≠ k) :
    Values.Add (acc ++ [(k, vs)]) k v = acc ++ [(k, vs ++ [v])] := by
  induction acc with
  | nil => simp [Values.Add]
  | cons e rest ih =>
    obtain ⟨k', ws⟩ := e
    have hk : k' ≠ k := h (k', ws) (List.mem_cons_self _ _)
    have ih' := ih fun x hx => h x (List.mem_cons_of_mem _ hx)
    show Values.Add ((k', ws) :: (rest ++ [(k, vs)])) k v = (k', ws) :: (rest ++ [(k, vs ++ [v])])
    simp only [Values.Add, if_neg hk]
    rw [ih']

theorem foldl_Set (ps : List (String × String)) (acc : Values)
    (hnd : (ps.map Prod.fst).Nodup) (hdis : ∀ x ∈ acc, ∀ y ∈ ps, x.1 ≠ y.1) :
    ps.foldl (fun vs kv => Values.Set vs kv.1 kv.2) acc
      = acc ++ ps.map fun kv => (kv.1, [kv.2]) := by
  induction ps generalizing acc with
  | nil => simp
  | cons p rest ih =>
    rw [List.map_cons, List.nodup_cons] at hnd
    rw [List.foldl_cons, Values.Set_not_mem acc p.1 p.2
      fun x hx => hdis x hx p (List.mem_cons_self _ _)]
    rw [ih _ hnd.2]
    · simp
    · intro x hx y hy
      rcases List.mem_append.1 hx with hx | hx
      · exact hdis x hx y (List.mem_cons_of_mem _ hy)
      · simp only [List.mem_singleton] at hx
        subst hx
        intro e
        exact hnd.1 (e ▸ List.mem_map_of_mem Prod.fst hy)

/-- With distinct keys, the loop over a single-valued map stores each pair as it is. -/
theorem setAll_eq (ps : List (String × String)) (hnd : (ps.map Prod.fst).Nodup) :
    setAll ps = ps.map fun kv => (kv.1, [kv.2]) := by
  unfold setAll
  rw [foldl_Set ps [] hnd (by simp)]
  simp

theorem foldl_Add_last (acc : Values) (k : String) (h : ∀ x ∈ acc, x.1 ≠ k)
    (vs pre : List String) :
    vs.foldl (fun ps v => Values.Add ps k v) (acc ++ [(k, pre)]) = acc ++ [(k, pre ++ vs)] := by
  induction vs generalizing pre with
  | nil => simp
  | cons v rest ih =>
    rw [List.foldl_cons, Values.Add_last acc k v pre h, ih]
    simp

theorem foldl_Add_key (acc : Values) (k : String) (h : ∀ x ∈ acc, x.1 ≠ k)
    (vs : List String) :
    vs.foldl (fun ps v => Values.Add ps k v) acc
      = acc ++ (if vs.isEmpty then [] else [(k, vs)]) := by
  cases vs with
  | nil => simp
  | cons v rest =>
    rw [List.foldl_cons, Values.Add_not_mem acc k v h, foldl_Add_last acc k h]
    simp

theorem foldl_Add (ps : List (String × List String)) (acc : Values)
    (hnd : (ps.map Prod.fst).Nodup) (hdis : ∀ x ∈ acc, ∀ y ∈ ps, x.1 ≠ y.1) :
    ps.foldl (fun vs kmv => kmv.2.foldl (fun vs v => Values.Add vs kmv.1 v) vs) acc
      = acc ++ ps.filter fun kmv => !kmv.2.isEmpty := by
  induction ps generalizing acc with
  | nil => simp
  | cons p rest ih =>
    rw [List.map_cons, List.nodup_cons] at hnd
    rw [List.foldl_cons, foldl_Add_key acc p.1
      (fun x hx => hdis x hx p (List.mem_cons_self _ _)) p.2]
    rw [ih _ hnd.2]
    · by_cases he : p.2.isEmpty = true
      · simp [he]
      · simp [he]
    · intro x hx y hy
      rcases List.mem_append.1 hx with hx | hx
      · exact hdis x hx y (List.mem_cons_of_mem _ hy)
      · by_cases he : p.2.isEmpty = true
        · simp [he] at hx
        · rw [if_neg he, List.mem_singleton] at hx
          subst hx
          intro e
          exact hnd.1 (e ▸ List.mem_map_of_mem Prod.fst hy)

/-- With distinct keys, the loops over a multi-valued map store each key with its values,
and leave out the keys without values. -/
theorem addAll_eq (ps : List (String × List String)) (hnd : (ps.map Prod.fst).Nodup) :
    addAll ps = ps.filter fun kmv => !kmv.2.isEmpty := by
  unfold addAll
  rw [foldl_Add ps [] hnd (by simp)]
  simp

theorem sortByKey_filter (p : String × List String → Bool) (l : Values)
    (hnd : (l.map Prod.fst).Nodup) :
    sortByKey (l.filter p) = (sortByKey l).filter p := by
  have hsub : ((l.filter p).map Prod.fst).Sublist (l.map Prod.fst) :=
    (List.filter_sublist l).map Prod.fst
  haveI := KeyLt_antisymm
  apply List.eq_of_perm_of_sorted (r := KeyLt)
  · exact (sortByKey_perm _).trans ((sortByKey_perm l).symm.filter p)
  · exact sortByKey_sorted _ (hnd.sublist hsub)
  · exact (sortByKey_sorted l hnd).sublist (List.filter_sublist _)

end pingdom

/-! ## Claims on `Do` and the response body -/

open pingdom in
/-- C11 (counterexample): a 200 answer with the body "OK" and a nil target: `Do` returns with
the body closed but still unread, so it was not read to its end. -/
theorem C11_nil_target_body_unread :
    (clientOn (answering 200 "OK")).Do rootRequest (none : Option foo) =
      .ret { resp := some { StatusCode := 200, Header := [],
                            Body := { unread := "OK", atEOF := false, closed := true } },
             err := some (.errorString "nil interface provided to decodeResponse"),
             target := none,
             calls := [.transport rootRequest, .validateResponse, .decodeResponse] } := by
  decide

open pingdom in
/-- C11 (amended): when the transport returned a response with an open body, `Do` returns
the response with its body closed on each of these paths: outside 200..299 with a body that
is not the JSON text null the body has been read to its end; in 200..299 with a non-nil
target the body has been read to its end; in 200..299 with a nil target the body is closed
as the transport left it, without a read. -/
theorem C11_body_closed (τ : Type) [JSONTarget τ] (pc : Client) (req : Request)
    (v : Option τ) (resp : Response) (hDo : pc.client.Do req = .ok resp)
    (hOpen : resp.Body.closed = false) :
    (¬ Is2xx resp → parseJSON resp.Body.unread ≠ some .null →
      ∃ r, pc.Do req v = .ret r ∧
        r.resp = some { resp with Body := { unread := "", atEOF := true, closed := true } }) ∧
    (Is2xx resp → v ≠ none →
      ∃ r, pc.Do req v = .ret r ∧
        r.resp = some { resp with Body := { unread := "", atEOF := true, closed := true } }) ∧
    (Is2xx resp → v = none →
      ∃ r, pc.Do req v = .ret r ∧
        r.resp = some { resp with Body := { resp.Body with closed := true } }) := by
  refine ⟨?_, ?_, ?_⟩
  · intro h2 hnull
    have hv := validateResponse_non2xx resp h2
    have hne : validateResponse resp ≠ .panic nilDereference := by
      intro hp
      apply hnull
      have := (validateResponse_panic_iff resp h2).1 hp
      rwa [ReadAll_open resp.Body hOpen] at this
    rw [ReadAll_open resp.Body hOpen] at hv
    simp only at hv
    rcases hu : unmarshalErrorJSONResponse resp.Body.unread (some { Error := none })
      with ⟨e, m⟩
    rw [hu] at hv
    cases e with
    | some e =>
      exact ⟨_, Do_classified pc req v resp _ e hDo hv, rfl⟩
    | none =>
      cases m with
      | none => exact absurd hv hne
      | some m => exact ⟨_, Do_classified pc req v resp _ _ hDo hv, rfl⟩
  · intro h2 hv
    cases v with
    | none => exact absurd rfl hv
    | some t =>
      have hEq : pc.Do req (some t) =
          .ret { resp := some { resp with
                                Body := { unread := "", atEOF := true, closed := true } },
                 err := (jsonUnmarshal resp.Body.unread t).1,
                 target := some (jsonUnmarshal resp.Body.unread t).2,
                 calls := [.transport req, .validateResponse, .decodeResponse] } := by
        unfold Client.Do
        rw [hDo]
        simp only [validateResponse_2xx resp h2, decodeResponse, ReadAll_open resp.Body hOpen,
          Body.Close]
      exact ⟨_, hEq, rfl⟩
  · intro h2 hv
    subst hv
    have hEq : pc.Do req (none : Option τ) =
        .ret { resp := some { resp with Body := resp.Body.Close },
               err := some (.errorString "nil interface provided to decodeResponse"),
               target := none,
               calls := [.transport req, .validateResponse, .decodeResponse] } := by
      unfold Client.Do
      rw [hDo]
      simp only [validateResponse_2xx resp h2, decodeResponse]
    exact ⟨_, hEq, rfl⟩

open pingdom in
/-- C11 (witness): a 400 answer with the error body of `TestValidateResponse`: `Do` returns
the response with the body read to its end and closed. -/
theorem C11_body_closed_witness :
    (clientOn (answering 400 badRequestBody)).client.Do rootRequest
      = .ok (plainResponse 400 badRequestBody) ∧
    (plainResponse 400 badRequestBody).Body.closed = false ∧
    ∃ r, (clientOn (answering 400 badRequestBody)).Do rootRequest (some (foo.mk "")) = .ret r ∧
      r.resp = some { StatusCode := 400, Header := [],
                      Body := { unread := "", atEOF := true, closed := true } } :=
  ⟨rfl, rfl,
    (C11_body_closed foo (clientOn (answering 400 badRequestBody)) rootRequest
      (some (foo.mk "")) (plainResponse 400 badRequestBody) rfl rfl).1 (by decide)
      (by
        have h : parseJSON (plainResponse 400 badRequestBody).Body.unread
            = some (envelope "400" "Bad Request" "This is an error") := by rfl
        rw [h]
        simp [envelope])⟩

/-! ## Claims on the request builders -/

namespace pingdom

theorem httpNewRequest_ok {rt : Runtime} {method urlStr : String} {body : Option String}
    {req : Request} (h : httpNewRequest rt method urlStr body = .ok req) :
    req.Method = effectiveMethod method ∧ rt.urlParse urlStr = .ok req.URL ∧
    req.Header = [] ∧ req.Body = body := by
  unfold httpNewRequest at h
  simp only at h
  unfold effectiveMethod
  generalize (if method = "" then "GET" else method) = m at h ⊢
  split at h
  · cases h
  · split at h
    · cases h
    · next u hu =>
      cases h
      exact ⟨rfl, hu, rfl, rfl⟩

theorem addAuthHeaders_frame (pc : Client) (req : Request) :
    (pc.addAuthHeaders req).Method = req.Method ∧ (pc.addAuthHeaders req).URL = req.URL ∧
    (pc.addAuthHeaders req).Body = req.Body := by
  unfold Client.addAuthHeaders
  split
  · exact ⟨rfl, rfl, rfl⟩
  · split
    · exact ⟨rfl, rfl, rfl⟩
    · exact ⟨rfl, rfl, rfl⟩

end pingdom

open pingdom in
/-- C12 (counterexample): with the empty string as method `NewRequest` succeeds and the
request has the method "GET", which is not the given method. -/
theorem C12_empty_method_is_GET :
    (bothTokens.NewRequest (sampleRuntime noEnv) "" "/checks" none).1
      = some (checksRequest "Bearer token_only") ∧
    (checksRequest "Bearer token_only").Method ≠ "" := by
  decide

open pingdom in
/-- C12 (amended): for every method, every `rsc` and nil params, when `NewRequest` succeeds
the method of the request is the given method, or "GET" when the given method is the empty
string, and the URL of the request is what `http.NewRequest` parses from the rendering of
the URL `u` parsed from the concatenation `BaseURL.String() + rsc`; where the library reads
a URL back from its rendering this is `u` itself, with nothing normalized and no query
added. -/
theorem C12_nil_params (rt : Runtime) (pc : Client) (method rsc : String) (req : Request)
    (h : (pc.NewRequest rt method rsc none).1 = some req) :
    req.Method = (if method = "" then "GET" else method) ∧
    ∃ u, rt.urlParse (pc.BaseURL.String ++ rsc) = .ok u ∧
      rt.urlParse u.String = .ok req.URL ∧
      (ReadsBack rt u → req.URL = u ∧ req.URL.RawQuery = u.RawQuery) := by
  unfold Client.NewRequest at h
  split at h
  · cases h
  · next u hu =>
    simp only at h
    split at h
    · cases h
    · next r hr =>
      cases h
      obtain ⟨hm, hurl, _, _⟩ := httpNewRequest_ok hr
      obtain ⟨fm, fu, _⟩ := addAuthHeaders_frame pc r
      refine ⟨by rw [fm, hm]; rfl, u, hu, by rw [fu]; exact hurl, ?_⟩
      intro hb
      have : r.URL = u := by
        have h1 : rt.urlParse u.String = .ok r.URL := hurl
        rw [hb] at h1
        cases h1
        rfl
      rw [fu, this]
      exact ⟨rfl, rfl⟩

open pingdom in
/-- C12 (witness): the request of `TestNewRequest`: `GET /checks` with nil params has the
method "GET" and the URL string of the base followed by "/checks". -/
theorem C12_nil_params_witness :
    (bothTokens.NewRequest (sampleRuntime noEnv) "GET" "/checks" none).1
      = some (checksRequest "Bearer token_only") ∧
    (checksRequest "Bearer token_only").Method = "GET" ∧
    (checksRequest "Bearer token_only").URL.String = bothTokens.BaseURL.String ++ "/checks" :=
  have h : (bothTokens.NewRequest (sampleRuntime noEnv) "GET" "/checks" none).1
      = some (checksRequest "Bearer token_only") := by decide
  ⟨h, (C12_nil_params (sampleRuntime noEnv) bothTokens "GET" "/checks" _ h).1, by decide⟩

namespace pingdom

theorem flatMap_queryPairs_filter (l : Values) :
    (l.filter fun kmv => !kmv.2.isEmpty).flatMap queryPairs = l.flatMap queryPairs := by
  induction l with
  | nil => rfl
  | cons e rest ih =>
    by_cases he : e.2.isEmpty = true
    · have h2 : e.2 = [] := List.isEmpty_iff.1 he
      simp [List.filter_cons, he, ih, queryPairs, h2]
    · simp [List.filter_cons, he, ih]

/-- The query string of a multi-valued map with distinct keys: the keys in ascending order,
each with one pair per value in the order of its values. -/
theorem Encode_addAll (ps : List (String × List String)) (hnd : (ps.map Prod.fst).Nodup) :
    Values.Encode (addAll ps) = "&".intercalate ((sortByKey ps).flatMap queryPairs) := by
  rw [addAll_eq ps hnd, ← flatMap_queryPairs_filter (sortByKey ps),
    ← sortByKey_filter _ ps hnd]
  rfl

/-- The query string does not depend on the order in which a single-valued map is
visited. -/
theorem Encode_setAll_perm {ps₁ ps₂ : List (String × String)}
    (hnd : (ps₁.map Prod.fst).Nodup) (hp : ps₁.Perm ps₂) :
    Values.Encode (setAll ps₁) = Values.Encode (setAll ps₂) := by
  have hnd₂ : (ps₂.map Prod.fst).Nodup := (hp.map Prod.fst).nodup_iff.1 hnd
  rw [setAll_eq ps₁ hnd, setAll_eq ps₂ hnd₂]
  unfold Values.Encode
  rw [sortByKey_eq_of_perm (hp.map _)]
  rw [List.map_map]
  exact hnd

/-- The query string does not depend on the order in which a multi-valued map is
visited. -/
theorem Encode_addAll_perm {ps₁ ps₂ : List (String × List String)}
    (hnd : (ps₁.map Prod.fst).Nodup) (hp : ps₁.Perm ps₂) :
    Values.Encode (addAll ps₁) = Values.Encode (addAll ps₂) := by
  have hnd₂ : (ps₂.map Prod.fst).Nodup := (hp.map Prod.fst).nodup_iff.1 hnd
  rw [Encode_addAll ps₁ hnd, Encode_addAll ps₂ hnd₂, sortByKey_eq_of_perm hp hnd]

end pingdom

open pingdom in
/-- C13: for every multi-valued params map (a list of entries with distinct keys, in the
order of this run), the query string of the request built by `NewRequestMultiParamValue` is
the `&`-joined list that holds, for the keys in ascending order, one escaped pair
`key=value` per value of the key, in the order of the values: a key with n values is
repeated n times and never joined with commas.  The library is taken to read the URL with
this query back from its rendering. -/
theorem C13_repeated_keys (rt : Runtime) (pc : Client) (method rsc : String)
    (ps : List (String × List String)) (u : URL) (req : Request)
    (hnd : (ps.map Prod.fst).Nodup)
    (hu : rt.urlParse (pc.BaseURL.String ++ rsc) = .ok u)
    (hBack : ReadsBack rt { u with RawQuery := Values.Encode (addAll ps) })
    (h : (pc.NewRequestMultiParamValue rt method rsc (some ps)).1 = some req) :
    req.URL.RawQuery = "&".intercalate ((sortByKey ps).flatMap queryPairs) ∧
    req.URL.RawQuery = "&".intercalate
      ((sortByKey ps).flatMap fun e =>
        e.2.map fun v => QueryEscape e.1 ++ "=" ++ QueryEscape v) := by
  have key : req.URL.RawQuery = Values.Encode (addAll ps) := by
    unfold Client.NewRequestMultiParamValue at h
    rw [hu] at h
    simp only at h
    split at h
    · cases h
    · next r hr =>
      cases h
      obtain ⟨_, hurl, _, _⟩ := httpNewRequest_ok hr
      obtain ⟨_, fu, _⟩ := addAuthHeaders_frame pc r
      have h1 : rt.urlParse ({ u with RawQuery := Values.Encode (addAll ps) } : URL).String
          = .ok r.URL := hurl
      rw [hBack] at h1
      have h2 := Except.ok.inj h1
      rw [fu, ← h2]
  rw [key, Encode_addAll ps hnd]
  exact ⟨rfl, rfl⟩

open pingdom in
/-- C13 (witness): the map `{"a": ["1", "2"]}` gives the query string "a=1&a=2". -/
theorem C13_repeated_keys_witness :
    (bothTokens.NewRequestMultiParamValue (sampleRuntime noEnv) "GET" "/checks"
        (some [("a", ["1", "2"])])).1
      = some { Method := "GET",
               URL := { Head := "https://api.pingdom.com/api/3.1/checks", ForceQuery := false,
                        RawQuery := "a=1&a=2", Fragment := "" },
               Header := [("Authorization", "Bearer token_only")], Body := none } ∧
    "&".intercalate ((sortByKey [("a", ["1", "2"])]).flatMap queryPairs) = "a=1&a=2" :=
  have h : (bothTokens.NewRequestMultiParamValue (sampleRuntime noEnv) "GET" "/checks"
        (some [("a", ["1", "2"])])).1
      = some { Method := "GET",
               URL := { Head := "https://api.pingdom.com/api/3.1/checks", ForceQuery := false,
                        RawQuery := "a=1&a=2", Fragment := "" },
               Header := [("Authorization", "Bearer token_only")], Body := none } := by decide
  ⟨h, ((C13_repeated_keys (sampleRuntime noEnv) bothTokens "GET" "/checks"
      [("a", ["1", "2"])]
      { Head := "https://api.pingdom.com/api/3.1/checks", ForceQuery := false,
        RawQuery := "", Fragment := "" } _ (by decide) (by rfl) (by rfl) h).1).symm⟩

open pingdom in
/-- C14: request building does not depend on the order in which a run visits the params
map, the one thing that can differ between two calls with identical arguments: for a client
of either package, two visits of one map (lists with distinct keys that are permutations of
each other) give the same result, hence the same method, URL, headers and cookies.
`NewJSONRequest` takes no map and is a function of its arguments.  The builders read the
client and return only the request, so the client is the same after a call as before. -/
theorem C14_deterministic (rt : Runtime) (pc : Client) (pcx : pingdomext.Client)
    (method rsc : String) :
    (∀ ps₁ ps₂ : List (String × String), (ps₁.map Prod.fst).Nodup → ps₁.Perm ps₂ →
      pc.NewRequest rt method rsc (some ps₁) = pc.NewRequest rt method rsc (some ps₂) ∧
      pcx.NewRequest rt method rsc (some ps₁) = pcx.NewRequest rt method rsc (some ps₂)) ∧
    (∀ ps₁ ps₂ : List (String × List String), (ps₁.map Prod.fst).Nodup → ps₁.Perm ps₂ →
      pc.NewRequestMultiParamValue rt method rsc (some ps₁)
        = pc.NewRequestMultiParamValue rt method rsc (some ps₂)) := by
  constructor
  · intro ps₁ ps₂ hnd hp
    simp only [Client.NewRequest, pingdomext.Client.NewRequest, Encode_setAll_perm hnd hp,
      and_self]
  · intro ps₁ ps₂ hnd hp
    simp only [Client.NewRequestMultiParamValue, Encode_addAll_perm hnd hp]

open pingdom in
/-- C14 (witness): the map `{"b": "2", "a": "1"}` visited in either order gives the request
with the query string "a=1&b=2". -/
theorem C14_deterministic_witness :
    bothTokens.NewRequest (sampleRuntime noEnv) "GET" "/checks" (some [("b", "2"), ("a", "1")])
      = bothTokens.NewRequest (sampleRuntime noEnv) "GET" "/checks"
          (some [("a", "1"), ("b", "2")]) ∧
    ((bothTokens.NewRequest (sampleRuntime noEnv) "GET" "/checks"
        (some [("b", "2"), ("a", "1")])).1.map fun r => r.URL.RawQuery) = some "a=1&b=2" :=
  ⟨((C14_deterministic (sampleRuntime noEnv) bothTokens (pingdomext.clientOn (answering 200 ""))
      "GET" "/checks").1 [("b", "2"), ("a", "1")] [("a", "1"), ("b", "2")] (by decide)
      (List.Perm.swap _ _ _)).1, by decide⟩

open pingdom in
/-- C15: when `NewJSONRequest` succeeds, the request has the single Content-Type value
"application/json", its body is `params`, its Authorization values are those that
`NewRequest` attaches, and its URL is what `http.NewRequest` parses from the rendering of
the URL `u` parsed from `BaseURL.String() + rsc`: `u` itself, query included, where the
library reads a URL back from its rendering. -/
theorem C15_json_request (rt : Runtime) (pc : Client) (method rsc params : String)
    (req : Request) (h : (pc.NewJSONRequest rt method rsc params).1 = some req) :
    Header.Values req.Header "Content-Type" = ["application/json"] ∧
    req.Body = some params ∧
    (∀ ps req', (pc.NewRequest rt method rsc ps).1 = some req' →
      Header.Values req.Header "Authorization"
        = Header.Values req'.Header "Authorization") ∧
    ∃ u, rt.urlParse (pc.BaseURL.String ++ rsc) = .ok u ∧
      rt.urlParse u.String = .ok req.URL ∧
      (ReadsBack rt u → req.URL = u ∧ req.URL.RawQuery = u.RawQuery) := by
  have hAuth := NewJSONRequest_auth h
  unfold Client.NewJSONRequest at h
  split at h
  · cases h
  · next u hu =>
    split at h
    · cases h
    · next r hr =>
      cases h
      obtain ⟨_, hurl, hhdr, hbody⟩ := httpNewRequest_ok hr
      obtain ⟨_, fu, fb⟩ := addAuthHeaders_frame pc r
      refine ⟨?_, ?_, ?_, u, hu, ?_, ?_⟩
      · simp only [Header.Values_Add]
        unfold Client.addAuthHeaders
        split
        · simp [hhdr, Header.Values, Header.Add]
        · split
          · simp [hhdr, Header.Values, Header.Add]
          · simp [hhdr, Header.Values]
      · show (pc.addAuthHeaders r).Body = some params
        rw [fb, hbody]
      · intro ps req' h'
        rw [hAuth, NewRequest_auth h']
      · show rt.urlParse u.String = .ok (pc.addAuthHeaders r).URL
        rw [fu]
        exact hurl
      · intro hb
        have h1 : rt.urlParse u.String = .ok r.URL := hurl
        rw [hb] at h1
        have h2 := Except.ok.inj h1
        show (pc.addAuthHeaders r).URL = u ∧ (pc.addAuthHeaders r).URL.RawQuery = u.RawQuery
        rw [fu, ← h2]
        exact ⟨rfl, rfl⟩

open pingdom in
/-- C15 (witness): a `POST /checks` with the body `{"name":"x"}` carries that body, the
Content-Type "application/json" and the Authorization value of the client. -/
theorem C15_json_request_witness :
    (bothTokens.NewJSONRequest (sampleRuntime noEnv) "POST" "/checks"
        "\x7b\"name\":\"x\"\x7d").1
      = some { Method := "POST",
               URL := { Head := "https://api.pingdom.com/api/3.1/checks", ForceQuery := false,
                        RawQuery := "", Fragment := "" },
               Header := [("Authorization", "Bearer token_only"),
                          ("Content-Type", "application/json")],
               Body := some "\x7b\"name\":\"x\"\x7d" } ∧
    Header.Values [("Authorization", "Bearer token_only"), ("Content-Type", "application/json")]
      "Content-Type" = ["application/json"] :=
  have h : (bothTokens.NewJSONRequest (sampleRuntime noEnv) "POST" "/checks"
        "\x7b\"name\":\"x\"\x7d").1
      = some { Method := "POST",
               URL := { Head := "https://api.pingdom.com/api/3.1/checks", ForceQuery := false,
                        RawQuery := "", Fragment := "" },
               Header := [("Authorization", "Bearer token_only"),
                          ("Content-Type", "application/json")],
               Body := some "\x7b\"name\":\"x\"\x7d" } := by decide
  ⟨h, (C15_json_request (sampleRuntime noEnv) bothTokens "POST" "/checks"
    "\x7b\"name\":\"x\"\x7d" _ h).1⟩

open pingdom in
/-- C16: for every client that `NewClientWithConfig` returns, every request built by
`NewRequest`, `NewRequestMultiParamValue` or `NewJSONRequest` carries exactly one
Authorization value, "Bearer " followed by `APITokenOnly` when that is non-empty and by
`APIToken` otherwise; the token used is never empty, so no request goes without the header
and none has two. -/
theorem C16_exactly_one_authorization (rt rt' : Runtime) (config : ClientConfig) (c : Client)
    (req : Request) (hNew : (NewClientWithConfig rt config).1 = some c)
    (hBuilt : BuiltBy rt' c req) :
    Header.Values req.Header "Authorization"
      = ["Bearer " ++ (if c.APITokenOnly ≠ "" then c.APITokenOnly else c.APIToken)] ∧
    (if c.APITokenOnly ≠ "" then c.APITokenOnly else c.APIToken) ≠ "" := by
  have hTok : c.APITokenOnly ≠ "" ∨ c.APIToken ≠ "" := by
    obtain ⟨u, hu⟩ := NewClientWithConfig_some_parsed hNew
    rw [NewClientWithConfig_parsed rt config u hu] at hNew
    split at hNew
    · cases hNew
    · next hne =>
      cases hNew
      by_contra hc
      push_neg at hc
      exact hne ⟨hc.2, hc.1⟩
  rw [BuiltBy_auth hBuilt]
  unfold authValues
  by_cases h1 : c.APITokenOnly = ""
  · have h2 : c.APIToken ≠ "" := by
      rcases hTok with h | h
      · exact absurd h1 h
      · exact h
    simp [h1, h2]
  · simp [h1]

open pingdom in
/-- C16 (witness): the client built from the config of `setupWithAPITokenOnly` builds
`GET /checks` with the single Authorization value "Bearer my_api_token_only", as in
`TestNewRequestWithAPITokenOnly`. -/
theorem C16_exactly_one_authorization_witness :
    (NewClientWithConfig (sampleRuntime noEnv) (tokensConfig "" "my_api_token_only")).1
      = some { APIToken := "", APITokenOnly := "my_api_token_only", BaseURL := exampleBase,
               client := (sampleRuntime noEnv).DefaultClient } ∧
    Header.Values (checksRequest "Bearer my_api_token_only").Header "Authorization"
      = ["Bearer my_api_token_only"] :=
  have hNew : (NewClientWithConfig (sampleRuntime noEnv)
        (tokensConfig "" "my_api_token_only")).1
      = some { APIToken := "", APITokenOnly := "my_api_token_only", BaseURL := exampleBase,
               client := (sampleRuntime noEnv).DefaultClient } := by rfl
  ⟨hNew, (C16_exactly_one_authorization (sampleRuntime noEnv) (sampleRuntime noEnv)
    (tokensConfig "" "my_api_token_only") _ (checksRequest "Bearer my_api_token_only") hNew
    (Or.inl ⟨"GET", "/checks", none, by decide⟩)).1⟩

/-! ## Claims on the extension client -/

namespace pingdomext

open pingdom (Header Request Runtime httpNewRequest cutAt)

theorem trimString_id (c d : Char) (mid : List Char) (hc : isASCIISpace c = false)
    (hd : isASCIISpace d = false) :
    trimString (c :: (mid ++ [d])) = c :: (mid ++ [d]) := by
  unfold trimString
  rw [List.dropWhile_cons_of_neg (by simp [hc])]
  have hrev : (c :: (mid ++ [d])).reverse = d :: (c :: mid).reverse := by simp
  rw [hrev, List.dropWhile_cons_of_neg (by simp [hd])]
  simp

theorem splitAll_no_sep (sep : Char) (cs : List Char) (h : ∀ c ∈ cs, c ≠ sep) :
    splitAll sep cs = [cs] := by
  induction cs with
  | nil => rfl
  | cons c rest ih =>
    have hc : (c == sep) = false := by
      simpa using h c (List.mem_cons_self _ _)
    simp only [splitAll, hc, Bool.false_eq_true, if_false]
    rw [ih fun x hx => h x (List.mem_cons_of_mem _ hx)]

/-- The characters `sanitizeCookieValue` keeps. -/
theorem valid_of_mem_filter {tok : List Char} {c : Char}
    (h : c ∈ tok.filter validCookieValueChar) : validCookieValueChar c = true :=
  (List.mem_filter.1 h).2

theorem valid_ne_quote {c : Char} (h : validCookieValueChar c = true) : c ≠ '"' := by
  intro e
  subst e
  revert h
  decide

theorem valid_ne_semicolon {c : Char} (h : validCookieValueChar c = true) : c ≠ ';' := by
  intro e
  subst e
  revert h
  decide

theorem valid_not_space {c : Char} (h : validCookieValueChar c = true) (hs : c ≠ ' ') :
    isASCIISpace c = false := by
  unfold validCookieValueChar at h
  simp only [Bool.and_eq_true, decide_eq_true_eq] at h
  have h32 : 32 ≤ c.toNat := h.1.1.1.1
  unfold isASCIISpace
  have h1 : (c == ' ') = false := by simpa using hs
  have h2 : (c == '\t') = false := by
    rw [beq_eq_false_iff_ne]
    intro e
    rw [e] at h32
    revert h32
    decide
  have h3 : (c == '\n') = false := by
    rw [beq_eq_false_iff_ne]
    intro e
    rw [e] at h32
    revert h32
    decide
  have h4 : (c == '\r') = false := by
    rw [beq_eq_false_iff_ne]
    intro e
    rw [e] at h32
    revert h32
    decide
  simp [h1, h2, h3, h4]

/-- The three shapes of a sanitized cookie value: empty, quoted, or the kept characters. -/
theorem sanitize_cases (tok : String) :
    (tok.toList.filter validCookieValueChar = [] ∧
      (sanitizeCookieValue tok false).toList = []) ∨
    (tok.toList.filter validCookieValueChar ≠ [] ∧
      ((tok.toList.filter validCookieValueChar).contains ' '
        || (tok.toList.filter validCookieValueChar).contains ',') = true ∧
      (sanitizeCookieValue tok false).toList
        = '"' :: (tok.toList.filter validCookieValueChar ++ ['"'])) ∨
    (tok.toList.filter validCookieValueChar ≠ [] ∧
      ((tok.toList.filter validCookieValueChar).contains ' '
        || (tok.toList.filter validCookieValueChar).contains ',') = false ∧
      (sanitizeCookieValue tok false).toList = tok.toList.filter validCookieValueChar) := by
  unfold sanitizeCookieValue
  by_cases h0 : tok.toList.filter validCookieValueChar = []
  · left
    refine ⟨h0, ?_⟩
    simp only
    rw [if_pos h0]
    rfl
  · right
    by_cases hq : ((tok.toList.filter validCookieValueChar).contains ' '
        || (tok.toList.filter validCookieValueChar).contains ',') = true
    · left
      refine ⟨h0, hq, ?_⟩
      simp only [h0, if_false, Bool.or_false]
      rw [if_pos hq]
      simp
    · right
      have hq' : ((tok.toList.filter validCookieValueChar).contains ' '
        || (tok.toList.filter validCookieValueChar).contains ',') = false := by
        simpa using hq
      refine ⟨h0, hq', ?_⟩
      simp only [h0, if_false, Bool.or_false]
      rw [if_neg hq]
      rfl

theorem parseCookieValue_quoted (kept : List Char)
    (hv : ∀ c ∈ kept, validCookieValueChar c = true) :
    parseCookieValue ('"' :: (kept ++ ['"'])) = some (kept, true) := by
  unfold parseCookieValue
  have hlen : 1 < ('"' :: (kept ++ ['"'])).length := by simp
  have hlast : ('"' :: (kept ++ ['"'])).getLast? = some '"' := by
    rw [← List.cons_append, List.getLast?_append]
    simp
  have hcond : 1 < ('"' :: (kept ++ ['"'])).length ∧ ('"' :: (kept ++ ['"'])).head? = some '"'
      ∧ ('"' :: (kept ++ ['"'])).getLast? = some '"' := ⟨hlen, rfl, hlast⟩
  rw [if_pos hcond]
  have hstrip : (('"' :: (kept ++ ['"'])).drop 1).dropLast = kept := by
    simp
  simp only [hstrip]
  rw [if_pos (List.all_eq_true.2 hv)]

theorem parseCookieValue_plain (kept : List Char)
    (hv : ∀ c ∈ kept, validCookieValueChar c = true) :
    parseCookieValue kept = some (kept, false) := by
  unfold parseCookieValue
  have hcond : ¬ (1 < kept.length ∧ kept.head? = some '"' ∧ kept.getLast? = some '"') := by
    rintro ⟨_, hh, _⟩
    cases kept with
    | nil => cases hh
    | cons c rest =>
      simp only [List.head?_cons, Option.some.injEq] at hh
      exact valid_ne_quote (hv c (List.mem_cons_self _ _)) hh
  rw [if_neg hcond]
  simp only
  rw [if_pos (List.all_eq_true.2 hv)]

/-- The line `jwt=` followed by a sanitized value is read back as one cookie named `jwt`
whose value is the kept characters. -/
theorem readCookies_jwt (tok : String) :
    ∃ quoted, readCookies [("Cookie", "jwt" ++ "=" ++ sanitizeCookieValue tok false)]
      = [{ Name := "jwt", Value := String.mk (tok.toList.filter validCookieValueChar),
           Quoted := quoted }] := by
  have hv : ∀ c ∈ tok.toList.filter validCookieValueChar, validCookieValueChar c = true :=
    fun c hc => valid_of_mem_filter hc
  have hline : ("jwt" ++ "=" ++ sanitizeCookieValue tok false).toList
      = 'j' :: 'w' :: 't' :: '=' :: (sanitizeCookieValue tok false).toList := by
    simp [String.toList]
  have hvals : Header.Values [("Cookie", "jwt" ++ "=" ++ sanitizeCookieValue tok false)] "Cookie"
      = ["jwt" ++ "=" ++ sanitizeCookieValue tok false] := by
    simp [Header.Values]
  have hname : trimString ['j', 'w', 't'] = ['j', 'w', 't'] := by decide
  have hvalid : isCookieNameValid ['j', 'w', 't'] = true := by decide
  have hj : isASCIISpace 'j' = false := by decide
  unfold readCookies
  rw [hvals]
  simp only [List.flatMap_cons, List.flatMap_nil, List.append_nil, hline]
  have hcases := sanitize_cases tok
  generalize tok.toList.filter validCookieValueChar = kept at hv hcases ⊢
  generalize (sanitizeCookieValue tok false).toList = w at hcases ⊢
  rcases hcases with ⟨h0, hw⟩ | ⟨h0, hq, hw⟩ | ⟨h0, hq, hw⟩
  · refine ⟨false, ?_⟩
    subst hw h0
    decide
  · refine ⟨true, ?_⟩
    subst hw
    have htrim : trimString ('j' :: 'w' :: 't' :: '=' :: '"' :: (kept ++ ['"']))
        = 'j' :: 'w' :: 't' :: '=' :: '"' :: (kept ++ ['"']) :=
      trimString_id 'j' '"' ('w' :: 't' :: '=' :: '"' :: kept) hj (by decide)
    have hsplit : splitAll ';' ('j' :: 'w' :: 't' :: '=' :: '"' :: (kept ++ ['"']))
        = ['j' :: 'w' :: 't' :: '=' :: '"' :: (kept ++ ['"'])] := by
      apply splitAll_no_sep
      intro c hc
      simp only [List.mem_cons, List.mem_append, List.mem_singleton, List.not_mem_nil,
        or_false] at hc
      rcases hc with rfl | rfl | rfl | rfl | rfl | hc | rfl
      · decide
      · decide
      · decide
      · decide
      · decide
      · exact valid_ne_semicolon (hv c hc)
      · decide
    rw [htrim, hsplit]
    simp only [List.filterMap_cons, List.filterMap_nil]
    unfold readCookiePart
    simp only [htrim]
    simp [cutAt, hname, hvalid, parseCookieValue_quoted kept hv]
  · refine ⟨false, ?_⟩
    subst hw
    obtain ⟨init, d, hd⟩ : ∃ init d, w = init ++ [d] := by
      rcases List.eq_nil_or_concat w with h | ⟨i, d, h⟩
      · exact absurd h h0
      · exact ⟨i, d, by rw [h, List.concat_eq_append]⟩
    have hdmem : d ∈ w := by
      rw [hd]
      simp
    have hdsp : d ≠ ' ' := by
      intro e
      subst e
      have : w.contains ' ' = true := by
        simpa using hdmem
      rw [this] at hq
      simp at hq
    have htrim : trimString ('j' :: 'w' :: 't' :: '=' :: w) = 'j' :: 'w' :: 't' :: '=' :: w := by
      rw [hd]
      exact trimString_id 'j' d ('w' :: 't' :: '=' :: init) hj (valid_not_space (hv d hdmem) hdsp)
    have hsplit : splitAll ';' ('j' :: 'w' :: 't' :: '=' :: w)
        = ['j' :: 'w' :: 't' :: '=' :: w] := by
      apply splitAll_no_sep
      intro c hc
      simp only [List.mem_cons] at hc
      rcases hc with rfl | rfl | rfl | rfl | hc
      · decide
      · decide
      · decide
      · decide
      · exact valid_ne_semicolon (hv c hc)
    rw [htrim, hsplit]
    simp only [List.filterMap_cons, List.filterMap_nil]
    unfold readCookiePart
    simp only [htrim]
    simp [cutAt, hname, hvalid, parseCookieValue_plain w hv]

end pingdomext

namespace pingdomext

open pingdom (Header Request Runtime httpNewRequest cutAt) in
theorem AddCookie_jwt_header (r : Request) (tok : String) (h : r.Header = []) :
    (AddCookie r { Name := "jwt", Value := tok }).Header
      = [("Cookie", "jwt" ++ "=" ++ sanitizeCookieValue tok false)] := by
  have hn : sanitizeCookieName "jwt" = "jwt" := by decide
  unfold AddCookie
  simp only [h, hn]
  have hget : Header.Get [] "Cookie" = "" := by decide
  rw [hget]
  simp [HeaderSet]

end pingdomext

open pingdom pingdomext in
/-- C17 (counterexample): a session-mode client whose `JWTToken` is "a;b" builds a request
whose only cookie is named "jwt" and has the value "ab", not `JWTToken`: `AddCookie` drops
the semicolon. -/
theorem C17_cookie_value_sanitized :
    ((({ JWTToken := "a;b", APITokenOnly := "", BaseURL := exampleBase,
         client := answering 200 "", useAPITokenOnly := false } : pingdomext.Client).NewRequest
        (sampleRuntime noEnv) "GET" "/data/v3/integration" none).1.map Cookies)
      = some [{ Name := "jwt", Value := "ab" }] := by
  decide

open pingdom pingdomext in
/-- C17 (amended): a request built by `NewRequest` of the extension package carries exactly
one credential, chosen by `useAPITokenOnly`.  When it is false the request has exactly one
cookie, named "jwt", whose value is `JWTToken` without the bytes that are not valid in a
cookie value (`JWTToken` itself when all its bytes are valid), and no Authorization value.
When it is true the request has the single Authorization value "Bearer " followed by
`APITokenOnly` and no cookie. -/
theorem C17_one_credential (rt : Runtime) (pc : pingdomext.Client) (method rsc : String)
    (params : Option (List (String × String))) (req : Request)
    (h : (pc.NewRequest rt method rsc params).1 = some req) :
    (pc.useAPITokenOnly = false →
      (Cookies req).map (fun c => (c.Name, c.Value))
        = [("jwt", String.mk (pc.JWTToken.toList.filter validCookieValueChar))] ∧
      Header.Values req.Header "Authorization" = []) ∧
    (pc.useAPITokenOnly = true →
      Header.Values req.Header "Authorization" = ["Bearer " ++ pc.APITokenOnly] ∧
      Cookies req = []) ∧
    ((∀ c ∈ pc.JWTToken.toList, validCookieValueChar c = true) →
      String.mk (pc.JWTToken.toList.filter validCookieValueChar) = pc.JWTToken) := by
  refine ⟨?_, ?_, ?_⟩
  · intro hmode
    unfold pingdomext.Client.NewRequest at h
    split at h
    · cases h
    · simp only at h
      split at h
      · cases h
      · next r hr =>
        obtain ⟨_, _, hhdr, _⟩ := httpNewRequest_ok hr
        simp only [hmode, Bool.false_eq_true, if_false] at h
        cases h
        have hH := AddCookie_jwt_header r pc.JWTToken hhdr
        obtain ⟨q, hq⟩ := readCookies_jwt pc.JWTToken
        refine ⟨?_, ?_⟩
        · unfold Cookies
          rw [hH, hq]
          rfl
        · rw [hH]
          simp [Header.Values]
  · intro hmode
    unfold pingdomext.Client.NewRequest at h
    split at h
    · cases h
    · simp only at h
      split at h
      · cases h
      · next r hr =>
        obtain ⟨_, _, hhdr, _⟩ := httpNewRequest_ok hr
        simp only [hmode, if_true] at h
        cases h
        simp only [hhdr]
        refine ⟨?_, ?_⟩
        · simp [Header.Values, Header.Add]
        · simp [Cookies, readCookies, Header.Values, Header.Add]
  · intro hall
    have : pc.JWTToken.toList.filter validCookieValueChar = pc.JWTToken.toList :=
      List.filter_eq_self.2 hall
    rw [this]
    rfl

open pingdom pingdomext in
/-- C17 (witness): the client of `TestClient_NewRequest`, with the token "my_jwt_token",
builds a request with the one cookie `jwt=my_jwt_token` and no Authorization value. -/
theorem C17_one_credential_witness :
    ((pingdomext.clientOn (answering 200 "")).NewRequest (sampleRuntime noEnv) "GET"
        "/data/v3/integration" none).1
      = some { Method := "GET",
               URL := { Head := "https://api.pingdom.com/api/3.1/data/v3/integration",
                        ForceQuery := false, RawQuery := "", Fragment := "" },
               Header := [("Cookie", "jwt=my_jwt_token")], Body := none } ∧
    (Cookies { Method := "GET",
               URL := { Head := "https://api.pingdom.com/api/3.1/data/v3/integration",
                        ForceQuery := false, RawQuery := "", Fragment := "" },
               Header := [("Cookie", "jwt=my_jwt_token")], Body := none }).map
        (fun c => (c.Name, c.Value))
      = [("jwt", "my_jwt_token")] ∧
    Header.Values [("Cookie", "jwt=my_jwt_token")] "Authorization" = [] :=
  have h : ((pingdomext.clientOn (answering 200 "")).NewRequest (sampleRuntime noEnv) "GET"
        "/data/v3/integration" none).1
      = some { Method := "GET",
               URL := { Head := "https://api.pingdom.com/api/3.1/data/v3/integration",
                        ForceQuery := false, RawQuery := "", Fragment := "" },
               Header := [("Cookie", "jwt=my_jwt_token")], Body := none } := by decide
  ⟨h, (C17_one_credential (sampleRuntime noEnv) (pingdomext.clientOn (answering 200 ""))
    "GET" "/data/v3/integration" none _ h).1 rfl⟩

namespace pingdomext

open pingdom (Runtime Outcome URL Request resolutionOrder extToken sessionConfig
  nilDereference)

theorem apiTokenOnly_eq (rt : Runtime) (config : ClientConfig) :
    (if config.APITokenOnly = "" then
        match rt.LookupEnv "PINGDOM_API_TOKEN" with
        | some envAPIToken => envAPIToken
        | none => ""
      else config.APITokenOnly) = extToken rt config := by
  unfold extToken resolutionOrder
  by_cases h : config.APITokenOnly = "" <;> simp [h]

theorem envField_eq (value : String) (env : Option String) :
    (if value = "" then
        match env with
        | some e => e
        | none => value
      else value) = resolutionOrder value env := by
  unfold resolutionOrder
  by_cases h : value = ""
  · cases env <;> simp [h]
  · simp [h]

theorem getD_eq (hc : Option pingdom.HTTPClient) (d : pingdom.HTTPClient) :
    (match hc with
      | none => d
      | some hc => hc) = hc.getD d := by
  cases hc <;> rfl

/-- With a static token, construction parses the base URL and returns a token-mode client
without a request. -/
theorem NewClientWithConfig_token (rt : Runtime) (lib : Library) (config : ClientConfig)
    (hTok : extToken rt config ≠ "") :
    NewClientWithConfig rt lib config =
      match rt.urlParse (if config.BaseURL = "" then apiURL else config.BaseURL) with
      | .error err => .ret (none, some err, [])
      | .ok baseURL =>
        .ret (some { JWTToken := "", APITokenOnly := extToken rt config, BaseURL := baseURL,
                     client := config.HTTPClient.getD lib.noRedirectClient,
                     useAPITokenOnly := true }, none, []) := by
  unfold NewClientWithConfig
  simp only [apiTokenOnly_eq, getD_eq, hTok, ne_eq, not_false_eq_true, if_true]

/-- Without a static token, construction parses the base URL, runs the handshake on the
session config and returns a session-mode client with the token obtained. -/
theorem NewClientWithConfig_session (rt : Runtime) (lib : Library) (config : ClientConfig)
    (hTok : extToken rt config = "") :
    NewClientWithConfig rt lib config =
      match rt.urlParse (sessionConfig rt lib config).BaseURL with
      | .error err => .ret (none, some err, [])
      | .ok baseURL =>
        match obtainToken rt lib (sessionConfig rt lib config) with
        | .panic msg => .panic msg
        | .ret (_, some err, sent) => .ret (none, some err, sent)
        | .ret (none, none, _) => .panic nilDereference
        | .ret (some jwtToken, none, sent) =>
          .ret (some { JWTToken := jwtToken, APITokenOnly := "", BaseURL := baseURL,
                       client := config.HTTPClient.getD lib.noRedirectClient,
                       useAPITokenOnly := false }, none, sent) := by
  unfold NewClientWithConfig
  simp only [apiTokenOnly_eq, getD_eq, envField_eq, hTok, ne_eq, not_true_eq_false, if_false]
  rfl

end pingdomext

open pingdom pingdomext in
/-- C18: a client that `NewClientWithConfig` of the extension package returns comes without
an error and has one authentication mode: `useAPITokenOnly` is true exactly when
`APITokenOnly` is non-empty; in token mode `JWTToken` is empty and no request was sent; in
session mode `APITokenOnly` is empty and `JWTToken` is the token that the handshake on the
session config returned, the requests sent being those of the handshake. -/
theorem C18_one_mode (rt : Runtime) (lib : Library) (config : pingdomext.ClientConfig)
    (c : pingdomext.Client) (err : error) (sent : List Request)
    (h : pingdomext.NewClientWithConfig rt lib config = .ret (some c, err, sent)) :
    err = none ∧
    (c.useAPITokenOnly = true ↔ c.APITokenOnly ≠ "") ∧
    (c.useAPITokenOnly = true → c.JWTToken = "" ∧ sent = []) ∧
    (c.useAPITokenOnly = false →
      c.APITokenOnly = "" ∧
      obtainToken rt lib (sessionConfig rt lib config) = .ret (some c.JWTToken, none, sent)) := by
  by_cases hTok : extToken rt config = ""
  · rw [NewClientWithConfig_session rt lib config hTok] at h
    split at h
    · cases h
    · split at h
      · cases h
      · cases h
      · cases h
      · next jwt sent' hob =>
        cases h
        exact ⟨rfl, by simp, by simp, fun _ => ⟨rfl, hob⟩⟩
  · rw [NewClientWithConfig_token rt lib config hTok] at h
    split at h
    · cases h
    · cases h
      exact ⟨rfl, by simp [hTok], fun _ => ⟨rfl, rfl⟩, by simp⟩

open pingdom pingdomext in
/-- C18 (witness): the config of `TestNewClientWithAPIToken` gives a token-mode client with
the token "test_api_token", an empty `JWTToken` and no request sent. -/
theorem C18_one_mode_witness :
    pingdomext.NewClientWithConfig (sampleRuntime noEnv) sampleLibrary tokenConfig =
      .ret (some { JWTToken := "", APITokenOnly := "test_api_token",
                   BaseURL := { Head := "http://127.0.0.1:8080", ForceQuery := false,
                                RawQuery := "", Fragment := "" },
                   client := handshakeServer, useAPITokenOnly := true }, none, []) ∧
    (true = true ↔ "test_api_token" ≠ "") :=
  have h : pingdomext.NewClientWithConfig (sampleRuntime noEnv) sampleLibrary tokenConfig =
      .ret (some { JWTToken := "", APITokenOnly := "test_api_token",
                   BaseURL := { Head := "http://127.0.0.1:8080", ForceQuery := false,
                                RawQuery := "", Fragment := "" },
                   client := handshakeServer, useAPITokenOnly := true }, none, []) := by rfl
  ⟨h, (C18_one_mode (sampleRuntime noEnv) sampleLibrary tokenConfig _ _ _ h).2.1⟩

open pingdom pingdomext in
/-- C19: the base URL of a returned client is the URL parsed from the `BaseURL` of the
config when that is non-empty.  With an empty `BaseURL` the core package parses
"https://api.pingdom.com/api/3.1"; the extension package parses
"https://api.pingdom.com/api/3.1" when a static token resolves and "https://my.pingdom.com"
when none does, and then runs the handshake on a config whose `BaseURL` is that same
string. -/
theorem C19_base_url (rt : Runtime) (lib : Library) :
    (∀ (config : pingdom.ClientConfig) (c : pingdom.Client),
      (pingdom.NewClientWithConfig rt config).1 = some c →
      rt.urlParse (if config.BaseURL ≠ "" then config.BaseURL
        else "https://api.pingdom.com/api/3.1") = .ok c.BaseURL) ∧
    (∀ (config : pingdomext.ClientConfig) (c : pingdomext.Client) (err : error)
        (sent : List Request),
      pingdomext.NewClientWithConfig rt lib config = .ret (some c, err, sent) →
      rt.urlParse (if config.BaseURL ≠ "" then config.BaseURL
        else if extToken rt config ≠ "" then "https://api.pingdom.com/api/3.1"
        else "https://my.pingdom.com") = .ok c.BaseURL ∧
      (extToken rt config = "" →
        (sessionConfig rt lib config).BaseURL
          = (if config.BaseURL ≠ "" then config.BaseURL else "https://my.pingdom.com") ∧
        obtainToken rt lib (sessionConfig rt lib config)
          = .ret (some c.JWTToken, none, sent))) := by
  constructor
  · intro config c h
    obtain ⟨u, hu⟩ := NewClientWithConfig_some_parsed h
    rw [NewClientWithConfig_parsed rt config u hu] at h
    split at h
    · cases h
    · cases h
      exact hu
  · intro config c err sent h
    by_cases hTok : extToken rt config = ""
    · rw [NewClientWithConfig_session rt lib config hTok] at h
      split at h
      · cases h
      · next u hu =>
        split at h
        · cases h
        · cases h
        · cases h
        · next jwt sent' hob =>
          cases h
          have hb : (sessionConfig rt lib config).BaseURL
              = (if config.BaseURL ≠ "" then config.BaseURL else "https://my.pingdom.com") := by
            by_cases hbb : config.BaseURL = "" <;> simp [sessionConfig, hbb, pingdomext.defaultBaseURL]
          refine ⟨?_, fun _ => ⟨hb, hob⟩⟩
          simp only [hTok, ne_eq, not_true_eq_false, if_false]
          rw [← hb]
          exact hu
    · rw [NewClientWithConfig_token rt lib config hTok] at h
      split at h
      · cases h
      · next u hu =>
        cases h
        refine ⟨?_, fun h0 => absurd h0 hTok⟩
        by_cases hbb : config.BaseURL = ""
        · simpa [hbb, hTok, apiURL] using hu
        · simpa [hbb] using hu

open pingdom pingdomext in
/-- C19 (witness): with no `BaseURL` in the config the core client has the base URL
"https://api.pingdom.com/api/3.1", as in `TestNewClientWithConfig`. -/
theorem C19_base_url_witness :
    (pingdom.NewClientWithConfig (sampleRuntime noEnv) (tokensConfig "token" "")).1
      = some { APIToken := "token", APITokenOnly := "", BaseURL := exampleBase,
               client := (sampleRuntime noEnv).DefaultClient } ∧
    (sampleRuntime noEnv).urlParse
        (if (tokensConfig "token" "").BaseURL ≠ "" then (tokensConfig "token" "").BaseURL
          else "https://api.pingdom.com/api/3.1") = .ok exampleBase ∧
    exampleBase.String = "https://api.pingdom.com/api/3.1" :=
  have h : (pingdom.NewClientWithConfig (sampleRuntime noEnv) (tokensConfig "token" "")).1
      = some { APIToken := "token", APITokenOnly := "", BaseURL := exampleBase,
               client := (sampleRuntime noEnv).DefaultClient } := by rfl
  ⟨h, (C19_base_url (sampleRuntime noEnv) sampleLibrary).1 (tokensConfig "token" "") _ h,
    by decide⟩

open pingdom pingdomext in
/-- C20: for a config without a static token, when every step of the handshake succeeds
(the URLs parse, the transport answers the three requests, the first answer has a Location
and the cookie `pingdom_login_session_id`, the second answer is a JSON object, the third
answer sets a cookie `jwt`), `NewClientWithConfig` of the extension package sends exactly
three requests in order: a GET of the base URL followed by "/auth/login?", a POST of the
auth URL, and a GET of the base URL followed by "/auth/swicus/callback?" and the encoded
query of the redirect URL; it returns a session-mode client whose `JWTToken` is the value of
the first cookie named "jwt" of the third answer. -/
theorem C20_handshake (rt : Runtime) (lib : Library) (config : pingdomext.ClientConfig)
    (base stateURL location redirectURL : URL) (stateReq authReq0 tokenReq0 : Request)
    (stateResp authResp tokenResp : Response) (sessionCookie jwtCookie : Cookie)
    (authRespJSON : authResult)
    (hTok : extToken rt config = "")
    (hBase : rt.urlParse (sessionConfig rt lib config).BaseURL = .ok base)
    (h1u : rt.urlParse ((sessionConfig rt lib config).BaseURL ++ "/auth/login?")
      = .ok stateURL)
    (h1r : httpNewRequest rt "GET" stateURL.String none = .ok stateReq)
    (h1d : (config.HTTPClient.getD lib.noRedirectClient).Do stateReq = .ok stateResp)
    (h1l : Location lib stateReq stateResp = .ok location)
    (h1c : getCookie lib stateResp "pingdom_login_session_id" = (some sessionCookie, none))
    (h2r : httpNewRequest rt "POST" (sessionConfig rt lib config).AuthURL
        (some (marshalAuthPayload
          { Email := (sessionConfig rt lib config).Username,
            Password := (sessionConfig rt lib config).Password,
            LoginQueryParams := Values.Encode (lib.parseQuery location.RawQuery) }))
      = .ok authReq0)
    (h2d : (config.HTTPClient.getD lib.noRedirectClient).Do
        { authReq0 with Header := Header.Add authReq0.Header "Content-Type" "application/json" }
      = .ok authResp)
    (h2j : unmarshalAuthResult authResp.Body.ReadAll.1 (some { RedirectURL := "" })
      = (none, some authRespJSON))
    (h3u : rt.urlParse authRespJSON.RedirectURL = .ok redirectURL)
    (h3r : httpNewRequest rt "GET"
        ((sessionConfig rt lib config).BaseURL ++ "/auth/swicus/callback?"
          ++ Values.Encode (lib.parseQuery redirectURL.RawQuery)) none
      = .ok tokenReq0)
    (h3d : (config.HTTPClient.getD lib.noRedirectClient).Do
        (AddCookie (AddCookie tokenReq0 sessionCookie)
          { Name := "login_session_swicus_org_id",
            Value := (sessionConfig rt lib config).OrgID })
      = .ok tokenResp)
    (h3c : getCookie lib tokenResp "jwt" = (some jwtCookie, none)) :
    pingdomext.NewClientWithConfig rt lib config =
      .ret (some { JWTToken := jwtCookie.Value, APITokenOnly := "", BaseURL := base,
                   client := config.HTTPClient.getD lib.noRedirectClient,
                   useAPITokenOnly := false },
            none,
            [stateReq,
             { authReq0 with
               Header := Header.Add authReq0.Header "Content-Type" "application/json" },
             AddCookie (AddCookie tokenReq0 sessionCookie)
               { Name := "login_session_swicus_org_id",
                 Value := (sessionConfig rt lib config).OrgID }]) ∧
    (stateReq.Method = "GET" ∧ rt.urlParse stateURL.String = .ok stateReq.URL) ∧
    (authReq0.Method = "POST" ∧
      rt.urlParse (sessionConfig rt lib config).AuthURL = .ok authReq0.URL) ∧
    (tokenReq0.Method = "GET" ∧
      rt.urlParse ((sessionConfig rt lib config).BaseURL ++ "/auth/swicus/callback?"
        ++ Values.Encode (lib.parseQuery redirectURL.RawQuery)) = .ok tokenReq0.URL) ∧
    (lib.readSetCookies tokenResp.Header).find? (fun cookie => cookie.Name == "jwt")
      = some jwtCookie := by
  have hcl : (sessionConfig rt lib config).HTTPClient
      = some (config.HTTPClient.getD lib.noRedirectClient) := rfl
  refine ⟨?_, ?_, ?_, ?_, ?_⟩
  · rw [NewClientWithConfig_session rt lib config hTok, hBase]
    have hob : obtainToken rt lib (sessionConfig rt lib config) =
        .ret (some jwtCookie.Value, none,
          [stateReq,
           { authReq0 with
             Header := Header.Add authReq0.Header "Content-Type" "application/json" },
           AddCookie (AddCookie tokenReq0 sessionCookie)
             { Name := "login_session_swicus_org_id",
               Value := (sessionConfig rt lib config).OrgID }]) := by
      generalize sessionConfig rt lib config = cfg at *
      unfold obtainToken
      simp only [h1u, h1r, hcl, h1d, h1l, h1c, h2r, h2d, h2j, h3u, h3r, h3d, h3c]
    simp only [hob]
  · obtain ⟨hm, hu, _, _⟩ := httpNewRequest_ok h1r
    exact ⟨hm.trans (by decide), hu⟩
  · obtain ⟨hm, hu, _, _⟩ := httpNewRequest_ok h2r
    exact ⟨hm.trans (by decide), hu⟩
  · obtain ⟨hm, hu, _, _⟩ := httpNewRequest_ok h3r
    exact ⟨hm.trans (by decide), hu⟩
  · unfold getCookie at h3c
    split at h3c
    · next ck hck =>
      cases h3c
      exact hck
    · cases h3c

set_option maxRecDepth 100000 in
open pingdom pingdomext in
/-- C20 (witness): against the test server of `TestNewClientWithConfig` the construction
sends three requests and returns a client with the token "my_test_token". -/
theorem C20_handshake_witness :
    ∃ c sent, pingdomext.NewClientWithConfig (sampleRuntime noEnv) sampleLibrary handshakeConfig
        = .ret (some c, none, sent) ∧
      c.JWTToken = "my_test_token" ∧ c.useAPITokenOnly = false ∧
      sent.map (fun r => (r.Method, r.URL.String)) =
        [("GET", "http://127.0.0.1:8080/auth/login?"),
         ("POST", "http://127.0.0.1:8080/v1/login"),
         ("GET", "http://127.0.0.1:8080/auth/swicus/callback?code=70kRkkAB7OIv5YYTPR6LpHH-2jMbtaDEHScLDw1amfw.baMoW3w-HkNXOj_I8pv580mRwBjIRVdFLW3cXFGRX9o&scope=openid+swicus&state=htILEppzoMPtb6UjOdM98XPS3Mcwkr3Y")] :=
  ⟨_, _,
    (C20_handshake (sampleRuntime noEnv) sampleLibrary handshakeConfig
      (plainURL "http://127.0.0.1:8080") loginRequest.URL loginLocation callbackRedirect
      loginRequest authRequest callbackRequest loginResponse authResponse callbackResponse
      loginSessionCookie { Name := "jwt", Value := "my_test_token" }
      { RedirectURL := "https://my.pingdom.com/auth/swicus/callback?code=70kRkkAB7OIv5YYTPR6LpHH-2jMbtaDEHScLDw1amfw.baMoW3w-HkNXOj_I8pv580mRwBjIRVdFLW3cXFGRX9o&scope=openid+swicus&state=htILEppzoMPtb6UjOdM98XPS3Mcwkr3Y" }
      (by decide) (by decide) (by decide) (by decide) (by decide) (by decide) (by decide)
      (by decide) (by decide) (by decide) (by decide) (by decide) (by decide) (by decide)).1,
    rfl, rfl, by decide⟩

namespace pingdom

theorem validCommonParameters_eq_none (name hostname : String) (resolution : Int) :
    validCommonParameters name hostname resolution = none ↔
      name ≠ "" ∧ hostname ≠ "" ∧ resolution ∈ ([0, 1, 5, 15, 30, 60] : List Int) := by
  unfold validCommonParameters
  by_cases hn : name = ""
  · simp [hn]
  by_cases hh : hostname = ""
  · simp [hn, hh]
  simp only [if_neg hn, if_neg hh, List.mem_cons, List.mem_singleton, List.not_mem_nil,
    or_false, ne_eq, hn, hh, not_false_eq_true, true_and]
  by_cases h : resolution ≠ 0 ∧ resolution ≠ 1 ∧ resolution ≠ 5 ∧ resolution ≠ 15 ∧
      resolution ≠ 30 ∧ resolution ≠ 60
  · rw [if_pos h]
    constructor
    · intro hc
      cases hc
    · intro hc
      omega
  · rw [if_neg h]
    constructor
    · intro _
      by_contra hc
      exact h (by omega)
    · intro _
      rfl

end pingdom

open pingdom in
/-- C26: `validCommonParameters` returns nil exactly when the name and the hostname are
non-empty and the resolution is one of 0, 1, 5, 15, 30, 60; hence `Valid` of an HTTP, ping,
TCP or DNS check returns an error when `Name` is empty, `Hostname` is empty or `Resolution`
is outside that set, and `PingCheck.Valid` returns nil exactly when `validCommonParameters`
does. -/
theorem C26_common_parameters :
    (∀ (name hostname : String) (resolution : Int),
      validCommonParameters name hostname resolution = none ↔
        name ≠ "" ∧ hostname ≠ "" ∧ resolution ∈ ([0, 1, 5, 15, 30, 60] : List Int)) ∧
    (∀ ck : HttpCheck,
      ck.Name = "" ∨ ck.Hostname = "" ∨ ck.Resolution ∉ ([0, 1, 5, 15, 30, 60] : List Int) →
        ck.Valid ≠ none) ∧
    (∀ ck : PingCheck,
      ck.Name = "" ∨ ck.Hostname = "" ∨ ck.Resolution ∉ ([0, 1, 5, 15, 30, 60] : List Int) →
        ck.Valid ≠ none) ∧
    (∀ ck : TCPCheck,
      ck.Name = "" ∨ ck.Hostname = "" ∨ ck.Resolution ∉ ([0, 1, 5, 15, 30, 60] : List Int) →
        ck.Valid ≠ none) ∧
    (∀ ck : DNSCheck,
      ck.Name = "" ∨ ck.Hostname = "" ∨ ck.Resolution ∉ ([0, 1, 5, 15, 30, 60] : List Int) →
        ck.Valid ≠ none) ∧
    (∀ ck : PingCheck,
      ck.Valid = none ↔ validCommonParameters ck.Name ck.Hostname ck.Resolution = none) := by
  have key : ∀ (name hostname : String) (resolution : Int),
      name = "" ∨ hostname = "" ∨ resolution ∉ ([0, 1, 5, 15, 30, 60] : List Int) →
        ∃ err, validCommonParameters name hostname resolution = some err := by
    intro name hostname resolution h
    cases hv : validCommonParameters name hostname resolution with
    | some err => exact ⟨err, rfl⟩
    | none =>
      have := (validCommonParameters_eq_none name hostname resolution).1 hv
      rcases h with h | h | h
      · exact absurd h this.1
      · exact absurd h this.2.1
      · exact absurd this.2.2 h
  refine ⟨validCommonParameters_eq_none, ?_, ?_, ?_, ?_, ?_⟩
  · intro ck h
    obtain ⟨err, he⟩ := key _ _ _ h
    simp [HttpCheck.Valid, he]
  · intro ck h
    obtain ⟨err, he⟩ := key _ _ _ h
    simp [PingCheck.Valid, he]
  · intro ck h
    obtain ⟨err, he⟩ := key _ _ _ h
    simp [TCPCheck.Valid, he]
  · intro ck h
    obtain ⟨err, he⟩ := key _ _ _ h
    simp [DNSCheck.Valid, he]
  · intro ck
    unfold PingCheck.Valid
    cases validCommonParameters ck.Name ck.Hostname ck.Resolution <;> simp

open pingdom in
/-- C26 (witness): the name "n", the host "h" and the resolution 5 are accepted; a ping check
with the resolution 7 is rejected, and so is an HTTP check with an empty name. -/
theorem C26_common_parameters_witness :
    validCommonParameters "n" "h" 5 = none ∧
    (pingCheckOf "n" "h" 7).Valid ≠ none ∧
    (httpCheckOf "" "h" 5 "" "").Valid ≠ none :=
  ⟨(C26_common_parameters.1 "n" "h" 5).2 ⟨by decide, by decide, by decide⟩,
    C26_common_parameters.2.2.1 (pingCheckOf "n" "h" 7) (Or.inr (Or.inr (by decide))),
    C26_common_parameters.2.1 (httpCheckOf "" "h" 5 "" "") (Or.inl rfl)⟩

open pingdom in
/-- C27: `Valid` of an HTTP check returns nil exactly when the name and the hostname are
non-empty, the resolution is one of 0, 1, 5, 15, 30, 60, and `ShouldContain` and
`ShouldNotContain` are not both non-empty. -/
theorem C27_http_valid (ck : HttpCheck) :
    ck.Valid = none ↔
      (ck.Name ≠ "" ∧ ck.Hostname ≠ "" ∧
        ck.Resolution ∈ ([0, 1, 5, 15, 30, 60] : List Int)) ∧
      ¬ (ck.ShouldContain ≠ "" ∧ ck.ShouldNotContain ≠ "") := by
  rw [← validCommonParameters_eq_none]
  unfold HttpCheck.Valid
  cases validCommonParameters ck.Name ck.Hostname ck.Resolution with
  | some err => simp
  | none =>
    by_cases h : ck.ShouldContain ≠ "" ∧ ck.ShouldNotContain ≠ ""
    · simp only [if_pos h, reduceCtorEq, false_iff]
      exact fun hh => hh.2 h
    · simp only [if_neg h, true_iff]
      exact ⟨trivial, h⟩

open pingdom in
/-- C27 (witness): a check with only `ShouldContain` is valid, a check with both
`ShouldContain` and `ShouldNotContain` is not. -/
theorem C27_http_valid_witness :
    (httpCheckOf "n" "h" 5 "a" "").Valid = none ∧
    (httpCheckOf "n" "h" 5 "a" "b").Valid ≠ none :=
  ⟨(C27_http_valid (httpCheckOf "n" "h" 5 "a" "")).2 ⟨⟨by decide, by decide, by decide⟩, by decide⟩,
    fun h => ((C27_http_valid (httpCheckOf "n" "h" 5 "a" "b")).1 h).2 ⟨by decide, by decide⟩⟩

open pingdom in
/-- C28: for a TCP check whose common parameters are valid, `Valid` returns nil exactly when
the port is between 1 and 65535; in particular the port 0, a negative port and a port above
65535 are rejected. -/
theorem C28_tcp_port (ck : TCPCheck)
    (hCommon : validCommonParameters ck.Name ck.Hostname ck.Resolution = none) :
    (ck.Valid = none ↔ 1 ≤ ck.Port ∧ ck.Port ≤ 65535) ∧
    (ck.Port = 0 ∨ ck.Port < 0 ∨ 65535 < ck.Port → ck.Valid ≠ none) := by
  have key : ck.Valid = none ↔ 1 ≤ ck.Port ∧ ck.Port ≤ 65535 := by
    unfold TCPCheck.Valid
    rw [hCommon]
    by_cases h : ck.Port < 1 ∨ ck.Port > 65535
    · simp only [if_pos h, reduceCtorEq, false_iff]
      omega
    · simp only [if_neg h, true_iff]
      omega
  refine ⟨key, fun h hv => ?_⟩
  have := key.1 hv
  omega

open pingdom in
/-- C28 (witness): with the name "n", the host "h" and the resolution 5, the port 80 is
accepted and the ports 0, -1 and 65536 are rejected. -/
theorem C28_tcp_port_witness :
    validCommonParameters "n" "h" 5 = none ∧
    (tcpCheckOf "n" "h" 5 80).Valid = none ∧
    (tcpCheckOf "n" "h" 5 0).Valid ≠ none ∧
    (tcpCheckOf "n" "h" 5 (-1)).Valid ≠ none ∧
    (tcpCheckOf "n" "h" 5 65536).Valid ≠ none :=
  ⟨by decide,
    (C28_tcp_port (tcpCheckOf "n" "h" 5 80) (by decide)).1.2 ⟨by decide, by decide⟩,
    (C28_tcp_port (tcpCheckOf "n" "h" 5 0) (by decide)).2 (Or.inl rfl),
    (C28_tcp_port (tcpCheckOf "n" "h" 5 (-1)) (by decide)).2 (Or.inr (Or.inl (by decide))),
    (C28_tcp_port (tcpCheckOf "n" "h" 5 65536) (by decide)).2 (Or.inr (Or.inr (by decide)))⟩

namespace pingdom

theorem mapSet_keys (m : Params) (k v : String) :
    (mapSet m k v).map Prod.fst =
      if k ∈ m.map Prod.fst then m.map Prod.fst else m.map Prod.fst ++ [k] := by
  induction m with
  | nil => simp [mapSet]
  | cons e rest ih =>
    obtain ⟨k', v'⟩ := e
    unfold mapSet
    by_cases h : k' = k
    · simp [h]
    · have h' : ¬ k = k' := fun hh => h hh.symm
      simp only [if_neg h, List.map_cons, ih, List.mem_cons, h', false_or]
      split <;> simp

theorem mapSet_nodup (m : Params) (k v : String) (h : (m.map Prod.fst).Nodup) :
    ((mapSet m k v).map Prod.fst).Nodup := by
  rw [mapSet_keys]
  split
  · exact h
  · rename_i hk
    exact List.Nodup.append h (List.nodup_singleton k) (by simpa using hk)

theorem key_mapSet (m : Params) (k v k' : String) :
    k' ∈ (mapSet m k v).map Prod.fst ↔ k' = k ∨ k' ∈ m.map Prod.fst := by
  rw [mapSet_keys]
  split
  · rename_i hk
    constructor
    · exact Or.inr
    · rintro (h | h)
      · exact h ▸ hk
      · exact h
  · simp [or_comm]

theorem mem_mapSet_of_ne (m : Params) (k v k' v' : String) (h : k' ≠ k) :
    (k', v') ∈ mapSet m k v ↔ (k', v') ∈ m := by
  induction m with
  | nil => simp [mapSet, h]
  | cons e rest ih =>
    obtain ⟨k₀, v₀⟩ := e
    unfold mapSet
    by_cases h0 : k₀ = k
    · subst h0
      simp [h]
    · simp [h0, ih]

theorem mem_mapSet_self (m : Params) (k v v' : String) (hnd : (m.map Prod.fst).Nodup) :
    (k, v') ∈ mapSet m k v ↔ v' = v := by
  induction m with
  | nil => simp [mapSet]
  | cons e rest ih =>
    obtain ⟨k₀, v₀⟩ := e
    have hnd' := List.nodup_cons.1 hnd
    unfold mapSet
    by_cases h0 : k₀ = k
    · subst h0
      have : ∀ w, (k₀, w) ∉ rest := fun w hw => hnd'.1 (List.mem_map.2 ⟨(k₀, w), hw, rfl⟩)
      simp [this]
    · have h0' : ¬ k = k₀ := fun hh => h0 hh.symm
      simp [h0, h0', ih hnd'.2]

theorem setIf_nodup (c : Prop) [Decidable c] (m : Params) (k v : String)
    (h : (m.map Prod.fst).Nodup) : ((setIf c m k v).map Prod.fst).Nodup := by
  unfold setIf
  split
  · exact mapSet_nodup m k v h
  · exact h

theorem setSome_nodup (m : Params) (k : String) (o : Option String)
    (h : (m.map Prod.fst).Nodup) : ((setSome m k o).map Prod.fst).Nodup := by
  cases o with
  | none => exact h
  | some v => exact mapSet_nodup m k v h

theorem setRequestHeaders_nodup (rh : Params) (hs : List String) (i : Nat) (m : Params)
    (h : (m.map Prod.fst).Nodup) : ((setRequestHeaders rh hs i m).map Prod.fst).Nodup := by
  induction hs generalizing i m with
  | nil => exact h
  | cons k rest ih => exact ih _ _ (mapSet_nodup _ _ _ h)

theorem mem_setIf_of_ne (c : Prop) [Decidable c] (m : Params) (k v k' v' : String)
    (h : k' ≠ k) : (k', v') ∈ setIf c m k v ↔ (k', v') ∈ m := by
  unfold setIf
  split
  · exact mem_mapSet_of_ne m k v k' v' h
  · exact Iff.rfl

theorem key_setIf_of_ne (c : Prop) [Decidable c] (m : Params) (k v k' : String)
    (h : k' ≠ k) : k' ∈ (setIf c m k v).map Prod.fst ↔ k' ∈ m.map Prod.fst := by
  unfold setIf
  split
  · rw [key_mapSet]
    simp [h]
  · exact Iff.rfl

theorem mem_setSome_of_ne (m : Params) (k : String) (o : Option String) (k' v' : String)
    (h : k' ≠ k) : (k', v') ∈ setSome m k o ↔ (k', v') ∈ m := by
  cases o with
  | none => exact Iff.rfl
  | some v => exact mem_mapSet_of_ne m k v k' v' h

theorem key_setSome_of_ne (m : Params) (k : String) (o : Option String) (k' : String)
    (h : k' ≠ k) : k' ∈ (setSome m k o).map Prod.fst ↔ k' ∈ m.map Prod.fst := by
  cases o with
  | none => exact Iff.rfl
  | some v =>
    show k' ∈ (mapSet m k v).map Prod.fst ↔ _
    rw [key_mapSet]
    simp [h]

theorem mem_setRequestHeaders_of_ne (rh : Params) (hs : List String) (i : Nat) (m : Params)
    (k' v' : String) (h : ∀ j : Nat, k' ≠ "requestheader" ++ Itoa j) :
    (k', v') ∈ setRequestHeaders rh hs i m ↔ (k', v') ∈ m := by
  induction hs generalizing i m with
  | nil => exact Iff.rfl
  | cons k rest ih =>
    unfold setRequestHeaders
    rw [ih, mem_mapSet_of_ne _ _ _ _ _ (h i)]

theorem key_setRequestHeaders_of_ne (rh : Params) (hs : List String) (i : Nat) (m : Params)
    (k' : String) (h : ∀ j : Nat, k' ≠ "requestheader" ++ Itoa j) :
    k' ∈ (setRequestHeaders rh hs i m).map Prod.fst ↔ k' ∈ m.map Prod.fst := by
  induction hs generalizing i m with
  | nil => exact Iff.rfl
  | cons k rest ih =>
    unfold setRequestHeaders
    rw [ih, key_mapSet]
    simp [h i]

theorem ne_requestheader (k : String) (hk : k.toList.head? ≠ some 'r') (s : String) :
    k ≠ "requestheader" ++ s := by
  intro h
  apply hk
  rw [h]
  show ("requestheader".data ++ s.data).head? = some 'r'
  rfl

end pingdom

namespace pingdom

theorem foldl_delete (l acc : Params) :
    l.foldl (fun m kv => if kv.2 = "" then mapDelete m kv.1 else m) acc
      = acc.filter fun e => l.all fun kv => !(decide (kv.2 = "") && kv.1 == e.1) := by
  induction l generalizing acc with
  | nil => simp
  | cons kv rest ih =>
    simp only [List.foldl_cons, ih, List.all_cons]
    by_cases h : kv.2 = ""
    · simp only [if_pos h, mapDelete, List.filter_filter]
      apply List.filter_congr
      intro e _
      generalize (rest.all fun kv => !(decide (kv.2 = "") && kv.1 == e.1)) = b
      have hd : decide (kv.2 = "") = true := decide_eq_true h
      by_cases hk : kv.1 = e.1
      · have h1 : (kv.1 == e.1) = true := beq_iff_eq.2 hk
        have h2 : (e.1 != kv.1) = false := by rw [hk]; exact bne_self_eq_false _
        rw [hd, h1, h2]
        cases b <;> rfl
      · have h1 : (kv.1 == e.1) = false := beq_eq_false_iff_ne.2 hk
        have h2 : (e.1 != kv.1) = true := bne_iff_ne.2 fun hh => hk hh.symm
        rw [hd, h1, h2]
        cases b <;> rfl
    · simp only [if_neg h]
      apply List.filter_congr
      intro e _
      have hd : decide (kv.2 = "") = false := decide_eq_false h
      rw [hd]
      rfl

theorem deleteEmpty_eq_filter (m : Params) (hnd : (m.map Prod.fst).Nodup) :
    deleteEmpty m = m.filter fun e => e.2 != "" := by
  unfold deleteEmpty
  rw [foldl_delete]
  apply List.filter_congr
  intro e he
  by_cases hv : e.2 = ""
  · have h1 : (m.all fun kv => !(decide (kv.2 = "") && kv.1 == e.1)) = false := by
      rw [List.all_eq_false]
      exact ⟨e, he, by simp [hv]⟩
    have h2 : (e.2 != "") = false := by rw [hv]; exact bne_self_eq_false _
    rw [h1, h2]
  · have h1 : (m.all fun kv => !(decide (kv.2 = "") && kv.1 == e.1)) = true := by
      rw [List.all_eq_true]
      intro kv hkv
      by_cases hk : kv.1 = e.1
      · have := List.inj_on_of_nodup_map hnd hkv he hk
        subst this
        simp [hv]
      · simp [hk]
    have h2 : (e.2 != "") = true := bne_iff_ne.2 hv
    rw [h1, h2]

theorem putParams_nodup_HttpCheck (ck : HttpCheck) : (ck.PutParams.map Prod.fst).Nodup := by
  unfold HttpCheck.PutParams
  simp only []
  apply setRequestHeaders_nodup
  apply setIf_nodup
  have base : ∀ m : Params, (m.map Prod.fst).Nodup →
      ((if ck.ShouldContain ≠ "" then mapSet m "shouldcontain" ck.ShouldContain
        else mapSet m "shouldnotcontain" ck.ShouldNotContain).map Prod.fst).Nodup := by
    intro m hm
    split <;> exact mapSet_nodup _ _ _ hm
  apply base
  repeat (first | apply setIf_nodup | apply setSome_nodup)
  simp only [List.map_cons, List.map_nil]
  decide

theorem putParams_nodup_PingCheck (ck : PingCheck) : (ck.PutParams.map Prod.fst).Nodup := by
  unfold PingCheck.PutParams
  simp only []
  repeat (first | apply setIf_nodup | apply setSome_nodup)
  simp only [List.map_cons, List.map_nil]
  decide

theorem putParams_nodup_TCPCheck (ck : TCPCheck) : (ck.PutParams.map Prod.fst).Nodup := by
  unfold TCPCheck.PutParams
  simp only []
  repeat (first | apply setIf_nodup | apply setSome_nodup)
  simp only [List.map_cons, List.map_nil]
  decide

theorem putParams_nodup_DNSCheck (ck : DNSCheck) : (ck.PutParams.map Prod.fst).Nodup := by
  unfold DNSCheck.PutParams
  simp only []
  repeat (first | apply setIf_nodup | apply setSome_nodup)
  simp only [List.map_cons, List.map_nil]
  decide

end pingdom

namespace pingdom

theorem PostOf_deleteEmpty (m : Params) (t : String) (ht : t ≠ "")
    (hnd : (m.map Prod.fst).Nodup) : PostOf m t (mapSet (deleteEmpty m) "type" t) := by
  rw [deleteEmpty_eq_filter m hnd]
  have hf : ((m.filter fun e => e.2 != "").map Prod.fst).Nodup :=
    hnd.sublist ((List.filter_sublist _).map Prod.fst)
  refine ⟨rfl, mapSet_nodup _ _ _ hf, ?_, ?_, ?_⟩
  · intro k v h
    by_cases hk : k = "type"
    · subst hk
      rw [(mem_mapSet_self _ _ _ _ hf).1 h]
      exact ht
    · rw [mem_mapSet_of_ne _ _ _ _ _ hk, List.mem_filter] at h
      exact bne_iff_ne.1 h.2
  · intro v
    exact mem_mapSet_self _ _ _ _ hf
  · intro k v hk
    rw [mem_mapSet_of_ne _ _ _ _ _ hk, List.mem_filter]
    exact and_congr_right fun _ => bne_iff_ne

end pingdom

open pingdom in
/-- C29: for each of the four check types, `PostParams` is `PutParams` with the entries
whose value is the empty string removed and the entry "type" set to the name of the type
("http", "ping", "tcp", "dns"): no value of the result is empty, the entry "type" has the
name of the type, and an entry under another key is in the result exactly when it is an
entry of `PutParams` with a non-empty value. -/
theorem C29_post_params :
    (∀ ck : HttpCheck, PostOf ck.PutParams "http" ck.PostParams) ∧
    (∀ ck : PingCheck, PostOf ck.PutParams "ping" ck.PostParams) ∧
    (∀ ck : TCPCheck, PostOf ck.PutParams "tcp" ck.PostParams) ∧
    (∀ ck : DNSCheck, PostOf ck.PutParams "dns" ck.PostParams) :=
  ⟨fun ck => PostOf_deleteEmpty _ _ (by decide) (putParams_nodup_HttpCheck ck),
    fun ck => PostOf_deleteEmpty _ _ (by decide) (putParams_nodup_PingCheck ck),
    fun ck => PostOf_deleteEmpty _ _ (by decide) (putParams_nodup_TCPCheck ck),
    fun ck => PostOf_deleteEmpty _ _ (by decide) (putParams_nodup_DNSCheck ck)⟩

open pingdom in
/-- C29 (witness): for the ping check named "n" of the host "h" with the resolution 5, the
entry "host" of `PutParams` is kept, the entry "probe_filters", whose value is empty, is
dropped, and the entry "type" is "ping". -/
theorem C29_post_params_witness :
    ("host", "h") ∈ (pingCheckOf "n" "h" 5).PostParams ∧
    ("probe_filters", "") ∈ (pingCheckOf "n" "h" 5).PutParams ∧
    ("probe_filters", "") ∉ (pingCheckOf "n" "h" 5).PostParams ∧
    ("type", "ping") ∈ (pingCheckOf "n" "h" 5).PostParams :=
  have h := C29_post_params.2.1 (pingCheckOf "n" "h" 5)
  ⟨(h.2.2.2.2 "host" "h" (by decide)).2 ⟨by decide, by decide⟩,
    by decide,
    fun hm => h.2.2.1 "probe_filters" "" hm rfl,
    (h.2.2.2.1 "ping").2 rfl⟩

open pingdom in
/-- C30: the map returned by `HttpCheck.PutParams` has exactly one of the keys
"shouldcontain" and "shouldnotcontain": when `ShouldContain` is non-empty it has
"shouldcontain" with the value `ShouldContain` and no key "shouldnotcontain"; otherwise it
has "shouldnotcontain" with the value `ShouldNotContain`, which may be empty, and no key
"shouldcontain". -/
theorem C30_should_contain (ck : HttpCheck) :
    (ck.ShouldContain ≠ "" →
      (∀ v, ("shouldcontain", v) ∈ ck.PutParams ↔ v = ck.ShouldContain) ∧
      "shouldnotcontain" ∉ ck.PutParams.map Prod.fst) ∧
    (ck.ShouldContain = "" →
      (∀ v, ("shouldnotcontain", v) ∈ ck.PutParams ↔ v = ck.ShouldNotContain) ∧
      "shouldcontain" ∉ ck.PutParams.map Prod.fst) := by
  have hr1 : ∀ j : Nat, "shouldcontain" ≠ "requestheader" ++ Itoa j :=
    fun j => ne_requestheader _ (by decide) _
  have hr2 : ∀ j : Nat, "shouldnotcontain" ≠ "requestheader" ++ Itoa j :=
    fun j => ne_requestheader _ (by decide) _
  unfold HttpCheck.PutParams
  simp only []
  constructor
  · intro h
    rw [if_pos h]
    constructor
    · intro v
      rw [mem_setRequestHeaders_of_ne _ _ _ _ _ _ hr1, mem_setIf_of_ne _ _ _ _ _ _ (by decide)]
      apply mem_mapSet_self
      repeat (first | apply setIf_nodup | apply setSome_nodup)
      simp only [List.map_cons, List.map_nil]
      decide
    · rw [key_setRequestHeaders_of_ne _ _ _ _ _ hr2, key_setIf_of_ne _ _ _ _ _ (by decide),
        key_mapSet, key_setSome_of_ne _ _ _ _ (by decide), key_setSome_of_ne _ _ _ _ (by decide),
        key_setIf_of_ne _ _ _ _ _ (by decide), key_setIf_of_ne _ _ _ _ _ (by decide),
        key_setIf_of_ne _ _ _ _ _ (by decide), key_setIf_of_ne _ _ _ _ _ (by decide),
        key_setIf_of_ne _ _ _ _ _ (by decide)]
      simp only [List.map_cons, List.map_nil]
      decide
  · intro h
    rw [if_neg (not_not.2 h)]
    constructor
    · intro v
      rw [mem_setRequestHeaders_of_ne _ _ _ _ _ _ hr2, mem_setIf_of_ne _ _ _ _ _ _ (by decide)]
      apply mem_mapSet_self
      repeat (first | apply setIf_nodup | apply setSome_nodup)
      simp only [List.map_cons, List.map_nil]
      decide
    · rw [key_setRequestHeaders_of_ne _ _ _ _ _ hr1, key_setIf_of_ne _ _ _ _ _ (by decide),
        key_mapSet, key_setSome_of_ne _ _ _ _ (by decide), key_setSome_of_ne _ _ _ _ (by decide),
        key_setIf_of_ne _ _ _ _ _ (by decide), key_setIf_of_ne _ _ _ _ _ (by decide),
        key_setIf_of_ne _ _ _ _ _ (by decide), key_setIf_of_ne _ _ _ _ _ (by decide),
        key_setIf_of_ne _ _ _ _ _ (by decide)]
      simp only [List.map_cons, List.map_nil]
      decide

open pingdom in
/-- C30 (witness): a check with `ShouldContain` "a" has the entry "shouldcontain" = "a" and
no key "shouldnotcontain"; a check with neither setting has the entry "shouldnotcontain"
with the empty value. -/
theorem C30_should_contain_witness :
    ("shouldcontain", "a") ∈ (httpCheckOf "n" "h" 5 "a" "b").PutParams ∧
    "shouldnotcontain" ∉ (httpCheckOf "n" "h" 5 "a" "b").PutParams.map Prod.fst ∧
    ("shouldnotcontain", "") ∈ (httpCheckOf "n" "h" 5 "" "").PutParams :=
  ⟨(((C30_should_contain (httpCheckOf "n" "h" 5 "a" "b")).1 (by decide)).1 "a").2 rfl,
    ((C30_should_contain (httpCheckOf "n" "h" 5 "a" "b")).1 (by decide)).2,
    (((C30_should_contain (httpCheckOf "n" "h" 5 "" "")).2 rfl).1 "").2 rfl⟩

open pingdom pingdomext in
/-- C23: `getCookie` returns the first cookie of the response, in the order of its
`Set-Cookie` lines, whose name is the given name, with a nil error; it returns a nil cookie
with a non-nil error exactly when no cookie of the response has that name. -/
theorem C23_get_cookie (lib : Library) (resp : Response) (name : String) :
    (∀ pre cookie post, lib.readSetCookies resp.Header = pre ++ cookie :: post →
      cookie.Name = name → (∀ c ∈ pre, c.Name ≠ name) →
      getCookie lib resp name = (some cookie, none)) ∧
    ((∃ c ∈ lib.readSetCookies resp.Header, c.Name = name) →
      ∃ pre cookie post, lib.readSetCookies resp.Header = pre ++ cookie :: post ∧
        cookie.Name = name ∧ (∀ c ∈ pre, c.Name ≠ name) ∧
        getCookie lib resp name = (some cookie, none)) ∧
    ((getCookie lib resp name).1 = none ∧ (getCookie lib resp name).2 ≠ none ↔
      ∀ c ∈ lib.readSetCookies resp.Header, c.Name ≠ name) := by
  have first : ∀ pre cookie post, lib.readSetCookies resp.Header = pre ++ cookie :: post →
      cookie.Name = name → (∀ c ∈ pre, c.Name ≠ name) →
      getCookie lib resp name = (some cookie, none) := by
    intro pre cookie post hs hn hpre
    have hfind : (lib.readSetCookies resp.Header).find? (fun cookie => cookie.Name == name)
        = some cookie := by
      rw [hs, List.find?_append]
      have h0 : pre.find? (fun cookie => cookie.Name == name) = none := by
        rw [List.find?_eq_none]
        intro c hc
        simpa using hpre c hc
      rw [h0]
      simp [hn]
    unfold getCookie
    rw [hfind]
  refine ⟨first, ?_, ?_⟩
  · rintro ⟨c, hc, hn⟩
    cases hfind : (lib.readSetCookies resp.Header).find? (fun cookie => cookie.Name == name) with
    | none =>
      rw [List.find?_eq_none] at hfind
      exact absurd (by simpa using hn) (hfind c hc)
    | some cookie =>
      obtain ⟨hp, pre, post, hs, hpre⟩ := List.find?_eq_some.1 hfind
      have hn' : cookie.Name = name := by simpa using hp
      have hpre' : ∀ c ∈ pre, c.Name ≠ name := fun c hc => by simpa using hpre c hc
      exact ⟨pre, cookie, post, hs, hn', hpre', first pre cookie post hs hn' hpre'⟩
  · unfold getCookie
    cases hfind : (lib.readSetCookies resp.Header).find? (fun cookie => cookie.Name == name) with
    | none =>
      rw [List.find?_eq_none] at hfind
      simp only [ne_eq, reduceCtorEq, not_false_eq_true, and_self, true_iff]
      intro c hc
      simpa using hfind c hc
    | some cookie =>
      simp only [reduceCtorEq, ne_eq, not_true_eq_false, and_false, false_iff]
      intro hall
      have := List.find?_some hfind
      have hm := List.mem_of_find?_eq_some hfind
      exact hall cookie hm (by simpa using this)

open pingdom pingdomext in
/-- C23 (witness): the two responses of `Test_getCookie`.  The cookie
`pingdom_login_session_id` is found in the first; the second has a cookie named
`pingdom_login_session`, which does not match, so the result is a nil cookie and an
error. -/
theorem C23_get_cookie_witness :
    getCookie sampleLibrary
        (setCookieResponse ["pingdom_login_session_id=xxxxxxx", "Path=/", "HttpOnly", "Secure"])
        "pingdom_login_session_id"
      = (some { Name := "pingdom_login_session_id", Value := "xxxxxxx" }, none) ∧
    sampleLibrary.readSetCookies
        (setCookieResponse ["pingdom_login_session=xxxxxxx", "Path=/", "HttpOnly", "Secure"]).Header
      = [{ Name := "pingdom_login_session", Value := "xxxxxxx" },
         { Name := "Path", Value := "/" }] ∧
    (getCookie sampleLibrary
        (setCookieResponse ["pingdom_login_session=xxxxxxx", "Path=/", "HttpOnly", "Secure"])
        "pingdom_login_session_id").1 = none ∧
    (getCookie sampleLibrary
        (setCookieResponse ["pingdom_login_session=xxxxxxx", "Path=/", "HttpOnly", "Secure"])
        "pingdom_login_session_id").2 ≠ none :=
  have h1 := (C23_get_cookie sampleLibrary
    (setCookieResponse ["pingdom_login_session_id=xxxxxxx", "Path=/", "HttpOnly", "Secure"])
    "pingdom_login_session_id").1 []
      { Name := "pingdom_login_session_id", Value := "xxxxxxx" }
      [{ Name := "Path", Value := "/" }] (by decide) rfl (by simp)
  have h2 := (C23_get_cookie sampleLibrary
    (setCookieResponse ["pingdom_login_session=xxxxxxx", "Path=/", "HttpOnly", "Secure"])
    "pingdom_login_session_id").2.2.2 (by decide)
  ⟨h1, by decide, h2.1, h2.2⟩

open pingdom pingdomext in
/-- C21: for a config without a static token whose base URL and first request are built, a
failure of a handshake step makes `NewClientWithConfig` of the extension package return a
nil client with the error of that step, having sent the requests up to that step and none
of a later step.  The failures are: a transport error in step 1, 2 or 3; a first answer
without a `Location` header (or with one that does not resolve); a first answer without a
cookie `pingdom_login_session_id`; a second answer whose body is not JSON; a redirect URL
that does not parse; a third answer without a cookie `jwt`. -/
theorem C21_handshake_failure (rt : Runtime) (lib : Library)
    (config : pingdomext.ClientConfig) (base stateURL : URL) (stateReq : Request)
    (hTok : extToken rt config = "")
    (hBase : rt.urlParse (sessionConfig rt lib config).BaseURL = .ok base)
    (h1u : rt.urlParse ((sessionConfig rt lib config).BaseURL ++ "/auth/login?")
      = .ok stateURL)
    (h1r : httpNewRequest rt "GET" stateURL.String none = .ok stateReq) :
    (∀ err, (config.HTTPClient.getD lib.noRedirectClient).Do stateReq = .error err →
      pingdomext.NewClientWithConfig rt lib config = .ret (none, some err, [stateReq])) ∧
    (∀ stateResp, (config.HTTPClient.getD lib.noRedirectClient).Do stateReq = .ok stateResp →
      (Header.Get stateResp.Header "Location" = "" →
        Location lib stateReq stateResp
          = .error (.library "http: no Location header in response")) ∧
      (∀ err, Location lib stateReq stateResp = .error err →
        pingdomext.NewClientWithConfig rt lib config = .ret (none, some err, [stateReq])) ∧
      (∀ location, Location lib stateReq stateResp = .ok location →
        ((∀ c ∈ lib.readSetCookies stateResp.Header, c.Name ≠ "pingdom_login_session_id") →
          pingdomext.NewClientWithConfig rt lib config
            = .ret (none, some (.errorString "there is no cookie in the response"),
                [stateReq])) ∧
        (∀ sessionCookie authReq0,
          getCookie lib stateResp "pingdom_login_session_id" = (some sessionCookie, none) →
          httpNewRequest rt "POST" (sessionConfig rt lib config).AuthURL
              (some (marshalAuthPayload
                { Email := (sessionConfig rt lib config).Username,
                  Password := (sessionConfig rt lib config).Password,
                  LoginQueryParams := Values.Encode (lib.parseQuery location.RawQuery) }))
            = .ok authReq0 →
          (∀ err, (config.HTTPClient.getD lib.noRedirectClient).Do
              { authReq0 with
                Header := Header.Add authReq0.Header "Content-Type" "application/json" }
              = .error err →
            pingdomext.NewClientWithConfig rt lib config
              = .ret (none, some err,
                  [stateReq,
                   { authReq0 with
                     Header := Header.Add authReq0.Header "Content-Type"
                       "application/json" }])) ∧
          (∀ authResp, (config.HTTPClient.getD lib.noRedirectClient).Do
              { authReq0 with
                Header := Header.Add authReq0.Header "Content-Type" "application/json" }
              = .ok authResp →
            (parseJSON authResp.Body.ReadAll.1 = none →
              pingdomext.NewClientWithConfig rt lib config
                = .ret (none, some .jsonMalformed,
                    [stateReq,
                     { authReq0 with
                       Header := Header.Add authReq0.Header "Content-Type"
                         "application/json" }])) ∧
            (∀ authRespJSON,
              unmarshalAuthResult authResp.Body.ReadAll.1 (some { RedirectURL := "" })
                = (none, some authRespJSON) →
              (∀ err, rt.urlParse authRespJSON.RedirectURL = .error err →
                pingdomext.NewClientWithConfig rt lib config
                  = .ret (none, some err,
                      [stateReq,
                       { authReq0 with
                         Header := Header.Add authReq0.Header "Content-Type"
                           "application/json" }])) ∧
              (∀ redirectURL tokenReq0,
                rt.urlParse authRespJSON.RedirectURL = .ok redirectURL →
                httpNewRequest rt "GET"
                    ((sessionConfig rt lib config).BaseURL ++ "/auth/swicus/callback?"
                      ++ Values.Encode (lib.parseQuery redirectURL.RawQuery)) none
                  = .ok tokenReq0 →
                (∀ err, (config.HTTPClient.getD lib.noRedirectClient).Do
                    (AddCookie (AddCookie tokenReq0 sessionCookie)
                      { Name := "login_session_swicus_org_id",
                        Value := (sessionConfig rt lib config).OrgID })
                    = .error err →
                  pingdomext.NewClientWithConfig rt lib config
                    = .ret (none, some err,
                        [stateReq,
                         { authReq0 with
                           Header := Header.Add authReq0.Header "Content-Type"
                             "application/json" },
                         AddCookie (AddCookie tokenReq0 sessionCookie)
                           { Name := "login_session_swicus_org_id",
                             Value := (sessionConfig rt lib config).OrgID }])) ∧
                (∀ tokenResp, (config.HTTPClient.getD lib.noRedirectClient).Do
                    (AddCookie (AddCookie tokenReq0 sessionCookie)
                      { Name := "login_session_swicus_org_id",
                        Value := (sessionConfig rt lib config).OrgID })
                    = .ok tokenResp →
                  (∀ c ∈ lib.readSetCookies tokenResp.Header, c.Name ≠ "jwt") →
                  pingdomext.NewClientWithConfig rt lib config
                    = .ret (none, some (.errorString "there is no cookie in the response"),
                        [stateReq,
                         { authReq0 with
                           Header := Header.Add authReq0.Header "Content-Type"
                             "application/json" },
                         AddCookie (AddCookie tokenReq0 sessionCookie)
                           { Name := "login_session_swicus_org_id",
                             Value := (sessionConfig rt lib config).OrgID }])))))))) := by
  have hcl : (sessionConfig rt lib config).HTTPClient
      = some (config.HTTPClient.getD lib.noRedirectClient) := rfl
  have hmiss : ∀ (resp : Response) (name : String),
      (∀ c ∈ lib.readSetCookies resp.Header, c.Name ≠ name) →
      getCookie lib resp name
        = (none, some (.errorString "there is no cookie in the response")) := by
    intro resp name hall
    have hfind : (lib.readSetCookies resp.Header).find? (fun cookie => cookie.Name == name)
        = none := by
      rw [List.find?_eq_none]
      intro c hc
      simpa using hall c hc
    unfold getCookie
    rw [hfind]
  rw [NewClientWithConfig_session rt lib config hTok, hBase]
  generalize sessionConfig rt lib config = cfg at *
  refine ⟨?_, ?_⟩
  · intro err h1d
    unfold obtainToken
    simp only [h1u, h1r, hcl, h1d]
  intro stateResp h1d
  refine ⟨?_, ?_, ?_⟩
  · intro hl
    unfold Location
    simp only [hl, if_true]
  · intro err h1l
    unfold obtainToken
    simp only [h1u, h1r, hcl, h1d, h1l]
  intro location h1l
  refine ⟨?_, ?_⟩
  · intro hall
    unfold obtainToken
    simp only [h1u, h1r, hcl, h1d, h1l, hmiss stateResp _ hall]
  intro sessionCookie authReq0 h1c h2r
  refine ⟨?_, ?_⟩
  · intro err h2d
    unfold obtainToken
    simp only [h1u, h1r, hcl, h1d, h1l, h1c, h2r, h2d]
  intro authResp h2d
  refine ⟨?_, ?_⟩
  · intro hj
    have h2j : unmarshalAuthResult authResp.Body.ReadAll.1 (some { RedirectURL := "" })
        = (some .jsonMalformed, some { RedirectURL := "" }) := by
      unfold unmarshalAuthResult
      rw [hj]
    unfold obtainToken
    simp only [h1u, h1r, hcl, h1d, h1l, h1c, h2r, h2d, h2j]
  intro authRespJSON h2j
  refine ⟨?_, ?_⟩
  · intro err h3u
    unfold obtainToken
    simp only [h1u, h1r, hcl, h1d, h1l, h1c, h2r, h2d, h2j, h3u]
  intro redirectURL tokenReq0 h3u h3r
  refine ⟨?_, ?_⟩
  · intro err h3d
    unfold obtainToken
    simp only [h1u, h1r, hcl, h1d, h1l, h1c, h2r, h2d, h2j, h3u, h3r, h3d]
  · intro tokenResp h3d hall
    unfold obtainToken
    simp only [h1u, h1r, hcl, h1d, h1l, h1c, h2r, h2d, h2j, h3u, h3r, h3d,
      hmiss tokenResp _ hall]

set_option maxRecDepth 100000 in
open pingdom pingdomext in
/-- C21 (witness): the exchange of `TestNewClientWithConfig2`.  The server answers only
`/auth/login`; the answer to the second request is the text "404 page not found", which is
not JSON, so the construction returns no client and the syntax error after two requests. -/
theorem C21_handshake_failure_witness :
    extToken (sampleRuntime noEnv) loginOnlyConfig = "" ∧
    parseJSON "404 page not found" = none ∧
    pingdomext.NewClientWithConfig (sampleRuntime noEnv) sampleLibrary loginOnlyConfig
      = .ret (none, some .jsonMalformed,
          [loginRequest,
           { authRequest with
             Header := Header.Add authRequest.Header "Content-Type" "application/json" }]) :=
  ⟨by decide, by rfl,
    ((((((C21_handshake_failure (sampleRuntime noEnv) sampleLibrary loginOnlyConfig
      (plainURL "http://127.0.0.1:8080") loginRequest.URL loginRequest
      (by decide) (by decide) (by decide) (by decide)).2
        loginResponse (by decide)).2.2
        loginLocation (by decide)).2
        loginSessionCookie authRequest (by decide) (by decide)).2
        { StatusCode := 404, Header := [],
          Body := pingdom.Body.ofString "404 page not found" } (by decide)).1 (by rfl))⟩

set_option maxRecDepth 100000 in
open pingdom pingdomext in
/-- C22 (counterexample): with no static token and an empty user name, password and
organization id, in the config and in the environment, the construction against the test
server of `TestNewClientWithConfig` sends the three requests of the handshake and returns a
client with the token "my_test_token", not a configuration error. -/
theorem C22_empty_credentials_accepted :
    extToken (sampleRuntime noEnv) (credentialsConfig "" "" "") = "" ∧
    Absent (credentialsConfig "" "" "").Username (noEnv "SOLARWINDS_USER") ∧
    Absent (credentialsConfig "" "" "").Password (noEnv "SOLARWINDS_PASSWD") ∧
    Absent (credentialsConfig "" "" "").OrgID (noEnv "SOLARWINDS_ORG_ID") ∧
    ∃ c sent,
      pingdomext.NewClientWithConfig (sampleRuntime noEnv) sampleLibrary
          (credentialsConfig "" "" "") = .ret (some c, none, sent) ∧
      c.JWTToken = "my_test_token" ∧ sent.length = 3 := by
  refine ⟨by decide, ⟨rfl, Or.inl rfl⟩, ⟨rfl, Or.inl rfl⟩, ⟨rfl, Or.inl rfl⟩, ?_⟩
  refine ⟨{ JWTToken := "my_test_token", APITokenOnly := "",
            BaseURL := plainURL "http://127.0.0.1:8080", client := handshakeServer,
            useAPITokenOnly := false }, ?_, ?_, rfl, ?_⟩
  · exact [loginRequest,
      { Method := "POST", URL := plainURL "http://127.0.0.1:8080/v1/login",
        Header := [("Content-Type", "application/json")],
        Body := some (marshalAuthPayload
          { Email := "", Password := "",
            LoginQueryParams := "client_id=pingdom&redirect_uri=https%3A%2F%2Fmy.pingdom.com%2Fauth%2Fswicus%2Fcallback&response_type=code&scope=openid+swicus&state=htILEppzoMPtb6UjOdM98XPS3Mcwkr3Y" }) },
      AddCookie (AddCookie callbackRequest loginSessionCookie)
        { Name := "login_session_swicus_org_id", Value := "" }]
  · rfl
  · rfl

open pingdom pingdomext in
/-- C22 (amended): for a config without a static token whose user name, password and
organization id are all absent and whose base URL parses, the construction makes no check
of the credentials: it runs the handshake with an empty user name, password and
organization id; when the handshake yields a token it returns a session client with that
token, and when the handshake fails it returns no client and the error of the handshake. -/
theorem C22_no_credential_check (rt : Runtime) (lib : Library)
    (config : pingdomext.ClientConfig) (base : URL)
    (hTok : extToken rt config = "")
    (hUser : Absent config.Username (rt.LookupEnv "SOLARWINDS_USER"))
    (hPass : Absent config.Password (rt.LookupEnv "SOLARWINDS_PASSWD"))
    (hOrg : Absent config.OrgID (rt.LookupEnv "SOLARWINDS_ORG_ID"))
    (hBase : rt.urlParse (sessionConfig rt lib config).BaseURL = .ok base) :
    ((sessionConfig rt lib config).Username = "" ∧
      (sessionConfig rt lib config).Password = "" ∧
      (sessionConfig rt lib config).OrgID = "") ∧
    (∀ jwtToken sent,
      obtainToken rt lib (sessionConfig rt lib config) = .ret (some jwtToken, none, sent) →
      pingdomext.NewClientWithConfig rt lib config
        = .ret (some { JWTToken := jwtToken, APITokenOnly := "", BaseURL := base,
                       client := config.HTTPClient.getD lib.noRedirectClient,
                       useAPITokenOnly := false }, none, sent)) ∧
    (∀ token err sent,
      obtainToken rt lib (sessionConfig rt lib config) = .ret (token, some err, sent) →
      pingdomext.NewClientWithConfig rt lib config = .ret (none, some err, sent)) := by
  have habs : ∀ (v : String) (e : Option String), Absent v e → resolutionOrder v e = "" := by
    intro v e h
    exact (resolutionOrder_eq_empty v e).2 h
  refine ⟨⟨habs _ _ hUser, habs _ _ hPass, habs _ _ hOrg⟩, ?_, ?_⟩
  · intro jwtToken sent h
    rw [NewClientWithConfig_session rt lib config hTok, hBase]
    simp only [h]
  · intro token err sent h
    rw [NewClientWithConfig_session rt lib config hTok, hBase]
    simp only [h]

set_option maxRecDepth 100000 in
open pingdom pingdomext in
/-- C22 (witness): against the test server of `TestNewClientWithConfig`, with every
credential empty, the handshake runs with an empty user name, password and organization id,
yields "my_test_token", and the construction returns a client with it. -/
theorem C22_no_credential_check_witness :
    (sessionConfig (sampleRuntime noEnv) sampleLibrary (credentialsConfig "" "" "")).Username
      = "" ∧
    ∃ sent,
      obtainToken (sampleRuntime noEnv) sampleLibrary
          (sessionConfig (sampleRuntime noEnv) sampleLibrary (credentialsConfig "" "" ""))
        = .ret (some "my_test_token", none, sent) ∧
      pingdomext.NewClientWithConfig (sampleRuntime noEnv) sampleLibrary
          (credentialsConfig "" "" "")
        = .ret (some { JWTToken := "my_test_token", APITokenOnly := "",
                       BaseURL := plainURL "http://127.0.0.1:8080",
                       client := handshakeServer, useAPITokenOnly := false }, none, sent) :=
  have h := C22_no_credential_check (sampleRuntime noEnv) sampleLibrary
    (credentialsConfig "" "" "") (plainURL "http://127.0.0.1:8080") (by decide)
    ⟨rfl, Or.inl rfl⟩ ⟨rfl, Or.inl rfl⟩ ⟨rfl, Or.inl rfl⟩ (by decide)
  have hob : obtainToken (sampleRuntime noEnv) sampleLibrary
      (sessionConfig (sampleRuntime noEnv) sampleLibrary (credentialsConfig "" "" ""))
      = .ret (some "my_test_token", none,
          [loginRequest,
           { Method := "POST", URL := plainURL "http://127.0.0.1:8080/v1/login",
             Header := [("Content-Type", "application/json")],
             Body := some (marshalAuthPayload
               { Email := "", Password := "",
                 LoginQueryParams := "client_id=pingdom&redirect_uri=https%3A%2F%2Fmy.pingdom.com%2Fauth%2Fswicus%2Fcallback&response_type=code&scope=openid+swicus&state=htILEppzoMPtb6UjOdM98XPS3Mcwkr3Y" }) },
           AddCookie (AddCookie callbackRequest loginSessionCookie)
             { Name := "login_session_swicus_org_id", Value := "" }]) := by rfl
  ⟨h.1.1, _, hob, h.2.1 _ _ hob⟩

namespace pingdomext

open pingdom (Runtime Outcome URL Request Response Header Values httpNewRequest error)

/-- Once the second request of the handshake is built, every result that `obtainToken`
returns has the first and the second request at the head of the requests sent. -/
theorem obtainToken_sent_two (rt : Runtime) (lib : Library) (cfg : ClientConfig)
    (client : pingdom.HTTPClient) (stateURL location : URL) (stateReq authReq0 : Request)
    (stateResp : Response) (sessionCookie : Cookie)
    (hcl : cfg.HTTPClient = some client)
    (h1u : rt.urlParse (cfg.BaseURL ++ "/auth/login?") = .ok stateURL)
    (h1r : httpNewRequest rt "GET" stateURL.String none = .ok stateReq)
    (h1d : client.Do stateReq = .ok stateResp)
    (h1l : Location lib stateReq stateResp = .ok location)
    (h1c : getCookie lib stateResp "pingdom_login_session_id" = (some sessionCookie, none))
    (h2r : httpNewRequest rt "POST" cfg.AuthURL
        (some (marshalAuthPayload
          { Email := cfg.Username, Password := cfg.Password,
            LoginQueryParams := Values.Encode (lib.parseQuery location.RawQuery) }))
      = .ok authReq0)
    (token : Option String) (err : error) (sent : List Request)
    (h : obtainToken rt lib cfg = .ret (token, err, sent)) :
    ∃ rest, sent = stateReq
      :: { authReq0 with
           Header := Header.Add authReq0.Header "Content-Type" "application/json" }
      :: rest := by
  unfold obtainToken at h
  simp only [h1u, h1r, hcl, h1d, h1l, h1c, h2r] at h
  repeat' split at h
  all_goals first
    | (cases h; exact ⟨_, rfl⟩)
    | cases h

end pingdomext

namespace pingdomext

open pingdom (parseStringBody flushPending hex4 hexVal simpleEscape parseValue parseMembers
  parseJSON skipWS JValue maxNestingDepth)

theorem hex4_lowerHex : ∀ n : Nat, n < 64 →
    hex4 '0' '0' (lowerHex (n / 16)) (lowerHex (n % 16)) = some n := by
  decide

theorem encodeJSONChar_cases (c : Char) :
    (∃ e x, encodeJSONChar c = ['\\', e] ∧ e ≠ 'u' ∧ simpleEscape e = some x ∧ x = c) ∨
    (∃ h1 h2 h3 h4, encodeJSONChar c = ['\\', 'u', h1, h2, h3, h4] ∧
      hex4 h1 h2 h3 h4 = some c.toNat ∧ c.toNat < 0xD800) ∨
    (encodeJSONChar c = [c] ∧ c ≠ '"' ∧ c ≠ '\\' ∧ ¬ c.toNat < 32) := by
  unfold encodeJSONChar
  by_cases h1 : c = '"'
  · subst h1
    exact Or.inl ⟨'"', '"', by decide, by decide, by decide, rfl⟩
  by_cases h2 : c = '\\'
  · subst h2
    exact Or.inl ⟨'\\', '\\', by decide, by decide, by decide, rfl⟩
  by_cases h3 : c.toNat = 8
  · have : c = Char.ofNat 8 := by rw [← h3, Char.ofNat_toNat]
    subst this
    exact Or.inl ⟨'b', Char.ofNat 8, by decide, by decide, by decide, rfl⟩
  by_cases h4 : c.toNat = 12
  · have : c = Char.ofNat 12 := by rw [← h4, Char.ofNat_toNat]
    subst this
    exact Or.inl ⟨'f', Char.ofNat 12, by decide, by decide, by decide, rfl⟩
  by_cases h5 : c = '\n'
  · subst h5
    exact Or.inl ⟨'n', '\n', by decide, by decide, by decide, rfl⟩
  by_cases h6 : c = '\r'
  · subst h6
    exact Or.inl ⟨'r', '\r', by decide, by decide, by decide, rfl⟩
  by_cases h7 : c = '\t'
  · subst h7
    exact Or.inl ⟨'t', '\t', by decide, by decide, by decide, rfl⟩
  have e1 : (c == '"') = false := beq_eq_false_iff_ne.2 h1
  have e2 : (c == '\\') = false := beq_eq_false_iff_ne.2 h2
  have e3 : (c.toNat == 8) = false := beq_eq_false_iff_ne.2 h3
  have e4 : (c.toNat == 12) = false := beq_eq_false_iff_ne.2 h4
  have e5 : (c == '\n') = false := beq_eq_false_iff_ne.2 h5
  have e6 : (c == '\r') = false := beq_eq_false_iff_ne.2 h6
  have e7 : (c == '\t') = false := beq_eq_false_iff_ne.2 h7
  simp only [e1, e2, e3, e4, e5, e6, e7, Bool.false_eq_true, if_false]
  by_cases h8 : (decide (c.toNat < 32) || c == '<' || c == '>' || c == '&') = true
  · rw [if_pos h8]
    right; left
    have hlt : c.toNat < 64 := by
      simp only [Bool.or_eq_true, decide_eq_true_eq, beq_iff_eq] at h8
      rcases h8 with ((h | h) | h) | h
      · omega
      · subst h; decide
      · subst h; decide
      · subst h; decide
    exact ⟨'0', '0', _, _, rfl, hex4_lowerHex _ hlt, by omega⟩
  rw [if_neg h8]
  have hge : ¬ c.toNat < 32 := by
    intro h
    apply h8
    simp [h]
  by_cases h9 : c.toNat = 0x2028
  · have e9 : (c.toNat == 0x2028) = true := beq_iff_eq.2 h9
    rw [if_pos e9]
    right; left
    exact ⟨'2', '0', '2', '8', rfl, by rw [h9]; decide, by omega⟩
  have e9 : ¬ (c.toNat == 0x2028) = true := fun h => h9 (beq_iff_eq.1 h)
  rw [if_neg e9]
  by_cases h10 : c.toNat = 0x2029
  · have e10 : (c.toNat == 0x2029) = true := beq_iff_eq.2 h10
    rw [if_pos e10]
    right; left
    exact ⟨'2', '0', '2', '9', rfl, by rw [h10]; decide, by omega⟩
  have e10 : ¬ (c.toNat == 0x2029) = true := fun h => h10 (beq_iff_eq.1 h)
  rw [if_neg e10]
  exact Or.inr (Or.inr ⟨rfl, h1, h2, hge⟩)

end pingdomext

namespace pingdomext

open pingdom (parseStringBody flushPending hex4 hexVal simpleEscape parseValue parseMembers
  parseJSON skipWS JValue maxNestingDepth)

theorem parseStringBody_quote (rest acc : List Char) :
    parseStringBody ('"' :: rest) none acc = some (String.mk acc.reverse, rest) := by
  unfold parseStringBody
  simp [flushPending]

theorem parseStringBody_plain (c : Char) (rest acc : List Char) (hq : c ≠ '"')
    (hb : c ≠ '\\') (hge : ¬ c.toNat < 32) :
    parseStringBody (c :: rest) none acc = parseStringBody rest none (c :: acc) := by
  have e1 : (c == '"') = false := beq_eq_false_iff_ne.2 hq
  have e2 : (c == '\\') = false := beq_eq_false_iff_ne.2 hb
  conv => lhs; unfold parseStringBody
  simp only [e1, e2, hge, Bool.false_eq_true, if_false, flushPending]

theorem parseStringBody_escape (e x : Char) (rest acc : List Char) (hu : e ≠ 'u')
    (hx : simpleEscape e = some x) :
    parseStringBody ('\\' :: e :: rest) none acc = parseStringBody rest none (x :: acc) := by
  have eu : (e == 'u') = false := beq_eq_false_iff_ne.2 hu
  have e1 : ('\\' == '"') = false := by decide
  have e2 : ¬ '\\'.toNat < 32 := by decide
  conv => lhs; unfold parseStringBody
  simp only [e1, e2, eu, hx, Bool.false_eq_true, if_false, flushPending, beq_self_eq_true,
    if_true]

theorem parseStringBody_hex (h1 h2 h3 h4 : Char) (n : Nat) (rest acc : List Char)
    (hh : hex4 h1 h2 h3 h4 = some n) (hlt : n < 0xD800) :
    parseStringBody ('\\' :: 'u' :: h1 :: h2 :: h3 :: h4 :: rest) none acc
      = parseStringBody rest none (Char.ofNat n :: acc) := by
  have e1 : ('\\' == '"') = false := by decide
  have e2 : ¬ '\\'.toNat < 32 := by decide
  have hs1 : ¬ (0xDC00 ≤ n ∧ n < 0xE000) := by omega
  have hs2 : ¬ (0xD800 ≤ n ∧ n < 0xDC00) := by omega
  conv => lhs; unfold parseStringBody
  simp only [e1, e2, hh, hs1, hs2, Bool.false_eq_true, if_false, flushPending,
    beq_self_eq_true, if_true]

/-- The reader of string literals reads back what `json.Marshal` writes for a string. -/
theorem parseStringBody_encode (s : List Char) (rest acc : List Char) :
    parseStringBody (s.flatMap encodeJSONChar ++ '"' :: rest) none acc
      = some (String.mk (acc.reverse ++ s), rest) := by
  induction s generalizing acc with
  | nil =>
    simp [parseStringBody_quote]
  | cons c s ih =>
    rw [List.flatMap_cons, List.append_assoc]
    rcases encodeJSONChar_cases c with ⟨e, x, he, hu, hx, hxc⟩ | ⟨h1, h2, h3, h4, he, hh, hlt⟩ |
      ⟨he, hq, hb, hge⟩
    · rw [he]
      simp only [List.cons_append, List.nil_append]
      rw [parseStringBody_escape e x _ _ hu hx, ih, hxc]
      simp
    · rw [he]
      simp only [List.cons_append, List.nil_append]
      rw [parseStringBody_hex h1 h2 h3 h4 _ _ _ hh hlt, ih, Char.ofNat_toNat]
      simp
    · rw [he]
      simp only [List.cons_append, List.nil_append]
      rw [parseStringBody_plain c _ _ hq hb hge, ih]
      simp

end pingdomext

namespace pingdomext

open pingdom (parseStringBody flushPending hex4 hexVal simpleEscape parseValue parseMembers
  parseJSON skipWS JValue maxNestingDepth)

theorem skipWS_quote (rest : List Char) : skipWS ('"' :: rest) = '"' :: rest := by
  unfold skipWS
  simp

theorem parseValue_string (fuel depth : Nat) (s rest : List Char) :
    parseValue (fuel + 1) depth ('"' :: (s.flatMap encodeJSONChar ++ '"' :: rest))
      = some (.string (String.mk s), rest) := by
  unfold parseValue
  rw [skipWS_quote]
  simp only [parseStringBody_encode, List.reverse_nil, List.nil_append]
  simp

theorem parseValue_object (fuel : Nat) (rest : List Char) :
    parseValue (fuel + 1) 0 ('\x7b' :: '"' :: rest) = parseMembers fuel 1 ('"' :: rest) [] := by
  conv => lhs; unfold parseValue
  have h1 : skipWS ('\x7b' :: '"' :: rest) = '\x7b' :: '"' :: rest := by
    unfold skipWS
    simp
  rw [h1]
  simp only [skipWS_quote]
  simp [maxNestingDepth]

/-- One member with a string value, followed by a comma. -/
theorem parseMembers_comma (fuel depth : Nat) (k v rest : List Char)
    (acc : List (String × JValue)) :
    parseMembers (fuel + 2) depth
        ('"' :: (k.flatMap encodeJSONChar ++ '"' :: ':' :: '"'
          :: (v.flatMap encodeJSONChar ++ '"' :: ',' :: rest))) acc
      = parseMembers (fuel + 1) depth rest ((String.mk k, .string (String.mk v)) :: acc) := by
  conv => lhs; unfold parseMembers
  rw [skipWS_quote]
  simp only [parseStringBody_encode, List.reverse_nil, List.nil_append]
  have h1 : ∀ r, skipWS (':' :: r) = ':' :: r := by
    intro r
    unfold skipWS
    simp
  have h2 : skipWS (',' :: rest) = ',' :: rest := by
    unfold skipWS
    simp
  simp only [h1, parseValue_string, h2]

/-- The last member, with a string value, followed by the closing brace. -/
theorem parseMembers_brace (fuel depth : Nat) (k v rest : List Char)
    (acc : List (String × JValue)) :
    parseMembers (fuel + 2) depth
        ('"' :: (k.flatMap encodeJSONChar ++ '"' :: ':' :: '"'
          :: (v.flatMap encodeJSONChar ++ '"' :: '\x7d' :: rest))) acc
      = some (.object ((String.mk k, .string (String.mk v)) :: acc).reverse, rest) := by
  conv => lhs; unfold parseMembers
  rw [skipWS_quote]
  simp only [parseStringBody_encode, List.reverse_nil, List.nil_append]
  have h1 : ∀ r, skipWS (':' :: r) = ':' :: r := by
    intro r
    unfold skipWS
    simp
  have h2 : skipWS ('\x7d' :: rest) = '\x7d' :: rest := by
    unfold skipWS
    simp
  simp only [h1, parseValue_string, h2]

/-- The text that `json.Marshal` writes for an `authPayload` is read back as an object with
the members `email`, `password` and `loginQueryParams`, in this order, holding the three
fields. -/
theorem parseJSON_marshalAuthPayload (p : authPayload) :
    parseJSON (marshalAuthPayload p)
      = some (.object [("email", .string p.Email), ("password", .string p.Password),
          ("loginQueryParams", .string p.LoginQueryParams)]) := by
  have hdata : (marshalAuthPayload p).toList
      = '\x7b' :: '"' :: ("email".toList.flatMap encodeJSONChar ++ '"' :: ':' :: '"'
          :: (p.Email.toList.flatMap encodeJSONChar ++ '"' :: ','
          :: '"' :: ("password".toList.flatMap encodeJSONChar ++ '"' :: ':' :: '"'
          :: (p.Password.toList.flatMap encodeJSONChar ++ '"' :: ','
          :: '"' :: ("loginQueryParams".toList.flatMap encodeJSONChar ++ '"' :: ':' :: '"'
          :: (p.LoginQueryParams.toList.flatMap encodeJSONChar
              ++ '"' :: '\x7d' :: [])))))) := by
    have hk1 : "email".toList.flatMap encodeJSONChar = "email".toList := by decide
    have hk2 : "password".toList.flatMap encodeJSONChar = "password".toList := by decide
    have hk3 : "loginQueryParams".toList.flatMap encodeJSONChar = "loginQueryParams".toList := by
      decide
    rw [hk1, hk2, hk3]
    simp [marshalAuthPayload, encodeJSONString, String.toList]
  have hlen : ∃ n, 2 * (marshalAuthPayload p).length + 2 = n + 5 := by
    have h2 : 2 ≤ (marshalAuthPayload p).length := by
      show 2 ≤ (marshalAuthPayload p).toList.length
      rw [hdata]
      simp
    exact ⟨2 * (marshalAuthPayload p).length + 2 - 5, by omega⟩
  obtain ⟨n, hn⟩ := hlen
  unfold parseJSON
  rw [hn, hdata, parseValue_object, parseMembers_comma, parseMembers_comma, parseMembers_brace]
  simp [skipWS]

end pingdomext

set_option maxRecDepth 100000 in
open pingdom pingdomext in
/-- C24 (counterexample): in the exchange of `TestNewClientWithConfig` the `Location` of the
first answer has the raw query "response_type=code&scope=openid%20swicus&client_id=…", and
the body posted in step 2 has a `loginQueryParams` that starts with "client_id=pingdom" and
writes the space of `scope` as "+": the parameters are decoded, sorted by key and escaped
again, so the value posted is not the raw query. -/
theorem C24_query_reencoded :
    Location sampleLibrary loginRequest loginResponse = .ok loginLocation ∧
    loginLocation.RawQuery = "response_type=code&scope=openid%20swicus&client_id=pingdom&state=htILEppzoMPtb6UjOdM98XPS3Mcwkr3Y&redirect_uri=https%3A%2F%2Fmy.pingdom.com%2Fauth%2Fswicus%2Fcallback" ∧
    (∃ c tokenReq,
      pingdomext.NewClientWithConfig (sampleRuntime noEnv) sampleLibrary handshakeConfig
        = .ret (c, none,
            [loginRequest,
             { authRequest with
               Header := Header.Add authRequest.Header "Content-Type" "application/json" },
             tokenReq])) ∧
    (authRequest.Body.map parseJSON) = some (some (.object
      [("email", .string "test_user"), ("password", .string "test_pwd"),
       ("loginQueryParams", .string "client_id=pingdom&redirect_uri=https%3A%2F%2Fmy.pingdom.com%2Fauth%2Fswicus%2Fcallback&response_type=code&scope=openid+swicus&state=htILEppzoMPtb6UjOdM98XPS3Mcwkr3Y")])) ∧
    "client_id=pingdom&redirect_uri=https%3A%2F%2Fmy.pingdom.com%2Fauth%2Fswicus%2Fcallback&response_type=code&scope=openid+swicus&state=htILEppzoMPtb6UjOdM98XPS3Mcwkr3Y"
      ≠ loginLocation.RawQuery :=
  ⟨by decide, rfl, ⟨_, _, by rfl⟩, by rfl, by decide⟩

open pingdom pingdomext in
/-- C24 (amended): for a config without a static token, when step 1 of the handshake
succeeds and the second request is built, that request is the second one handed to the
transport, it is a POST, and its body is the JSON object with the members `email`, the
configured user name, `password`, the configured password, and `loginQueryParams`, the
query of the `Location` of the first answer encoded again from its parsed parameters
(`location.Query().Encode()`: keys sorted, names and values escaped), not the raw query. -/
theorem C24_auth_body (rt : Runtime) (lib : Library) (config : pingdomext.ClientConfig)
    (base stateURL location : URL) (stateReq authReq0 : Request) (stateResp : Response)
    (sessionCookie : Cookie)
    (hTok : extToken rt config = "")
    (hBase : rt.urlParse (sessionConfig rt lib config).BaseURL = .ok base)
    (h1u : rt.urlParse ((sessionConfig rt lib config).BaseURL ++ "/auth/login?")
      = .ok stateURL)
    (h1r : httpNewRequest rt "GET" stateURL.String none = .ok stateReq)
    (h1d : (config.HTTPClient.getD lib.noRedirectClient).Do stateReq = .ok stateResp)
    (h1l : Location lib stateReq stateResp = .ok location)
    (h1c : getCookie lib stateResp "pingdom_login_session_id" = (some sessionCookie, none))
    (h2r : httpNewRequest rt "POST" (sessionConfig rt lib config).AuthURL
        (some (marshalAuthPayload
          { Email := (sessionConfig rt lib config).Username,
            Password := (sessionConfig rt lib config).Password,
            LoginQueryParams := Values.Encode (lib.parseQuery location.RawQuery) }))
      = .ok authReq0) :
    (∀ c err sent, pingdomext.NewClientWithConfig rt lib config = .ret (c, err, sent) →
      ∃ rest, sent = stateReq
        :: { authReq0 with
             Header := Header.Add authReq0.Header "Content-Type" "application/json" }
        :: rest) ∧
    authReq0.Method = "POST" ∧
    (∃ authBody, authReq0.Body = some authBody ∧
      parseJSON authBody = some (.object
        [("email", .string (sessionConfig rt lib config).Username),
         ("password", .string (sessionConfig rt lib config).Password),
         ("loginQueryParams",
           .string (Values.Encode (lib.parseQuery location.RawQuery)))])) := by
  obtain ⟨hm, _, _, hb⟩ := httpNewRequest_ok h2r
  refine ⟨?_, hm.trans (by decide), _, hb, parseJSON_marshalAuthPayload _⟩
  intro c err sent h
  rw [NewClientWithConfig_session rt lib config hTok, hBase] at h
  have hcl : (sessionConfig rt lib config).HTTPClient
      = some (config.HTTPClient.getD lib.noRedirectClient) := rfl
  have key := obtainToken_sent_two rt lib (sessionConfig rt lib config) _ stateURL location
    stateReq authReq0 stateResp sessionCookie hcl h1u h1r h1d h1l h1c h2r
  cases hob : obtainToken rt lib (sessionConfig rt lib config) with
  | panic msg =>
    rw [hob] at h
    cases h
  | ret r =>
    obtain ⟨token, e, s⟩ := r
    rw [hob] at h
    have hs := key token e s hob
    cases token <;> cases e <;> simp only at h <;> first
      | (cases h; exact hs)
      | cases h

set_option maxRecDepth 100000 in
open pingdom pingdomext in
/-- C24 (witness): in the exchange of `TestNewClientWithConfig` the second request is a POST
whose body has the user name "test_user", the password "test_pwd" and the query of the
`Location` encoded again. -/
theorem C24_auth_body_witness :
    authRequest.Method = "POST" ∧
    ∃ authBody, authRequest.Body = some authBody ∧
      parseJSON authBody = some (.object
        [("email", .string "test_user"), ("password", .string "test_pwd"),
         ("loginQueryParams",
           .string (Values.Encode (sampleLibrary.parseQuery loginLocation.RawQuery)))]) :=
  (C24_auth_body (sampleRuntime noEnv) sampleLibrary handshakeConfig
    (plainURL "http://127.0.0.1:8080") loginRequest.URL loginLocation loginRequest authRequest
    loginResponse loginSessionCookie
    (by decide) (by decide) (by decide) (by decide) (by decide) (by decide) (by decide)
    (by decide)).2

namespace pingdomext

open pingdom (Header Request Runtime httpNewRequest cutAt isTokenChar)

theorem token_ne_eq {c : Char} (h : isTokenChar c = true) : c ≠ '=' := by
  intro e
  subst e
  revert h
  decide

theorem token_ne_semicolon {c : Char} (h : isTokenChar c = true) : c ≠ ';' := by
  intro e
  subst e
  revert h
  decide

theorem token_not_space {c : Char} (h : isTokenChar c = true) : isASCIISpace c = false := by
  cases hs : isASCIISpace c with
  | false => rfl
  | true =>
    exfalso
    unfold isASCIISpace at hs
    simp only [Bool.or_eq_true, beq_iff_eq] at hs
    rcases hs with ((e | e) | e) | e <;> subst e <;> revert h <;> decide

/-- Text that neither starts nor ends with white space is untouched by `TrimString`. -/
theorem trimString_eq (cs : List Char)
    (hh : ∀ c, cs.head? = some c → isASCIISpace c = false)
    (hl : ∀ c, cs.getLast? = some c → isASCIISpace c = false) : trimString cs = cs := by
  cases cs with
  | nil => rfl
  | cons c rest =>
    unfold trimString
    rw [List.dropWhile_cons_of_neg (by simp [hh c rfl])]
    cases hr : (c :: rest).reverse with
    | nil => simp at hr
    | cons d r =>
      have hlast : (c :: rest).getLast? = some d := by
        rw [List.getLast?_eq_head?_reverse, hr]
        rfl
      rw [List.dropWhile_cons_of_neg (by simp [hl d hlast]), ← hr, List.reverse_reverse]

theorem trimString_space (cs : List Char) : trimString (' ' :: cs) = trimString cs := by
  unfold trimString
  rw [List.dropWhile_cons_of_pos (by decide)]

theorem cutAt_append (sep : Char) (a b : List Char) (h : ∀ c ∈ a, c ≠ sep) :
    cutAt sep (a ++ sep :: b) = (a, some b) := by
  induction a with
  | nil => simp [cutAt]
  | cons c rest ih =>
    have hc : (c == sep) = false := beq_eq_false_iff_ne.2 (h c (List.mem_cons_self _ _))
    have ih' := ih fun x hx => h x (List.mem_cons_of_mem _ hx)
    rw [List.cons_append]
    conv => lhs; unfold cutAt
    simp only [hc, Bool.false_eq_true, if_false, ih']

theorem splitAll_append (sep : Char) (a b : List Char) (h : ∀ c ∈ a, c ≠ sep) :
    splitAll sep (a ++ sep :: b) = a :: splitAll sep b := by
  induction a with
  | nil => simp [splitAll]
  | cons c rest ih =>
    have hc : (c == sep) = false := beq_eq_false_iff_ne.2 (h c (List.mem_cons_self _ _))
    have ih' := ih fun x hx => h x (List.mem_cons_of_mem _ hx)
    rw [List.cons_append]
    conv => lhs; unfold splitAll
    simp only [hc, Bool.false_eq_true, if_false, ih']

/-- The shape of a sanitized cookie value, for either setting of `Quoted`: it is read back
as the kept characters, has no semicolon, and after `=` does not end in white space. -/
theorem sanitize_shape (v : String) (q : Bool) :
    ∃ q', parseCookieValue (sanitizeCookieValue v q).toList
        = some (v.toList.filter validCookieValueChar, q') ∧
      (∀ c ∈ (sanitizeCookieValue v q).toList, c ≠ ';') ∧
      (∀ d, ('=' :: (sanitizeCookieValue v q).toList).getLast? = some d →
        isASCIISpace d = false) := by
  have hv : ∀ c ∈ v.toList.filter validCookieValueChar, validCookieValueChar c = true :=
    fun c hc => valid_of_mem_filter hc
  unfold sanitizeCookieValue
  generalize v.toList.filter validCookieValueChar = kept at hv ⊢
  simp only
  by_cases h0 : kept = []
  · rw [if_pos h0]
    subst h0
    exact ⟨false, by decide, by simp, by decide⟩
  rw [if_neg h0]
  by_cases hq : (kept.contains ' ' || kept.contains ',' || q) = true
  · rw [if_pos hq]
    refine ⟨true, parseCookieValue_quoted kept hv, ?_, ?_⟩
    · intro c hc
      simp only [String.toList, List.mem_cons, List.mem_append, List.mem_singleton,
        List.not_mem_nil, or_false] at hc
      rcases hc with (rfl | hc) | rfl
      · decide
      · exact valid_ne_semicolon (hv c hc)
      · decide
    · intro d hd
      have : ('=' :: ('"' :: kept ++ ['"'])).getLast? = some '"' := by
        rw [show '=' :: ('"' :: kept ++ ['"']) = ('=' :: '"' :: kept) ++ ['"'] by simp,
          List.getLast?_append]
        simp
      have hd' : ('=' :: ('"' :: kept ++ ['"'])).getLast? = some d := hd
      rw [this] at hd'
      cases hd'
      decide
  · rw [if_neg hq]
    have hq' : kept.contains ' ' = false := by
      cases hc : kept.contains ' ' with
      | false => rfl
      | true =>
        exfalso
        apply hq
        rw [hc]
        rfl
    refine ⟨false, parseCookieValue_plain kept hv, ?_, ?_⟩
    · intro c hc
      exact valid_ne_semicolon (hv c hc)
    · intro d hd
      have hd' : ('=' :: kept).getLast? = some d := hd
      obtain ⟨init, e, he⟩ : ∃ init e, kept = init ++ [e] := by
        rcases List.eq_nil_or_concat kept with h | ⟨i, e, h⟩
        · exact absurd h h0
        · exact ⟨i, e, by rw [h, List.concat_eq_append]⟩
      have hlast : ('=' :: kept).getLast? = some e := by
        rw [he, show '=' :: (init ++ [e]) = ('=' :: init) ++ [e] by simp, List.getLast?_append]
        simp
      rw [hlast] at hd'
      cases hd'
      have hmem : d ∈ kept := by
        rw [he]
        simp
      have hsp : d ≠ ' ' := by
        intro e'
        subst e'
        have : kept.contains ' ' = true := by simpa using hmem
        rw [this] at hq'
        cases hq'
      exact valid_not_space (hv d hmem) hsp

end pingdomext

namespace pingdomext

open pingdom (Header Request Runtime httpNewRequest cutAt isTokenChar)

theorem name_token {name : List Char} (h : isCookieNameValid name = true) :
    name ≠ [] ∧ ∀ c ∈ name, isTokenChar c = true := by
  unfold isCookieNameValid at h
  simp only [Bool.and_eq_true, Bool.not_eq_true', List.all_eq_true] at h
  refine ⟨?_, h.2⟩
  intro e
  rw [e] at h
  simp at h

theorem getLast?_append_cons (a b : List Char) (c : Char) :
    (a ++ c :: b).getLast? = (c :: b).getLast? := by
  rw [List.getLast?_append]
  cases h : (c :: b).getLast? with
  | none => simp at h
  | some d => rfl

theorem head?_append_name {name : List Char} (h : isCookieNameValid name = true)
    (rest : List Char) (c : Char) (hc : (name ++ rest).head? = some c) :
    isASCIISpace c = false := by
  obtain ⟨hne, htok⟩ := name_token h
  cases name with
  | nil => exact absurd rfl hne
  | cons c0 r =>
    simp only [List.cons_append, List.head?_cons, Option.some.injEq] at hc
    subst hc
    exact token_not_space (htok _ (List.mem_cons_self _ _))

theorem trimString_name {name : List Char} (h : isCookieNameValid name = true) :
    trimString name = name := by
  apply trimString_eq
  · intro c hc
    have := head?_append_name h [] c (by simpa using hc)
    exact this
  · intro c hc
    exact token_not_space ((name_token h).2 c (List.mem_of_mem_getLast? hc))

/-- One `name=value` part with a valid name and a sanitized value is read back as the cookie
with that name and the kept characters. -/
theorem readCookiePart_named (name w kept : List Char) (q' : Bool)
    (hname : isCookieNameValid name = true)
    (hp : parseCookieValue w = some (kept, q'))
    (hl : ∀ d, ('=' :: w).getLast? = some d → isASCIISpace d = false) :
    readCookiePart (name ++ '=' :: w)
      = some { Name := String.mk name, Value := String.mk kept, Quoted := q' } := by
  have htrim : trimString (name ++ '=' :: w) = name ++ '=' :: w := by
    apply trimString_eq
    · exact head?_append_name hname _
    · intro d hd
      rw [getLast?_append_cons] at hd
      exact hl d hd
  have hcut : cutAt '=' (name ++ '=' :: w) = (name, some w) :=
    cutAt_append '=' name w fun c hc => token_ne_eq ((name_token hname).2 c hc)
  have hne : (name ++ '=' :: w).isEmpty = false := by
    cases name <;> rfl
  unfold readCookiePart
  simp only [htrim, hne, hcut, trimString_name hname, hname, Option.getD_some, hp,
    Bool.false_eq_true, if_false, Bool.not_true]

theorem readCookiePart_space (part : List Char) :
    readCookiePart (' ' :: part) = readCookiePart part := by
  unfold readCookiePart
  rw [trimString_space]

/-- A Cookie line with two `name=value` parts, with valid names and sanitized values, is read
back as the two cookies, in order, with the kept characters as values. -/
theorem readCookies_line (line : String) (n1 n2 : List Char) (v1 v2 : String) (q1 q2 : Bool)
    (hn1 : isCookieNameValid n1 = true) (hn2 : isCookieNameValid n2 = true)
    (hline : line.toList = (n1 ++ '=' :: (sanitizeCookieValue v1 q1).toList)
      ++ ';' :: ' ' :: (n2 ++ '=' :: (sanitizeCookieValue v2 q2).toList)) :
    ∃ q1' q2', readCookies [("Cookie", line)]
      = [{ Name := String.mk n1, Value := String.mk (v1.toList.filter validCookieValueChar),
           Quoted := q1' },
         { Name := String.mk n2, Value := String.mk (v2.toList.filter validCookieValueChar),
           Quoted := q2' }] := by
  obtain ⟨q1', hp1, hs1, hl1⟩ := sanitize_shape v1 q1
  obtain ⟨q2', hp2, hs2, hl2⟩ := sanitize_shape v2 q2
  refine ⟨q1', q2', ?_⟩
  generalize (sanitizeCookieValue v1 q1).toList = w1 at hline hp1 hs1 hl1
  generalize (sanitizeCookieValue v2 q2).toList = w2 at hline hp2 hs2 hl2
  have hvals : Header.Values [("Cookie", line)] "Cookie" = [line] := by
    simp [Header.Values]
  have hsemi1 : ∀ c ∈ n1 ++ '=' :: w1, c ≠ ';' := by
    intro c hc
    simp only [List.mem_append, List.mem_cons] at hc
    rcases hc with hc | rfl | hc
    · exact token_ne_semicolon ((name_token hn1).2 c hc)
    · decide
    · exact hs1 c hc
  have hsemi2 : ∀ c ∈ ' ' :: (n2 ++ '=' :: w2), c ≠ ';' := by
    intro c hc
    simp only [List.mem_append, List.mem_cons] at hc
    rcases hc with rfl | hc | rfl | hc
    · decide
    · exact token_ne_semicolon ((name_token hn2).2 c hc)
    · decide
    · exact hs2 c hc
  have htrim : trimString line.toList = line.toList := by
    apply trimString_eq
    · intro c hc
      rw [hline, List.append_assoc] at hc
      exact head?_append_name hn1 _ c hc
    · intro d hd
      rw [hline, getLast?_append_cons, show ';' :: ' ' :: (n2 ++ '=' :: w2)
        = (';' :: ' ' :: n2) ++ '=' :: w2 by simp, getLast?_append_cons] at hd
      exact hl2 d hd
  unfold readCookies
  rw [hvals]
  simp only [List.flatMap_cons, List.flatMap_nil, List.append_nil, htrim]
  rw [hline, splitAll_append ';' _ _ hsemi1, splitAll_no_sep ';' _ hsemi2]
  simp only [List.filterMap_cons, readCookiePart_named n1 w1 _ q1' hn1 hp1 hl1,
    readCookiePart_space, readCookiePart_named n2 w2 _ q2' hn2 hp2 hl2, List.filterMap_nil]

end pingdomext

namespace pingdomext

open pingdom (Runtime Outcome URL Request Response Header Values httpNewRequest error)

theorem AddCookie_method_url (r : Request) (c : Cookie) :
    (AddCookie r c).Method = r.Method ∧ (AddCookie r c).URL = r.URL := by
  unfold AddCookie
  simp only
  split <;> exact ⟨rfl, rfl⟩

/-- Two cookies added to a request without headers make one Cookie line: the two sanitized
`name=value` parts, separated by `; `. -/
theorem AddCookie_two (r : Request) (c1 c2 : Cookie) (h : r.Header = []) :
    (AddCookie (AddCookie r c1) c2).Header
      = [("Cookie",
          (sanitizeCookieName c1.Name ++ "=" ++ sanitizeCookieValue c1.Value c1.Quoted)
            ++ "; "
            ++ (sanitizeCookieName c2.Name ++ "=" ++ sanitizeCookieValue c2.Value c2.Quoted))] := by
  have h1 : (AddCookie r c1).Header
      = [("Cookie",
          sanitizeCookieName c1.Name ++ "=" ++ sanitizeCookieValue c1.Value c1.Quoted)] := by
    unfold AddCookie
    simp only [h]
    have hget : Header.Get [] "Cookie" = "" := by decide
    rw [hget]
    simp [HeaderSet]
  generalize hs : sanitizeCookieName c1.Name ++ "=" ++ sanitizeCookieValue c1.Value c1.Quoted
    = s1 at h1
  have hne : s1 ≠ "" := by
    intro e
    have := congrArg String.toList e
    rw [← hs] at this
    simp [String.toList] at this
  generalize AddCookie r c1 = r1 at h1
  unfold AddCookie
  simp only [h1]
  have hget : Header.Get [("Cookie", s1)] "Cookie" = s1 := by
    simp [Header.Get, Header.Values]
  rw [hget, if_pos hne]
  simp [HeaderSet]

/-- Once the third request of the handshake is built, every result that `obtainToken`
returns has sent exactly the three requests. -/
theorem obtainToken_sent_three (rt : Runtime) (lib : Library) (cfg : ClientConfig)
    (client : pingdom.HTTPClient) (stateURL location redirectURL : URL)
    (stateReq authReq0 tokenReq0 : Request) (stateResp authResp : Response)
    (sessionCookie : Cookie) (authRespJSON : authResult)
    (hcl : cfg.HTTPClient = some client)
    (h1u : rt.urlParse (cfg.BaseURL ++ "/auth/login?") = .ok stateURL)
    (h1r : httpNewRequest rt "GET" stateURL.String none = .ok stateReq)
    (h1d : client.Do stateReq = .ok stateResp)
    (h1l : Location lib stateReq stateResp = .ok location)
    (h1c : getCookie lib stateResp "pingdom_login_session_id" = (some sessionCookie, none))
    (h2r : httpNewRequest rt "POST" cfg.AuthURL
        (some (marshalAuthPayload
          { Email := cfg.Username, Password := cfg.Password,
            LoginQueryParams := Values.Encode (lib.parseQuery location.RawQuery) }))
      = .ok authReq0)
    (h2d : client.Do
        { authReq0 with Header := Header.Add authReq0.Header "Content-Type" "application/json" }
      = .ok authResp)
    (h2j : unmarshalAuthResult authResp.Body.ReadAll.1 (some { RedirectURL := "" })
      = (none, some authRespJSON))
    (h3u : rt.urlParse authRespJSON.RedirectURL = .ok redirectURL)
    (h3r : httpNewRequest rt "GET"
        (cfg.BaseURL ++ "/auth/swicus/callback?"
          ++ Values.Encode (lib.parseQuery redirectURL.RawQuery)) none
      = .ok tokenReq0)
    (token : Option String) (err : error) (sent : List Request)
    (h : obtainToken rt lib cfg = .ret (token, err, sent)) :
    sent = [stateReq,
      { authReq0 with Header := Header.Add authReq0.Header "Content-Type" "application/json" },
      AddCookie (AddCookie tokenReq0 sessionCookie)
        { Name := "login_session_swicus_org_id", Value := cfg.OrgID }] := by
  unfold obtainToken at h
  simp only [h1u, h1r, hcl, h1d, h1l, h1c, h2r, h2d, h2j, h3u, h3r] at h
  repeat' split at h
  all_goals first
    | (cases h; rfl)
    | cases h

theorem getCookie_name {lib : Library} {resp : Response} {name : String} {cookie : Cookie}
    {err : error} (h : getCookie lib resp name = (some cookie, err)) : cookie.Name = name := by
  unfold getCookie at h
  split at h
  · next ck hck =>
    cases h
    simpa using List.find?_some hck
  · cases h

end pingdomext

set_option maxRecDepth 100000 in
open pingdom pingdomext in
/-- C25 (counterexample): with the organization id "a;b" the construction against the test
server of `TestNewClientWithConfig` succeeds, and the cookie
`login_session_swicus_org_id` of its third request has the value "ab", not the configured
organization id: `AddCookie` drops the semicolon. -/
theorem C25_org_id_sanitized :
    (credentialsConfig "test_user" "test_pwd" "a;b").OrgID = "a;b" ∧
    ∃ c r1 r2 r3,
      pingdomext.NewClientWithConfig (sampleRuntime noEnv) sampleLibrary
          (credentialsConfig "test_user" "test_pwd" "a;b")
        = .ret (some c, none, [r1, r2, r3]) ∧
      Cookies r3
        = [{ Name := "pingdom_login_session_id",
             Value := "qw4us4Ed7aLSGugMRDHkqM9G6mwuKdn9Hz90r6IHhRc%3D" },
           { Name := "login_session_swicus_org_id", Value := "ab" }] :=
  ⟨rfl,
    { JWTToken := "my_test_token", APITokenOnly := "",
      BaseURL := plainURL "http://127.0.0.1:8080", client := handshakeServer,
      useAPITokenOnly := false },
    loginRequest,
    { authRequest with
      Header := Header.Add authRequest.Header "Content-Type" "application/json" },
    AddCookie (AddCookie callbackRequest loginSessionCookie)
      { Name := "login_session_swicus_org_id", Value := "a;b" },
    by rfl, by decide⟩

open pingdom pingdomext in
/-- C25 (amended): for a config without a static token, when steps 1 and 2 of the handshake
succeed and the third request is built, that request is the third and last one handed to
the transport; it is a GET of the base URL followed by "/auth/swicus/callback?" and the
query of the redirect URL encoded again from its parsed parameters; it carries exactly two
cookies, in this order: `pingdom_login_session_id` with the value of the cookie of step 1,
and `login_session_swicus_org_id` with the configured organization id, each value without
the bytes that are not valid in a cookie value (the value itself when all its bytes are
valid). -/
theorem C25_callback_request (rt : Runtime) (lib : Library)
    (config : pingdomext.ClientConfig)
    (base stateURL location redirectURL : URL) (stateReq authReq0 tokenReq0 : Request)
    (stateResp authResp : Response) (sessionCookie : Cookie) (authRespJSON : authResult)
    (hTok : extToken rt config = "")
    (hBase : rt.urlParse (sessionConfig rt lib config).BaseURL = .ok base)
    (h1u : rt.urlParse ((sessionConfig rt lib config).BaseURL ++ "/auth/login?")
      = .ok stateURL)
    (h1r : httpNewRequest rt "GET" stateURL.String none = .ok stateReq)
    (h1d : (config.HTTPClient.getD lib.noRedirectClient).Do stateReq = .ok stateResp)
    (h1l : Location lib stateReq stateResp = .ok location)
    (h1c : getCookie lib stateResp "pingdom_login_session_id" = (some sessionCookie, none))
    (h2r : httpNewRequest rt "POST" (sessionConfig rt lib config).AuthURL
        (some (marshalAuthPayload
          { Email := (sessionConfig rt lib config).Username,
            Password := (sessionConfig rt lib config).Password,
            LoginQueryParams := Values.Encode (lib.parseQuery location.RawQuery) }))
      = .ok authReq0)
    (h2d : (config.HTTPClient.getD lib.noRedirectClient).Do
        { authReq0 with Header := Header.Add authReq0.Header "Content-Type" "application/json" }
      = .ok authResp)
    (h2j : unmarshalAuthResult authResp.Body.ReadAll.1 (some { RedirectURL := "" })
      = (none, some authRespJSON))
    (h3u : rt.urlParse authRespJSON.RedirectURL = .ok redirectURL)
    (h3r : httpNewRequest rt "GET"
        ((sessionConfig rt lib config).BaseURL ++ "/auth/swicus/callback?"
          ++ Values.Encode (lib.parseQuery redirectURL.RawQuery)) none
      = .ok tokenReq0) :
    (∀ c err sent, pingdomext.NewClientWithConfig rt lib config = .ret (c, err, sent) →
      sent = [stateReq,
        { authReq0 with
          Header := Header.Add authReq0.Header "Content-Type" "application/json" },
        AddCookie (AddCookie tokenReq0 sessionCookie)
          { Name := "login_session_swicus_org_id",
            Value := (sessionConfig rt lib config).OrgID }]) ∧
    (AddCookie (AddCookie tokenReq0 sessionCookie)
        { Name := "login_session_swicus_org_id",
          Value := (sessionConfig rt lib config).OrgID }).Method = "GET" ∧
    rt.urlParse ((sessionConfig rt lib config).BaseURL ++ "/auth/swicus/callback?"
        ++ Values.Encode (lib.parseQuery redirectURL.RawQuery))
      = .ok (AddCookie (AddCookie tokenReq0 sessionCookie)
          { Name := "login_session_swicus_org_id",
            Value := (sessionConfig rt lib config).OrgID }).URL ∧
    (Cookies (AddCookie (AddCookie tokenReq0 sessionCookie)
        { Name := "login_session_swicus_org_id",
          Value := (sessionConfig rt lib config).OrgID })).map (fun c => (c.Name, c.Value))
      = [("pingdom_login_session_id",
          String.mk (sessionCookie.Value.toList.filter validCookieValueChar)),
         ("login_session_swicus_org_id",
          String.mk ((sessionConfig rt lib config).OrgID.toList.filter
            validCookieValueChar))] ∧
    ((∀ c ∈ sessionCookie.Value.toList, validCookieValueChar c = true) →
      String.mk (sessionCookie.Value.toList.filter validCookieValueChar)
        = sessionCookie.Value) ∧
    ((∀ c ∈ (sessionConfig rt lib config).OrgID.toList, validCookieValueChar c = true) →
      String.mk ((sessionConfig rt lib config).OrgID.toList.filter validCookieValueChar)
        = (sessionConfig rt lib config).OrgID) := by
  have hcl : (sessionConfig rt lib config).HTTPClient
      = some (config.HTTPClient.getD lib.noRedirectClient) := rfl
  have hfilter : ∀ s : String, (∀ c ∈ s.toList, validCookieValueChar c = true) →
      String.mk (s.toList.filter validCookieValueChar) = s := by
    intro s hs
    rw [List.filter_eq_self.2 hs]
    rfl
  obtain ⟨hm, hu, hh, _⟩ := httpNewRequest_ok h3r
  refine ⟨?_, ?_, ?_, ?_, hfilter _, hfilter _⟩
  · intro c err sent h
    rw [NewClientWithConfig_session rt lib config hTok, hBase] at h
    have key := obtainToken_sent_three rt lib (sessionConfig rt lib config) _ stateURL
      location redirectURL stateReq authReq0 tokenReq0 stateResp authResp sessionCookie
      authRespJSON hcl h1u h1r h1d h1l h1c h2r h2d h2j h3u h3r
    cases hob : obtainToken rt lib (sessionConfig rt lib config) with
    | panic msg =>
      rw [hob] at h
      cases h
    | ret r =>
      obtain ⟨token, e, s⟩ := r
      rw [hob] at h
      have hs := key token e s hob
      cases token <;> cases e <;> simp only at h <;> first
        | (cases h; exact hs)
        | cases h
  · rw [(AddCookie_method_url _ _).1, (AddCookie_method_url _ _).1]
    exact hm.trans (by decide)
  · rw [(AddCookie_method_url _ _).2, (AddCookie_method_url _ _).2]
    exact hu
  · have hname : sessionCookie.Name = "pingdom_login_session_id" := getCookie_name h1c
    have hn1 : sanitizeCookieName "pingdom_login_session_id" = "pingdom_login_session_id" := by
      decide
    have hn2 : sanitizeCookieName "login_session_swicus_org_id"
        = "login_session_swicus_org_id" := by
      decide
    obtain ⟨q1, q2, hread⟩ := readCookies_line
      (("pingdom_login_session_id" ++ "="
          ++ sanitizeCookieValue sessionCookie.Value sessionCookie.Quoted)
        ++ "; "
        ++ ("login_session_swicus_org_id" ++ "="
          ++ sanitizeCookieValue (sessionConfig rt lib config).OrgID false))
      "pingdom_login_session_id".toList "login_session_swicus_org_id".toList
      sessionCookie.Value (sessionConfig rt lib config).OrgID sessionCookie.Quoted false
      (by decide) (by decide) (by simp [String.toList])
    unfold Cookies
    rw [AddCookie_two _ _ _ hh]
    simp only [hname, hn1, hn2]
    rw [hread]
    rfl

set_option maxRecDepth 100000 in
open pingdom pingdomext in
/-- C25 (witness): in the exchange of `TestNewClientWithConfig` the third request is a GET
that carries the session cookie of the first answer and the cookie
`login_session_swicus_org_id` with the value "test_org". -/
theorem C25_callback_request_witness :
    (AddCookie (AddCookie callbackRequest loginSessionCookie)
        { Name := "login_session_swicus_org_id", Value := "test_org" }).Method = "GET" ∧
    (Cookies (AddCookie (AddCookie callbackRequest loginSessionCookie)
        { Name := "login_session_swicus_org_id", Value := "test_org" })).map
        (fun c => (c.Name, c.Value))
      = [("pingdom_login_session_id", "qw4us4Ed7aLSGugMRDHkqM9G6mwuKdn9Hz90r6IHhRc%3D"),
         ("login_session_swicus_org_id", "test_org")] :=
  have h := C25_callback_request (sampleRuntime noEnv) sampleLibrary handshakeConfig
    (plainURL "http://127.0.0.1:8080") loginRequest.URL loginLocation callbackRedirect
    loginRequest authRequest callbackRequest loginResponse authResponse loginSessionCookie
    { RedirectURL := "https://my.pingdom.com/auth/swicus/callback?code=70kRkkAB7OIv5YYTPR6LpHH-2jMbtaDEHScLDw1amfw.baMoW3w-HkNXOj_I8pv580mRwBjIRVdFLW3cXFGRX9o&scope=openid+swicus&state=htILEppzoMPtb6UjOdM98XPS3Mcwkr3Y" }
    (by decide) (by decide) (by decide) (by decide) (by decide) (by decide) (by decide)
    (by decide) (by decide) (by decide) (by decide) (by decide)
  ⟨h.2.1, h.2.2.2.1.trans (by decide)⟩

open pingdom in
/-- C33 (failing input): `validateResponse` is not total.  On a status outside 200..299 with
a body that is the JSON text null, also when white space surrounds it, the function of both
packages panics on `m.Error`.  On the bodies `{}` and `{"error": null}` it returns an error
that holds a nil `*PingdomError`, which has no fields to read. -/
theorem C33_not_total :
    validateResponse (plainResponse 404 "null") = .panic nilDereference ∧
    pingdomext.validateResponse (plainResponse 404 "null") = .panic nilDereference ∧
    validateResponse (plainResponse 199 " null\n") = .panic nilDereference ∧
    pingdomext.validateResponse (plainResponse 300 " null\n") = .panic nilDereference ∧
    validateResponse (plainResponse 404 "\x7b\x7d")
      = .ret (some (.pingdomError none),
          { StatusCode := 404, Header := [],
            Body := { unread := "", atEOF := true, closed := false } }) ∧
    validateResponse (plainResponse 404 "\x7b\"error\": null\x7d")
      = .ret (some (.pingdomError none),
          { StatusCode := 404, Header := [],
            Body := { unread := "", atEOF := true, closed := false } }) := by
  decide

open pingdom pingdomext in
/-- C34: `NewClientWithConfig` of the extension package resolves its static token as
`config.APITokenOnly` when that is non-empty and otherwise as the value of the environment
variable `PINGDOM_API_TOKEN`; the value of `PINGDOM_API_TOKEN_ONLY` never changes its
result.  When the resolved token is non-empty and the base URL parses, the result is a
token-mode client with that token, built without a request, and it is the same whatever
the user name, password, organization id and auth URL of the config are. -/
theorem C34_static_token (rt : Runtime) (lib : Library) (config : pingdomext.ClientConfig) :
    (extToken rt config
      = if config.APITokenOnly ≠ "" then config.APITokenOnly
        else (rt.LookupEnv "PINGDOM_API_TOKEN").getD "") ∧
    (∀ value : Option String,
      pingdomext.NewClientWithConfig
          { rt with
            LookupEnv := fun name =>
              if name = "PINGDOM_API_TOKEN_ONLY" then value else rt.LookupEnv name }
          lib config
        = pingdomext.NewClientWithConfig rt lib config) ∧
    (extToken rt config ≠ "" →
      ∀ base, rt.urlParse (if config.BaseURL = "" then apiURL else config.BaseURL) = .ok base →
      ∀ username password orgID authURL,
        pingdomext.NewClientWithConfig rt lib
            { config with
              Username := username, Password := password, OrgID := orgID,
              AuthURL := authURL }
          = .ret (some { JWTToken := "", APITokenOnly := extToken rt config, BaseURL := base,
                         client := config.HTTPClient.getD lib.noRedirectClient,
                         useAPITokenOnly := true }, none, [])) := by
  refine ⟨?_, ?_, ?_⟩
  · unfold extToken resolutionOrder
    cases rt.LookupEnv "PINGDOM_API_TOKEN" <;> rfl
  · intro value
    have h1 : ("PINGDOM_API_TOKEN" = "PINGDOM_API_TOKEN_ONLY") = False := by decide
    have h2 : ("SOLARWINDS_USER" = "PINGDOM_API_TOKEN_ONLY") = False := by decide
    have h3 : ("SOLARWINDS_PASSWD" = "PINGDOM_API_TOKEN_ONLY") = False := by decide
    have h4 : ("SOLARWINDS_ORG_ID" = "PINGDOM_API_TOKEN_ONLY") = False := by decide
    unfold pingdomext.NewClientWithConfig
    simp only [h1, h2, h3, h4, if_false]
    rfl
  · intro hTok base hBase username password orgID authURL
    have hTok' : extToken rt
        { config with
          Username := username, Password := password, OrgID := orgID, AuthURL := authURL }
        ≠ "" := hTok
    rw [NewClientWithConfig_token rt lib _ hTok']
    simp only [hBase]
    rfl

open pingdom pingdomext in
/-- C34 (witness): with `PINGDOM_API_TOKEN` set to "envSetToken" and an empty config token,
the config of the handshake test gets a token-mode client with the token "envSetToken" and
no request is sent, whatever its session credentials are. -/
theorem C34_static_token_witness :
    extToken (sampleRuntime envWithToken) handshakeConfig = "envSetToken" ∧
    pingdomext.NewClientWithConfig (sampleRuntime envWithToken) sampleLibrary
        { handshakeConfig with
          Username := "other_user", Password := "", OrgID := "", AuthURL := "" }
      = .ret (some { JWTToken := "", APITokenOnly := "envSetToken",
                     BaseURL := plainURL "http://127.0.0.1:8080", client := handshakeServer,
                     useAPITokenOnly := true }, none, []) :=
  ⟨by decide,
    (C34_static_token (sampleRuntime envWithToken) sampleLibrary handshakeConfig).2.2
      (by decide) (plainURL "http://127.0.0.1:8080") (by decide) "other_user" "" "" ""⟩

namespace pingdom

/-- With a method that is a token and a URL that parses, `http.NewRequest` builds the
request. -/
theorem httpNewRequest_of_parse (rt : Runtime) (method urlStr : String) (body : Option String)
    (u : URL) (hm : (effectiveMethod method).toList.all isTokenChar = true)
    (hu : rt.urlParse urlStr = .ok u) :
    httpNewRequest rt method urlStr body
      = .ok { Method := effectiveMethod method, URL := u, Header := [], Body := body } := by
  unfold httpNewRequest
  unfold effectiveMethod at hm ⊢
  simp only [hm, hu, Bool.not_true, Bool.false_eq_true, if_false]

theorem foldl_Add_empty_values (ps : List (String × List String)) (acc : Values)
    (h : ∀ e ∈ ps, e.2 = []) :
    ps.foldl (fun vs kmv => kmv.2.foldl (fun vs v => Values.Add vs kmv.1 v) vs) acc = acc := by
  induction ps generalizing acc with
  | nil => rfl
  | cons e rest ih =>
    rw [List.foldl_cons, h e (List.mem_cons_self _ _), List.foldl_nil]
    exact ih acc fun x hx => h x (List.mem_cons_of_mem _ hx)

/-- A multi-valued map whose value lists are all empty stores nothing. -/
theorem addAll_empty_values (ps : List (String × List String)) (h : ∀ e ∈ ps, e.2 = []) :
    addAll ps = [] :=
  foldl_Add_empty_values ps [] h

end pingdom

open pingdom in
/-- C32: let `u` be the URL parsed from `BaseURL.String() + rsc`, whose query is the query
string written in `rsc`, and let the method be a token.  With nil params `NewRequest` and
`NewRequestMultiParamValue` build a request whose URL is `u`, query included.  With non-nil
params they build a request whose URL is `u` with its query replaced by the encoding of the
params, so the query of `rsc` is gone; for the empty map, and for a multi-valued map whose
value lists are all empty, that encoding is the empty string.  The library is taken to read
each URL back from its rendering. -/
theorem C32_rsc_query (rt : Runtime) (pc : Client) (method rsc : String) (u : URL)
    (hm : (effectiveMethod method).toList.all isTokenChar = true)
    (hu : rt.urlParse (pc.BaseURL.String ++ rsc) = .ok u) :
    (ReadsBack rt u →
      (∃ req, pc.NewRequest rt method rsc none = (some req, none) ∧ req.URL = u) ∧
      (∃ req, pc.NewRequestMultiParamValue rt method rsc none = (some req, none) ∧
        req.URL = u)) ∧
    (∀ ps : List (String × String),
      ReadsBack rt { u with RawQuery := Values.Encode (setAll ps) } →
      ∃ req, pc.NewRequest rt method rsc (some ps) = (some req, none) ∧
        req.URL = { u with RawQuery := Values.Encode (setAll ps) }) ∧
    (∀ ps : List (String × List String),
      ReadsBack rt { u with RawQuery := Values.Encode (addAll ps) } →
      ∃ req, pc.NewRequestMultiParamValue rt method rsc (some ps) = (some req, none) ∧
        req.URL = { u with RawQuery := Values.Encode (addAll ps) }) ∧
    Values.Encode (setAll []) = "" ∧
    (∀ ps : List (String × List String), (∀ e ∈ ps, e.2 = []) →
      Values.Encode (addAll ps) = "") := by
  refine ⟨?_, ?_, ?_, rfl, ?_⟩
  · intro hb
    have hr := httpNewRequest_of_parse rt method u.String none u hm hb
    constructor
    · refine ⟨pc.addAuthHeaders
        { Method := effectiveMethod method, URL := u, Header := [], Body := none }, ?_,
        (addAuthHeaders_frame pc _).2.1⟩
      unfold Client.NewRequest
      simp only [hu, hr]
    · refine ⟨pc.addAuthHeaders
        { Method := effectiveMethod method, URL := u, Header := [], Body := none }, ?_,
        (addAuthHeaders_frame pc _).2.1⟩
      unfold Client.NewRequestMultiParamValue
      simp only [hu, hr]
  · intro ps hb
    have hr := httpNewRequest_of_parse rt method _ none _ hm hb
    refine ⟨pc.addAuthHeaders
      { Method := effectiveMethod method,
        URL := { u with RawQuery := Values.Encode (setAll ps) }, Header := [], Body := none },
      ?_, (addAuthHeaders_frame pc _).2.1⟩
    unfold Client.NewRequest
    simp only [hu, hr]
  · intro ps hb
    have hr := httpNewRequest_of_parse rt method _ none _ hm hb
    refine ⟨pc.addAuthHeaders
      { Method := effectiveMethod method,
        URL := { u with RawQuery := Values.Encode (addAll ps) }, Header := [], Body := none },
      ?_, (addAuthHeaders_frame pc _).2.1⟩
    unfold Client.NewRequestMultiParamValue
    simp only [hu, hr]
  · intro ps h
    rw [addAll_empty_values ps h]
    rfl

open pingdom in
/-- C32 (witness): for `rsc` "/checks?limit=5" the request built with nil params has the
query "limit=5"; with the empty map, and with the map `{"a": []}`, it has the empty query;
with the map `{"a": "1"}` it has the query "a=1". -/
theorem C32_rsc_query_witness :
    ((bothTokens.NewRequest (sampleRuntime noEnv) "GET" "/checks?limit=5" none).1.map
        fun r => r.URL.RawQuery) = some "limit=5" ∧
    ((bothTokens.NewRequest (sampleRuntime noEnv) "GET" "/checks?limit=5" (some [])).1.map
        fun r => r.URL.RawQuery) = some "" ∧
    ((bothTokens.NewRequestMultiParamValue (sampleRuntime noEnv) "GET" "/checks?limit=5"
        (some [("a", [])])).1.map fun r => r.URL.RawQuery) = some "" ∧
    ((bothTokens.NewRequest (sampleRuntime noEnv) "GET" "/checks?limit=5"
        (some [("a", "1")])).1.map fun r => r.URL.RawQuery) = some "a=1" :=
  have h := C32_rsc_query (sampleRuntime noEnv) bothTokens "GET" "/checks?limit=5"
    { Head := "https://api.pingdom.com/api/3.1/checks", ForceQuery := false,
      RawQuery := "limit=5", Fragment := "" } (by decide) (by decide)
  have h1 := (h.1 (by rfl)).1
  have h2 := h.2.1 [] (by rfl)
  have h3 := h.2.2.1 [("a", [])] (by rfl)
  have h4 := h.2.1 [("a", "1")] (by rfl)
  ⟨by obtain ⟨req, hr, hu⟩ := h1; rw [hr]; show some req.URL.RawQuery = _; rw [hu],
    by obtain ⟨req, hr, hu⟩ := h2; rw [hr]; show some req.URL.RawQuery = _; rw [hu]; rfl,
    by obtain ⟨req, hr, hu⟩ := h3; rw [hr]; show some req.URL.RawQuery = _; rw [hu]; rfl,
    by obtain ⟨req, hr, hu⟩ := h4; rw [hr]; show some req.URL.RawQuery = _; rw [hu]; rfl⟩

namespace pingdom

theorem digitChar_toNat : ∀ m : Nat, m < 10 → (Nat.digitChar m).toNat = 48 + m := by
  decide

theorem decimalValue_append (xs : List Char) (d : Char) :
    decimalValue (xs ++ [d]) = 10 * decimalValue xs + (d.toNat - 48) := by
  unfold decimalValue
  rw [List.foldl_append]
  rfl

theorem toDigitsCore_append (fuel n : Nat) (ds : List Char) :
    Nat.toDigitsCore 10 fuel n ds = Nat.toDigitsCore 10 fuel n [] ++ ds := by
  induction fuel generalizing n ds with
  | zero => simp [Nat.toDigitsCore]
  | succ fuel ih =>
    unfold Nat.toDigitsCore
    simp only
    split
    · simp
    · rw [ih (n / 10) (Nat.digitChar (n % 10) :: ds), ih (n / 10) [Nat.digitChar (n % 10)]]
      simp

/-- The digits that `Nat.toDigits` writes: a non-empty list of decimal digits whose value
is the number. -/
theorem toDigitsCore_spec (fuel n : Nat) (h : n < fuel) :
    Nat.toDigitsCore 10 fuel n [] ≠ [] ∧
    (∀ c ∈ Nat.toDigitsCore 10 fuel n [], 48 ≤ c.toNat ∧ c.toNat ≤ 57) ∧
    decimalValue (Nat.toDigitsCore 10 fuel n []) = n := by
  induction fuel generalizing n with
  | zero => omega
  | succ fuel ih =>
    have hd := digitChar_toNat (n % 10) (Nat.mod_lt _ (by decide))
    unfold Nat.toDigitsCore
    simp only
    split
    · next h0 =>
      refine ⟨by simp, ?_, ?_⟩
      · intro c hc
        rw [List.mem_singleton] at hc
        subst hc
        omega
      · show 10 * 0 + ((Nat.digitChar (n % 10)).toNat - 48) = n
        omega
    · next h0 =>
      have hlt : n / 10 < fuel := by omega
      obtain ⟨_, hdig, hval⟩ := ih (n / 10) hlt
      rw [toDigitsCore_append]
      refine ⟨by simp, ?_, ?_⟩
      · intro c hc
        rcases List.mem_append.1 hc with hc | hc
        · exact hdig c hc
        · rw [List.mem_singleton] at hc
          subst hc
          omega
      · rw [decimalValue_append, hval]
        omega

theorem Itoa_natCast (n : Nat) : (Itoa (n : Int)).toList = Nat.toDigits 10 n := rfl

/-- The text of a natural number: non-empty, decimal digits only, and it writes the
number. -/
theorem Itoa_nat (n : Nat) :
    Itoa (n : Int) ≠ "" ∧
    (∀ c ∈ (Itoa (n : Int)).toList, 48 ≤ c.toNat ∧ c.toNat ≤ 57) ∧
    decimalValue (Itoa (n : Int)).toList = n := by
  obtain ⟨hne, hdig, hval⟩ := toDigitsCore_spec (n + 1) n (Nat.lt_succ_self n)
  rw [Itoa_natCast]
  refine ⟨?_, hdig, hval⟩
  intro h
  apply hne
  have := congrArg String.toList h
  rw [Itoa_natCast] at this
  exact this

theorem Itoa_nat_injective (a b : Nat) (h : Itoa (a : Int) = Itoa (b : Int)) : a = b := by
  rw [← (Itoa_nat a).2.2, ← (Itoa_nat b).2.2, h]

theorem Itoa_neg (n : Nat) (h : 0 < n) : Itoa (-(n : Int)) = "-" ++ Itoa (n : Int) := by
  cases n with
  | zero => omega
  | succ m => rfl

theorem Itoa_no_comma (n : Int) : ∀ c ∈ (Itoa n).toList, c ≠ ',' := by
  intro c hc e
  subst e
  cases n with
  | ofNat m =>
    have := (Itoa_nat m).2.1 ',' hc
    revert this
    decide
  | negSucc m =>
    have h1 : (Itoa (Int.negSucc m)).toList = '-' :: (Itoa ((m + 1 : Nat) : Int)).toList := rfl
    rw [h1, List.mem_cons] at hc
    rcases hc with hc | hc
    · revert hc
      decide
    · have := (Itoa_nat (m + 1)).2.1 ',' hc
      revert this
      decide

theorem Itoa_ne_empty (n : Int) : Itoa n ≠ "" := by
  cases n with
  | ofNat m => exact (Itoa_nat m).1
  | negSucc m =>
    intro h
    have h1 : (Itoa (Int.negSucc m)).toList = '-' :: (Itoa ((m + 1 : Nat) : Int)).toList := rfl
    have := congrArg String.toList h
    rw [h1] at this
    cases this

/-- The loop of `intListToCDString` after its first item joins the remaining items to the
text so far, each after a comma. -/
theorem intListLoop_succ (rest : List Int) (i : Nat) (acc : String) :
    intListLoop rest (i + 1) acc = String.intercalate.go acc "," (rest.map Itoa) := by
  induction rest generalizing i acc with
  | nil => rfl
  | cons item rest ih =>
    unfold intListLoop
    rw [if_neg (Nat.succ_ne_zero i), ih]
    rfl

theorem intListToCDString_eq (integers : List Int) :
    intListToCDString integers = ",".intercalate (integers.map Itoa) := by
  unfold intListToCDString
  cases integers with
  | nil => rfl
  | cons item rest =>
    unfold intListLoop
    rw [if_pos rfl, intListLoop_succ]
    rfl

theorem intercalate_go_toList (acc : String) (xs : List String) :
    (String.intercalate.go acc "," xs).toList
      = acc.toList ++ xs.flatMap fun x => ',' :: x.toList := by
  induction xs generalizing acc with
  | nil => simp [String.intercalate.go]
  | cons x rest ih =>
    unfold String.intercalate.go
    rw [ih]
    simp [String.toList]

end pingdom

namespace pingdom

theorem getLast?_mem_ne {l : List Char} (h : ∀ c ∈ l, c ≠ ',') :
    l.getLast? ≠ some ',' := by
  intro e
  exact h ',' (List.mem_of_mem_getLast? e) rfl

theorem joined_getLast? (acc : List Char) (rest : List Int) (hne : acc ≠ [])
    (hl : acc.getLast? ≠ some ',') :
    (acc ++ rest.flatMap fun n => ',' :: (Itoa n).toList).getLast? ≠ some ',' := by
  induction rest generalizing acc with
  | nil => simpa using hl
  | cons n rest ih =>
    have hI : (Itoa n).toList ≠ [] := fun e => Itoa_ne_empty n (String.ext e)
    rw [List.flatMap_cons, ← List.append_assoc]
    apply ih
    · simp
    · rw [show acc ++ ',' :: (Itoa n).toList = (acc ++ [',']) ++ (Itoa n).toList by simp,
        List.getLast?_append_of_ne_nil _ hI]
      exact getLast?_mem_ne (Itoa_no_comma n)

end pingdom

open pingdom in
/-- C36: `intListToCDString` returns the decimal texts of the elements, in the order of the
list, joined by single commas: the text of the first element followed, for each further
element, by a comma and its text.  The result is the empty string for the empty list and
the text of the element for a one-element list; it neither starts nor ends with a comma.
The text of an integer is non-empty and has no comma; for a natural number it consists of
decimal digits that write the number, and for a negative number it is a minus sign followed
by the text of its absolute value. -/
theorem C36_comma_list :
    (∀ integers : List Int,
      intListToCDString integers = ",".intercalate (integers.map Itoa)) ∧
    intListToCDString [] = "" ∧
    (∀ n : Int, intListToCDString [n] = Itoa n) ∧
    (∀ (first : Int) (rest : List Int),
      (intListToCDString (first :: rest)).toList
        = (Itoa first).toList ++ rest.flatMap fun n => ',' :: (Itoa n).toList) ∧
    (∀ integers : List Int, integers ≠ [] →
      (intListToCDString integers).toList.head? ≠ some ',' ∧
      (intListToCDString integers).toList.getLast? ≠ some ',') ∧
    (∀ n : Int, Itoa n ≠ "" ∧ ∀ c ∈ (Itoa n).toList, c ≠ ',') ∧
    (∀ n : Nat,
      (∀ c ∈ (Itoa (n : Int)).toList, 48 ≤ c.toNat ∧ c.toNat ≤ 57) ∧
      decimalValue (Itoa (n : Int)).toList = n) ∧
    (∀ n : Nat, 0 < n → Itoa (-(n : Int)) = "-" ++ Itoa (n : Int)) := by
  have hlist : ∀ (first : Int) (rest : List Int),
      (intListToCDString (first :: rest)).toList
        = (Itoa first).toList ++ rest.flatMap fun n => ',' :: (Itoa n).toList := by
    intro first rest
    unfold intListToCDString intListLoop
    rw [if_pos rfl, intListLoop_succ, intercalate_go_toList, List.flatMap_map]
  have hI : ∀ n : Int, (Itoa n).toList ≠ [] := fun n e => Itoa_ne_empty n (String.ext e)
  refine ⟨intListToCDString_eq, rfl, fun n => rfl, hlist, ?_,
    fun n => ⟨Itoa_ne_empty n, Itoa_no_comma n⟩,
    fun n => ⟨(Itoa_nat n).2.1, (Itoa_nat n).2.2⟩, Itoa_neg⟩
  intro integers hne
  cases integers with
  | nil => exact absurd rfl hne
  | cons first rest =>
    rw [hlist]
    constructor
    · intro e
      cases hf : (Itoa first).toList with
      | nil => exact hI first hf
      | cons c cs =>
        rw [hf] at e
        simp only [List.cons_append, List.head?_cons, Option.some.injEq] at e
        exact Itoa_no_comma first c (by rw [hf]; exact List.mem_cons_self _ _) e
    · exact joined_getLast? _ rest (hI first) (getLast?_mem_ne (Itoa_no_comma first))

open pingdom in
/-- C36 (witness): the list 1, -2, 30 gives "1,-2,30", which neither starts nor ends with a
comma; the text of -2 is the minus sign followed by "2". -/
theorem C36_comma_list_witness :
    intListToCDString [1, -2, 30] = "1,-2,30" ∧
    (intListToCDString [1, -2, 30]).toList.head? ≠ some ',' ∧
    (intListToCDString [1, -2, 30]).toList.getLast? ≠ some ',' ∧
    Itoa (-2) = "-" ++ Itoa 2 :=
  ⟨(C36_comma_list.1 [1, -2, 30]).trans (by decide),
    (C36_comma_list.2.2.2.2.1 [1, -2, 30] (by decide)).1,
    (C36_comma_list.2.2.2.2.1 [1, -2, 30] (by decide)).2,
    C36_comma_list.2.2.2.2.2.2.2 2 (by decide)⟩

namespace pingdom

theorem strLt_antisymm : IsAntisymm String fun a b => strLt a b = true where
  antisymm a b h1 h2 := by
    have := strLt_asymm h1
    rw [h2] at this
    cases this

theorem insertString_perm (k : String) (l : List String) :
    (insertString k l).Perm (k :: l) := by
  induction l with
  | nil => exact List.Perm.refl _
  | cons k' rest ih =>
    unfold insertString
    split
    · exact List.Perm.refl _
    · exact (List.Perm.cons k' ih).trans (List.Perm.swap k k' rest)

theorem sortStrings_perm (l : List String) : (sortStrings l).Perm l := by
  induction l with
  | nil => exact List.Perm.refl _
  | cons k rest ih =>
    unfold sortStrings
    exact (insertString_perm k _).trans (List.Perm.cons k ih)

theorem insertString_sorted (k : String) (l : List String)
    (hs : l.Pairwise fun a b => strLt a b = true) (hne : ∀ x ∈ l, x ≠ k) :
    (insertString k l).Pairwise fun a b => strLt a b = true := by
  induction l with
  | nil => simp [insertString]
  | cons k' rest ih =>
    rw [List.pairwise_cons] at hs
    unfold insertString
    split
    · next hlt =>
      refine List.pairwise_cons.2 ⟨?_, List.pairwise_cons.2 hs⟩
      intro x hx
      rcases List.mem_cons.1 hx with rfl | hx
      · exact hlt
      · exact strLt_trans hlt (hs.1 x hx)
    · next hnlt =>
      have hk' : strLt k' k = true := by
        rcases strLt_total (hne k' (List.mem_cons_self _ _)) with t | t
        · exact t
        · exact absurd t hnlt
      refine List.pairwise_cons.2 ⟨?_, ih hs.2 fun x hx => hne x (List.mem_cons_of_mem _ hx)⟩
      intro x hx
      rcases List.mem_cons.1 ((insertString_perm k rest).mem_iff.1 hx) with rfl | hx
      · exact hk'
      · exact hs.1 x hx

theorem sortStrings_sorted (l : List String) (hnd : l.Nodup) :
    (sortStrings l).Pairwise fun a b => strLt a b = true := by
  induction l with
  | nil => simp [sortStrings]
  | cons k rest ih =>
    rw [List.nodup_cons] at hnd
    unfold sortStrings
    apply insertString_sorted k _ (ih hnd.2)
    intro x hx heq
    apply hnd.1
    rw [← heq]
    exact (sortStrings_perm rest).mem_iff.1 hx

/-- The strictly ascending list of given distinct strings is the result of `sort.Strings`,
whatever order they come in. -/
theorem sortStrings_unique {names l : List String} (hp : names.Perm l)
    (hs : names.Pairwise fun a b => strLt a b = true) : sortStrings l = names := by
  have hnd : l.Nodup := by
    apply hp.nodup_iff.1
    exact hs.imp fun {a b} h e => by
      rw [e, strLt_irrefl] at h
      cases h
  haveI := strLt_antisymm
  exact List.eq_of_perm_of_sorted ((sortStrings_perm l).trans hp.symm)
    (sortStrings_sorted l hnd) hs

theorem requestheader_key_injective (a b : Nat)
    (h : "requestheader" ++ Itoa (a : Int) = "requestheader" ++ Itoa (b : Int)) : a = b := by
  apply Itoa_nat_injective
  have := congrArg String.data h
  rw [String.data_append, String.data_append] at this
  exact String.ext (List.append_cancel_left this)

theorem mapIndex_of_mem (rh : Params) (k v : String) (hnd : (rh.map Prod.fst).Nodup)
    (h : (k, v) ∈ rh) : mapIndex rh k = v := by
  unfold mapIndex
  induction rh with
  | nil => cases h
  | cons e rest ih =>
    obtain ⟨k₀, v₀⟩ := e
    rw [List.map_cons, List.nodup_cons] at hnd
    rcases List.mem_cons.1 h with e | hm
    · cases e
      simp [List.lookup]
    · have hne : k ≠ k₀ := by
        intro e
        apply hnd.1
        rw [← e]
        exact List.mem_map.2 ⟨(k, v), hm, rfl⟩
      have hb : (k == k₀) = false := beq_eq_false_iff_ne.2 hne
      simp only [List.lookup, hb]
      exact ih hnd.2 hm

theorem mem_setRequestHeaders_other (rh : Params) (hs : List String) (i : Nat) (m : Params)
    (k' v' : String)
    (h : ∀ j, j < hs.length → k' ≠ "requestheader" ++ Itoa ((i + j : Nat) : Int)) :
    (k', v') ∈ setRequestHeaders rh hs i m ↔ (k', v') ∈ m := by
  induction hs generalizing i m with
  | nil => exact Iff.rfl
  | cons k rest ih =>
    unfold setRequestHeaders
    have h0 := h 0 (Nat.zero_lt_succ _)
    rw [Nat.add_zero] at h0
    rw [ih, mem_mapSet_of_ne _ _ _ _ _ h0]
    intro j hj
    have := h (j + 1) (Nat.succ_lt_succ hj)
    rwa [show i + (j + 1) = i + 1 + j by omega] at this

theorem key_setRequestHeaders (rh : Params) (hs : List String) (i : Nat) (m : Params)
    (k' : String) :
    k' ∈ (setRequestHeaders rh hs i m).map Prod.fst ↔
      k' ∈ m.map Prod.fst ∨
      ∃ j, j < hs.length ∧ k' = "requestheader" ++ Itoa ((i + j : Nat) : Int) := by
  induction hs generalizing i m with
  | nil => simp [setRequestHeaders]
  | cons k rest ih =>
    unfold setRequestHeaders
    rw [ih, key_mapSet]
    constructor
    · rintro ((h | h) | ⟨j, hj, h⟩)
      · exact Or.inr ⟨0, Nat.zero_lt_succ _, by rw [Nat.add_zero]; exact h⟩
      · exact Or.inl h
      · refine Or.inr ⟨j + 1, Nat.succ_lt_succ hj, ?_⟩
        rw [show i + (j + 1) = i + 1 + j by omega]
        exact h
    · rintro (h | ⟨j, hj, h⟩)
      · exact Or.inl (Or.inr h)
      · cases j with
        | zero =>
          rw [Nat.add_zero] at h
          exact Or.inl (Or.inl h)
        | succ j =>
          refine Or.inr ⟨j, Nat.lt_of_succ_lt_succ hj, ?_⟩
          rw [show i + 1 + j = i + (j + 1) by omega]
          exact h

theorem mem_setRequestHeaders_index (rh : Params) (hs : List String) (i : Nat) (m : Params)
    (hnd : (m.map Prod.fst).Nodup) (j : Nat) (hj : j < hs.length) (v : String) :
    ("requestheader" ++ Itoa ((i + j : Nat) : Int), v) ∈ setRequestHeaders rh hs i m ↔
      v = hs[j] ++ ":" ++ mapIndex rh hs[j] := by
  induction hs generalizing i m j with
  | nil => cases hj
  | cons k rest ih =>
    unfold setRequestHeaders
    cases j with
    | zero =>
      rw [Nat.add_zero, mem_setRequestHeaders_other]
      · simp only [List.getElem_cons_zero]
        exact mem_mapSet_self _ _ _ _ hnd
      · intro j' _ e
        have := requestheader_key_injective _ _ e
        omega
    | succ j =>
      have hj' : j < rest.length := Nat.lt_of_succ_lt_succ hj
      have := ih (i + 1)
        (mapSet m ("requestheader" ++ Itoa (i : Int)) (k ++ ":" ++ mapIndex rh k))
        (mapSet_nodup m _ _ hnd) j hj'
      rw [show i + 1 + j = i + (j + 1) by omega] at this
      simp only [List.getElem_cons_succ]
      exact this

theorem setRequestHeaders_congr (rh rh' : Params) (hs : List String) (i : Nat) (m : Params)
    (h : ∀ k ∈ hs, mapIndex rh k = mapIndex rh' k) :
    setRequestHeaders rh hs i m = setRequestHeaders rh' hs i m := by
  induction hs generalizing i m with
  | nil => rfl
  | cons k rest ih =>
    unfold setRequestHeaders
    rw [h k (List.mem_cons_self _ _), ih _ _ fun x hx => h x (List.mem_cons_of_mem _ hx)]

theorem keys_all_mapSet (P : String → Prop) (m : Params) (k v : String)
    (hm : ∀ x ∈ m.map Prod.fst, P x) (hk : P k) : ∀ x ∈ (mapSet m k v).map Prod.fst, P x := by
  intro x hx
  rcases (key_mapSet m k v x).1 hx with e | h
  · exact e ▸ hk
  · exact hm x h

theorem keys_all_setIf (P : String → Prop) (c : Prop) [Decidable c] (m : Params)
    (k v : String) (hm : ∀ x ∈ m.map Prod.fst, P x) (hk : P k) :
    ∀ x ∈ (setIf c m k v).map Prod.fst, P x := by
  unfold setIf
  split
  · exact keys_all_mapSet P m k v hm hk
  · exact hm

theorem keys_all_setSome (P : String → Prop) (m : Params) (k : String) (o : Option String)
    (hm : ∀ x ∈ m.map Prod.fst, P x) (hk : P k) :
    ∀ x ∈ (setSome m k o).map Prod.fst, P x := by
  cases o with
  | none => exact hm
  | some v => exact keys_all_mapSet P m k v hm hk

/-- The map of `HttpCheck.PutParams` is the result of the header loop on the map of the
check without request headers, which has distinct keys, none of which starts with
"requestheader". -/
theorem putParams_shape (ck : HttpCheck) :
    (∀ rh : Params,
      ({ ck with RequestHeaders := rh } : HttpCheck).PutParams
        = setRequestHeaders rh (sortStrings (rh.map Prod.fst)) 0
            ({ ck with RequestHeaders := [] } : HttpCheck).PutParams) ∧
    ((({ ck with RequestHeaders := [] } : HttpCheck).PutParams).map Prod.fst).Nodup ∧
    ∀ x ∈ (({ ck with RequestHeaders := [] } : HttpCheck).PutParams).map Prod.fst,
      "requestheader".toList.isPrefixOf x.toList = false := by
  have basep : ∀ m : Params,
      (∀ x ∈ m.map Prod.fst, "requestheader".toList.isPrefixOf x.toList = false) →
      ∀ x ∈ (if ck.ShouldContain ≠ "" then mapSet m "shouldcontain" ck.ShouldContain
        else mapSet m "shouldnotcontain" ck.ShouldNotContain).map Prod.fst,
        "requestheader".toList.isPrefixOf x.toList = false := by
    intro m hm
    split
    · exact keys_all_mapSet _ _ _ _ hm (by decide)
    · exact keys_all_mapSet _ _ _ _ hm (by decide)
  have hIf : ∀ (c : Prop) [Decidable c] (m : Params) (k v : String),
      (∀ x ∈ m.map Prod.fst, "requestheader".toList.isPrefixOf x.toList = false) →
      "requestheader".toList.isPrefixOf k.toList = false →
      ∀ x ∈ (setIf c m k v).map Prod.fst,
        "requestheader".toList.isPrefixOf x.toList = false :=
    fun c _ m k v => keys_all_setIf _ c m k v
  have hSome : ∀ (m : Params) (k : String) (o : Option String),
      (∀ x ∈ m.map Prod.fst, "requestheader".toList.isPrefixOf x.toList = false) →
      "requestheader".toList.isPrefixOf k.toList = false →
      ∀ x ∈ (setSome m k o).map Prod.fst,
        "requestheader".toList.isPrefixOf x.toList = false :=
    fun m k o => keys_all_setSome _ m k o
  refine ⟨fun rh => rfl, putParams_nodup_HttpCheck _, ?_⟩
  unfold HttpCheck.PutParams
  simp only [List.map_nil, sortStrings, setRequestHeaders]
  refine hIf _ _ _ _ ?_ (by decide)
  apply basep
  repeat (first
    | refine hIf _ _ _ _ ?_ (by decide)
    | refine hSome _ _ _ ?_ (by decide))
  simp only [List.map_cons, List.map_nil]
  decide

end pingdom

open pingdom in
/-- C35: let `names` be the names of the request headers of an HTTP check in strictly
ascending order.  For every index `i` below their number, the map of `PutParams` has the
key "requestheader" followed by `i`, and its value is the name `names[i]`, a colon, and the
value of that header.  Every key of the map that starts with "requestheader" is one of
these.  The map is the same for every order in which the headers are visited. -/
theorem C35_request_headers (ck : HttpCheck) (names : List String)
    (hp : names.Perm (ck.RequestHeaders.map Prod.fst))
    (hs : names.Pairwise fun a b => strLt a b = true) :
    names.length = ck.RequestHeaders.length ∧
    (∀ (i : Nat) (hi : i < names.length),
      ∃ value, (names[i], value) ∈ ck.RequestHeaders ∧
        ∀ v, ("requestheader" ++ Itoa (i : Int), v) ∈ ck.PutParams ↔
          v = names[i] ++ ":" ++ value) ∧
    (∀ k ∈ ck.PutParams.map Prod.fst, "requestheader".toList.isPrefixOf k.toList = true →
      ∃ i, i < names.length ∧ k = "requestheader" ++ Itoa (i : Int)) ∧
    (∀ rh : Params, rh.Perm ck.RequestHeaders →
      ({ ck with RequestHeaders := rh } : HttpCheck).PutParams = ck.PutParams) := by
  obtain ⟨hshape, hmnd, hmpre⟩ := putParams_shape ck
  have hnd : (ck.RequestHeaders.map Prod.fst).Nodup := by
    apply hp.nodup_iff.1
    exact hs.imp fun {a b} h e => by
      rw [e, strLt_irrefl] at h
      cases h
  have hput : ck.PutParams
      = setRequestHeaders ck.RequestHeaders names 0
          ({ ck with RequestHeaders := [] } : HttpCheck).PutParams := by
    have := hshape ck.RequestHeaders
    rw [sortStrings_unique hp hs] at this
    exact this
  have hval : ∀ k ∈ names, ∃ value, (k, value) ∈ ck.RequestHeaders := by
    intro k hk
    obtain ⟨e, he, hek⟩ := List.mem_map.1 (hp.mem_iff.1 hk)
    exact ⟨e.2, by rw [← hek]; exact he⟩
  refine ⟨by rw [hp.length_eq, List.length_map], ?_, ?_, ?_⟩
  · intro i hi
    obtain ⟨value, hmem⟩ := hval names[i] (List.getElem_mem hi)
    refine ⟨value, hmem, fun v => ?_⟩
    have key := mem_setRequestHeaders_index ck.RequestHeaders names 0 _ hmnd i hi v
    rw [Nat.zero_add, mapIndex_of_mem _ _ _ hnd hmem, ← hput] at key
    exact key
  · intro k hk hpre
    rw [hput] at hk
    rcases (key_setRequestHeaders _ _ _ _ k).1 hk with h | ⟨j, hj, h⟩
    · have := hmpre k h
      rw [hpre] at this
      cases this
    · exact ⟨j, hj, by rw [h, Nat.zero_add]⟩
  · intro rh hperm
    have hp' : names.Perm (rh.map Prod.fst) := hp.trans (hperm.map Prod.fst).symm
    have hnd' : (rh.map Prod.fst).Nodup := (hperm.map Prod.fst).nodup_iff.2 hnd
    rw [hput, hshape rh, sortStrings_unique hp' hs]
    apply setRequestHeaders_congr
    intro k hk
    obtain ⟨value, hmem⟩ := hval k hk
    rw [mapIndex_of_mem _ _ _ hnd hmem, mapIndex_of_mem _ _ _ hnd' (hperm.mem_iff.2 hmem)]

open pingdom in
/-- C35 (witness): a check with the headers `{"b": "1", "a": "2"}`, visited in this order,
has "requestheader0" = "a:2" and "requestheader1" = "b:1". -/
theorem C35_request_headers_witness :
    ("requestheader0", "a:2")
      ∈ ({ httpCheckOf "n" "h" 5 "" "" with
           RequestHeaders := [("b", "1"), ("a", "2")] } : HttpCheck).PutParams ∧
    ("requestheader1", "b:1")
      ∈ ({ httpCheckOf "n" "h" 5 "" "" with
           RequestHeaders := [("b", "1"), ("a", "2")] } : HttpCheck).PutParams ∧
    ({ httpCheckOf "n" "h" 5 "" "" with
       RequestHeaders := [("a", "2"), ("b", "1")] } : HttpCheck).PutParams
      = ({ httpCheckOf "n" "h" 5 "" "" with
           RequestHeaders := [("b", "1"), ("a", "2")] } : HttpCheck).PutParams :=
  have h := C35_request_headers
    ({ httpCheckOf "n" "h" 5 "" "" with RequestHeaders := [("b", "1"), ("a", "2")] } : HttpCheck)
    ["a", "b"] (List.Perm.swap _ _ _) (by decide)
  have h0 := h.2.1 0 (by decide)
  have h1 := h.2.1 1 (by decide)
  ⟨by
      obtain ⟨value, hmem, hv⟩ := h0
      have e : value = "2" := by
        revert hmem
        simp
      subst e
      exact (hv _).2 rfl,
    by
      obtain ⟨value, hmem, hv⟩ := h1
      have e : value = "1" := by
        revert hmem
        simp
      subst e
      exact (hv _).2 rfl,
    h.2.2.2 [("a", "2"), ("b", "1")] (List.Perm.swap _ _ _)⟩

namespace pingdom

theorem utf8Bytes_lt (c : Char) : ∀ b ∈ utf8Bytes c, b < 256 := by
  have hc : c.toNat < 0x110000 := by
    rcases c.valid with h | h
    · have : c.toNat < 0xD800 := h
      omega
    · exact h.2
  intro b hb
  unfold utf8Bytes at hb
  simp only at hb
  split at hb
  · simp only [List.mem_singleton] at hb
    omega
  · split at hb
    · simp only [List.mem_cons, List.mem_singleton, List.not_mem_nil, or_false] at hb
      omega
    · split at hb
      · simp only [List.mem_cons, List.mem_singleton, List.not_mem_nil, or_false] at hb
        omega
      · simp only [List.mem_cons, List.mem_singleton, List.not_mem_nil, or_false] at hb
        omega

/-- The UTF-8 bytes of a character determine the character and where it ends. -/
theorem utf8Bytes_append_inj (c d : Char) (r₁ r₂ : List Nat)
    (h : utf8Bytes c ++ r₁ = utf8Bytes d ++ r₂) : c = d ∧ r₁ = r₂ := by
  have hc : c.toNat < 0x110000 := by
    rcases c.valid with h | h
    · have : c.toNat < 0xD800 := h
      omega
    · exact h.2
  have hd : d.toNat < 0x110000 := by
    rcases d.valid with h | h
    · have : d.toNat < 0xD800 := h
      omega
    · exact h.2
  unfold utf8Bytes at h
  simp only at h
  have key : c.toNat = d.toNat ∧ r₁ = r₂ := by
    split at h <;> split at h <;>
      (try split at h) <;> (try split at h) <;> (try split at h) <;> (try split at h) <;>
      simp only [List.cons_append, List.nil_append, List.cons.injEq] at h <;>
      first
        | exact ⟨by omega, by
            first
              | exact h.2
              | exact h.2.2
              | exact h.2.2.2
              | exact h.2.2.2.2⟩
        | (exfalso; omega)
  exact ⟨Char.toNat_eq key.1, key.2⟩

theorem utf8_injective_list (s t : List Char)
    (h : s.flatMap utf8Bytes = t.flatMap utf8Bytes) : s = t := by
  induction s generalizing t with
  | nil =>
    cases t with
    | nil => rfl
    | cons d t =>
      exfalso
      rw [List.flatMap_nil, List.flatMap_cons] at h
      unfold utf8Bytes at h
      simp only at h
      repeat' split at h
      all_goals cases h
  | cons c s ih =>
    cases t with
    | nil =>
      exfalso
      rw [List.flatMap_nil, List.flatMap_cons] at h
      unfold utf8Bytes at h
      simp only at h
      repeat' split at h
      all_goals cases h
    | cons d t =>
      rw [List.flatMap_cons, List.flatMap_cons] at h
      obtain ⟨e, hr⟩ := utf8Bytes_append_inj c d _ _ h
      rw [e, ih t hr]

/-- Two strings with the same bytes are the same string. -/
theorem utf8_injective (s t : String) (h : utf8 s = utf8 t) : s = t :=
  String.ext (utf8_injective_list _ _ h)

end pingdom

namespace pingdom

theorem hexVal_hexDigit : ∀ n : Nat, n < 16 → hexVal (hexDigit n) = some n := by
  decide

set_option maxRecDepth 100000 in
theorem unreserved_char : ∀ b : Nat, b < 256 → unreserved b = true →
    (Char.ofNat b == '%') = false ∧ (Char.ofNat b == '+') = false ∧
    utf8Bytes (Char.ofNat b) = [b] := by
  decide

set_option maxRecDepth 100000 in
theorem escapeByte_chars : ∀ b : Nat, b < 256 →
    ∀ c ∈ escapeByte b, c ≠ '&' ∧ c ≠ '=' ∧ c ≠ ';' := by
  decide

theorem QueryUnescape_escapeByte (b : Nat) (hb : b < 256) (rest : List Char) :
    QueryUnescape (escapeByte b ++ rest) = (QueryUnescape rest).map fun r => b :: r := by
  unfold escapeByte
  by_cases hu : unreserved b = true
  · obtain ⟨h1, h2, h3⟩ := unreserved_char b hb hu
    rw [if_pos hu]
    simp only [List.cons_append, List.nil_append]
    conv => lhs; unfold QueryUnescape
    simp only [h1, h2, h3, Bool.false_eq_true, if_false, List.cons_append, List.nil_append]
  · rw [if_neg hu]
    by_cases h32 : b = 32
    · subst h32
      simp only [beq_self_eq_true, if_true, List.cons_append, List.nil_append]
      conv => lhs; unfold QueryUnescape
      rfl
    · have hb32 : (b == 32) = false := beq_eq_false_iff_ne.2 h32
      simp only [hb32, Bool.false_eq_true, if_false, List.cons_append, List.nil_append]
      conv => lhs; unfold QueryUnescape
      have hx := hexVal_hexDigit (b / 16) (by omega)
      have hy := hexVal_hexDigit (b % 16) (by omega)
      have hsum : 16 * (b / 16) + b % 16 = b := by omega
      simp only [beq_self_eq_true, if_true, hx, hy, hsum]

theorem QueryUnescape_escapeBytes (bs : List Nat) (hbs : ∀ b ∈ bs, b < 256)
    (rest : List Char) :
    QueryUnescape (bs.flatMap escapeByte ++ rest)
      = (QueryUnescape rest).map fun r => bs ++ r := by
  induction bs with
  | nil => simp
  | cons b bs ih =>
    rw [List.flatMap_cons, List.append_assoc,
      QueryUnescape_escapeByte b (hbs b (List.mem_cons_self _ _)),
      ih fun x hx => hbs x (List.mem_cons_of_mem _ hx)]
    cases QueryUnescape rest <;> rfl

/-- Unescaping an escaped string gives back the bytes of the string. -/
theorem QueryUnescape_QueryEscape (s : String) :
    QueryUnescape (QueryEscape s).toList = some (utf8 s) := by
  have key : ∀ cs : List Char,
      QueryUnescape (cs.flatMap fun c => (utf8Bytes c).flatMap escapeByte)
        = some (cs.flatMap utf8Bytes) := by
    intro cs
    induction cs with
    | nil => rfl
    | cons c cs ih =>
      rw [List.flatMap_cons, QueryUnescape_escapeBytes _ (utf8Bytes_lt c), ih]
      rfl
  exact key s.toList

/-- The characters of an escaped string: none is `&`, `=` or `;`. -/
theorem QueryEscape_chars (s : String) :
    ∀ c ∈ (QueryEscape s).toList, c ≠ '&' ∧ c ≠ '=' ∧ c ≠ ';' := by
  intro c hc
  have hc' : c ∈ s.toList.flatMap fun c => (utf8Bytes c).flatMap escapeByte := hc
  obtain ⟨d, _, hd⟩ := List.mem_flatMap.1 hc'
  obtain ⟨b, hb, hcb⟩ := List.mem_flatMap.1 hd
  exact escapeByte_chars b (utf8Bytes_lt d b hb) c hcb

end pingdom

namespace pingdom

theorem intercalate_go_data (sep acc : String) (xs : List String) :
    (String.intercalate.go acc sep xs).toList
      = acc.toList ++ xs.flatMap fun x => sep.toList ++ x.toList := by
  induction xs generalizing acc with
  | nil => simp [String.intercalate.go]
  | cons x rest ih =>
    unfold String.intercalate.go
    rw [ih]
    simp [String.toList]

/-- The parts of a text joined by `&` are its pieces, when no piece has an `&`. -/
theorem splitAll_joined (first : List Char) (rest : List (List Char))
    (h1 : ∀ c ∈ first, c ≠ '&') (hr : ∀ x ∈ rest, ∀ c ∈ x, c ≠ '&') :
    pingdomext.splitAll '&' (first ++ rest.flatMap fun x => '&' :: x) = first :: rest := by
  induction rest generalizing first with
  | nil =>
    rw [List.flatMap_nil, List.append_nil]
    exact pingdomext.splitAll_no_sep '&' first h1
  | cons x rest ih =>
    rw [List.flatMap_cons, List.cons_append, pingdomext.splitAll_append '&' first _ h1,
      ih x (hr x (List.mem_cons_self _ _)) fun y hy => hr y (List.mem_cons_of_mem _ hy)]

/-- One escaped pair `key=value` is read back as the bytes of the key and of the value. -/
theorem parseQueryPart_pair (m : ByteValues) (k v : String) :
    parseQueryPart m ((QueryEscape k).toList ++ '=' :: (QueryEscape v).toList)
      = ByteValues.Add m (utf8 k) (utf8 v) := by
  have hsemi : ((QueryEscape k).toList ++ '=' :: (QueryEscape v).toList).contains ';'
      = false := by
    rw [List.contains_eq_any_beq, List.any_eq_false]
    intro c hc
    rw [List.mem_append, List.mem_cons] at hc
    have hne : c ≠ ';' := by
      rcases hc with hc | rfl | hc
      · exact (QueryEscape_chars k c hc).2.2
      · decide
      · exact (QueryEscape_chars v c hc).2.2
    simpa using fun e : ';' = c => hne e.symm
  have hempty : ((QueryEscape k).toList ++ '=' :: (QueryEscape v).toList).isEmpty = false := by
    cases (QueryEscape k).toList <;> rfl
  have hcut : cutAt '=' ((QueryEscape k).toList ++ '=' :: (QueryEscape v).toList)
      = ((QueryEscape k).toList, some (QueryEscape v).toList) :=
    pingdomext.cutAt_append '=' _ _ fun c hc => (QueryEscape_chars k c hc).2.1
  unfold parseQueryPart
  simp only [hsemi, hempty, hcut, Option.getD_some, QueryUnescape_QueryEscape,
    Bool.false_eq_true, if_false]

theorem byteValues_Add_not_mem (acc : ByteValues) (k v : List Nat)
    (h : ∀ x ∈ acc, x.1 ≠ k) : ByteValues.Add acc k v = acc ++ [(k, [v])] := by
  induction acc with
  | nil => rfl
  | cons e rest ih =>
    obtain ⟨k', vs⟩ := e
    have hk : k' ≠ k := h (k', vs) (List.mem_cons_self _ _)
    simp only [ByteValues.Add, if_neg hk, List.cons_append]
    rw [ih fun x hx => h x (List.mem_cons_of_mem _ hx)]

theorem foldl_parseQueryPart (pairs : List (String × String)) (acc : ByteValues)
    (hnd : (pairs.map Prod.fst).Nodup)
    (hdis : ∀ x ∈ acc, ∀ y ∈ pairs, x.1 ≠ utf8 y.1) :
    (pairs.map fun kv => (QueryEscape kv.1).toList ++ '=' :: (QueryEscape kv.2).toList).foldl
        parseQueryPart acc
      = acc ++ pairs.map fun kv => (utf8 kv.1, [utf8 kv.2]) := by
  induction pairs generalizing acc with
  | nil => simp
  | cons p rest ih =>
    rw [List.map_cons, List.nodup_cons] at hnd
    rw [List.map_cons, List.foldl_cons, parseQueryPart_pair,
      byteValues_Add_not_mem acc _ _ fun x hx => hdis x hx p (List.mem_cons_self _ _)]
    rw [ih _ hnd.2]
    · simp
    · intro x hx y hy
      rcases List.mem_append.1 hx with hx | hx
      · exact hdis x hx y (List.mem_cons_of_mem _ hy)
      · simp only [List.mem_singleton] at hx
        subst hx
        intro e
        have := utf8_injective _ _ e
        exact hnd.1 (this ▸ List.mem_map_of_mem Prod.fst hy)

/-- Decoding the `&`-joined escaped pairs of entries with distinct keys gives back the
entries, in order, by their bytes. -/
theorem ParseQuery_joined (pairs : List (String × String))
    (hnd : (pairs.map Prod.fst).Nodup) :
    ParseQuery ("&".intercalate
        (pairs.map fun kv => QueryEscape kv.1 ++ "=" ++ QueryEscape kv.2))
      = pairs.map fun kv => (utf8 kv.1, [utf8 kv.2]) := by
  cases pairs with
  | nil => rfl
  | cons p rest =>
    have hdata : ("&".intercalate
        ((p :: rest).map fun kv => QueryEscape kv.1 ++ "=" ++ QueryEscape kv.2)).toList
        = ((QueryEscape p.1).toList ++ '=' :: (QueryEscape p.2).toList)
          ++ (rest.map fun kv =>
              (QueryEscape kv.1).toList ++ '=' :: (QueryEscape kv.2).toList).flatMap
            fun x => '&' :: x := by
      rw [List.map_cons]
      unfold String.intercalate
      rw [intercalate_go_data, List.flatMap_map, List.flatMap_map]
      simp [String.toList]
    have hamp : ∀ kv : String × String,
        ∀ c ∈ (QueryEscape kv.1).toList ++ '=' :: (QueryEscape kv.2).toList, c ≠ '&' := by
      intro kv c hc
      rw [List.mem_append, List.mem_cons] at hc
      rcases hc with hc | rfl | hc
      · exact (QueryEscape_chars kv.1 c hc).1
      · decide
      · exact (QueryEscape_chars kv.2 c hc).1
    unfold ParseQuery
    rw [hdata, splitAll_joined _ _ (hamp p)]
    · have := foldl_parseQueryPart (p :: rest) [] hnd (by simp)
      simpa using this
    · intro x hx
      obtain ⟨kv, _, rfl⟩ := List.mem_map.1 hx
      exact hamp kv

end pingdom

namespace pingdom

/-- The entries of a single-valued map with distinct keys, in ascending order of their
keys: a list that `Values.Encode` writes pair by pair. -/
theorem Encode_setAll_sorted (ps : List (String × String)) (hnd : (ps.map Prod.fst).Nodup) :
    ∃ sorted : List (String × String),
      sorted.Perm ps ∧
      sorted.Pairwise (fun a b => strLt a.1 b.1 = true) ∧
      Values.Encode (setAll ps)
        = "&".intercalate (sorted.map fun kv => QueryEscape kv.1 ++ "=" ++ QueryEscape kv.2) := by
  have hndf : ((ps.map fun kv => (kv.1, [kv.2])).map Prod.fst).Nodup := by
    rw [List.map_map]
    exact hnd
  have hperm := sortByKey_perm (ps.map fun kv => (kv.1, [kv.2]))
  have hsorted := sortByKey_sorted (ps.map fun kv => (kv.1, [kv.2])) hndf
  have hshape : ∀ e ∈ sortByKey (ps.map fun kv => (kv.1, [kv.2])),
      (fun kv : String × String => (kv.1, [kv.2])) (e.1, e.2.headD "") = e := by
    intro e he
    obtain ⟨kv, _, rfl⟩ := List.mem_map.1 (hperm.mem_iff.1 he)
    rfl
  have hback : ((sortByKey (ps.map fun kv => (kv.1, [kv.2]))).map
      fun e => (e.1, e.2.headD "")).map (fun kv : String × String => (kv.1, [kv.2]))
      = sortByKey (ps.map fun kv => (kv.1, [kv.2])) := by
    rw [List.map_map]
    conv => rhs; rw [← List.map_id (sortByKey (ps.map fun kv => (kv.1, [kv.2])))]
    exact List.map_congr_left fun e he => hshape e he
  refine ⟨(sortByKey (ps.map fun kv => (kv.1, [kv.2]))).map fun e => (e.1, e.2.headD ""),
    ?_, ?_, ?_⟩
  · have h1 := hperm.map fun e : String × List String => (e.1, e.2.headD "")
    rw [List.map_map] at h1
    have h2 : (ps.map ((fun e : String × List String => (e.1, e.2.headD ""))
        ∘ fun kv : String × String => (kv.1, [kv.2]))) = ps := by
      conv => rhs; rw [← List.map_id ps]
      exact List.map_congr_left fun kv _ => rfl
    rw [h2] at h1
    exact h1
  · rw [List.pairwise_map]
    exact hsorted
  · rw [setAll_eq ps hnd]
    unfold Values.Encode
    generalize ((sortByKey (ps.map fun kv => (kv.1, [kv.2]))).map
      fun e => (e.1, e.2.headD "")) = S at hback ⊢
    rw [← hback]
    congr 1
    clear hback
    induction S with
    | nil => rfl
    | cons e rest ih =>
      rw [List.map_cons, List.flatMap_cons, List.map_cons, ih]
      rfl

end pingdom

open pingdom pingdomext in
/-- C31: for a single-valued params map (a list of entries with distinct keys, in the order
of this run), let `sorted` be its entries in strictly ascending order of their keys.  The
query string that `NewRequest` of either package writes is the list of the escaped pairs
`key=value` of `sorted`, joined by `&`, so every key appears once, with its escaped value,
and the keys ascend.  `url.ParseQuery` reads it back as exactly the entries of `sorted`,
each key with the single value of the map, by their bytes, and equal bytes mean equal
strings.  The query string is the same for every order in which the map is visited.  The
request is built when the method is a token and the URL parses, the library being taken to
read the URL with this query back from its rendering. -/
theorem C31_canonical_query (rt : Runtime) (pc : pingdom.Client) (pcx : pingdomext.Client)
    (method rsc : String) (ps : List (String × String)) (hnd : (ps.map Prod.fst).Nodup) :
    ∃ sorted : List (String × String),
      sorted.Perm ps ∧
      sorted.Pairwise (fun a b => strLt a.1 b.1 = true) ∧
      Values.Encode (setAll ps)
        = "&".intercalate
            (sorted.map fun kv => QueryEscape kv.1 ++ "=" ++ QueryEscape kv.2) ∧
      ParseQuery (Values.Encode (setAll ps))
        = sorted.map (fun kv => (utf8 kv.1, [utf8 kv.2])) ∧
      (∀ s t : String, utf8 s = utf8 t → s = t) ∧
      (∀ ps' : List (String × String), ps.Perm ps' →
        Values.Encode (setAll ps') = Values.Encode (setAll ps)) ∧
      (∀ u, rt.urlParse (pc.BaseURL.String ++ rsc) = .ok u →
        ReadsBack rt { u with RawQuery := Values.Encode (setAll ps) } →
        (effectiveMethod method).toList.all isTokenChar = true →
        ∃ req, pc.NewRequest rt method rsc (some ps) = (some req, none) ∧
          req.URL.RawQuery = Values.Encode (setAll ps)) ∧
      (∀ u, rt.urlParse (pcx.BaseURL.String ++ rsc) = .ok u →
        ReadsBack rt { u with RawQuery := Values.Encode (setAll ps) } →
        (effectiveMethod method).toList.all isTokenChar = true →
        ∃ req, pcx.NewRequest rt method rsc (some ps) = (some req, none) ∧
          req.URL.RawQuery = Values.Encode (setAll ps)) := by
  obtain ⟨sorted, hperm, hsorted, henc⟩ := Encode_setAll_sorted ps hnd
  have hnds : (sorted.map Prod.fst).Nodup := (hperm.map Prod.fst).nodup_iff.2 hnd
  refine ⟨sorted, hperm, hsorted, henc, ?_, utf8_injective,
    fun ps' hp => (Encode_setAll_perm hnd hp).symm, ?_, ?_⟩
  · rw [henc]
    exact ParseQuery_joined sorted hnds
  · intro u hu hb hm
    have hr := httpNewRequest_of_parse rt method _ none _ hm hb
    refine ⟨pc.addAuthHeaders
      { Method := effectiveMethod method,
        URL := { u with RawQuery := Values.Encode (setAll ps) }, Header := [], Body := none },
      ?_, ?_⟩
    · unfold pingdom.Client.NewRequest
      simp only [hu, hr]
    · rw [(addAuthHeaders_frame pc _).2.1]
  · intro u hu hb hm
    have hr := httpNewRequest_of_parse rt method _ none _ hm hb
    by_cases hmode : pcx.useAPITokenOnly = true
    · refine ⟨{ Method := effectiveMethod method,
                URL := { u with RawQuery := Values.Encode (setAll ps) },
                Header := Header.Add [] "Authorization" ("Bearer " ++ pcx.APITokenOnly),
                Body := none }, ?_, rfl⟩
      unfold pingdomext.Client.NewRequest
      simp only [hu, hr, hmode, if_true]
    · refine ⟨AddCookie
        { Method := effectiveMethod method,
          URL := { u with RawQuery := Values.Encode (setAll ps) }, Header := [], Body := none }
        { Name := "jwt", Value := pcx.JWTToken }, ?_, ?_⟩
      · unfold pingdomext.Client.NewRequest
        simp only [hu, hr, hmode, Bool.false_eq_true, if_false]
      · rw [(AddCookie_method_url _ _).2]

open pingdom pingdomext in
/-- C31 (witness): the map `{"b c": "é&", "a": "1"}`, visited in this order, gives the query
string "a=1&b+c=%C3%A9%26", which is read back as the key `a` with the value `1` and the
key `b c` with the value `é&`. -/
theorem C31_canonical_query_witness :
    Values.Encode (setAll [("b c", "é&"), ("a", "1")]) = "a=1&b+c=%C3%A9%26" ∧
    ParseQuery "a=1&b+c=%C3%A9%26" = [(utf8 "a", [utf8 "1"]), (utf8 "b c", [utf8 "é&"])] ∧
    ∃ sorted : List (String × String),
      sorted.Perm [("b c", "é&"), ("a", "1")] ∧
      ParseQuery (Values.Encode (setAll [("b c", "é&"), ("a", "1")]))
        = sorted.map (fun kv => (utf8 kv.1, [utf8 kv.2])) :=
  have h := C31_canonical_query (sampleRuntime noEnv) bothTokens
    (pingdomext.clientOn (answering 200 "")) "GET" "/checks" [("b c", "é&"), ("a", "1")]
    (by decide)
  ⟨by decide, by decide,
    by
      obtain ⟨sorted, hperm, _, _, hparse, _⟩ := h
      exact ⟨sorted, hperm, hparse⟩⟩
